import Mathlib

/-!
# Host monitoring of the assisted-service (`internal/host/monitor.go`)

A shallow embedding of the reconciliation cycle of `internal/host/monitor.go`:

* `SortHosts`, the ordering of the hosts of a cluster by a weight computed from
  their inventory, together with the flag telling whether the comparison ever
  met a host without inventory;
* `HostMonitoring`, the leader-guarded cycle over the cluster batches and the
  infra-env batches, as a function from the answers of the collaborators to
  the trace of calls the cycle performs.

The weight is a Go `float64`.  Binary64 arithmetic is embedded exactly
(`F64`): every finite binary64 number is an integer multiple of `2^-1074`, and
`F64` stores that integer.
-/

namespace F64Impl

/-- Second phase of `bitLen`: `n < 2 ^ w` is narrowed down by halving the window. -/
def bitLenDown : Nat → Nat → Nat → Nat
  | 0, _, n => if n = 0 then 0 else 1
  | fuel + 1, w, n =>
    if w ≤ 1 then (if n = 0 then 0 else 1)
    else if n >>> (w / 2) = 0 then bitLenDown fuel (w / 2) n
    else w / 2 + bitLenDown fuel (w - w / 2) (n >>> (w / 2))

/-- First phase of `bitLen`: a window `w` with `n < 2 ^ w`, found by doubling. -/
def bitLenUp : Nat → Nat → Nat → Nat
  | 0, w, _ => w
  | fuel + 1, w, n => if n >>> w = 0 then w else bitLenUp fuel (2 * w + 1) n

/-- Number of binary digits of `n` (`0` for `0`). -/
def bitLen (n : Nat) : Nat :=
  bitLenDown (bitLenUp n 1 n) (bitLenUp n 1 n) n

/-- Nearest multiple of `2 ^ k` to the natural number `a`, a tie going to the
even multiple (the rounding mode of Go's float64 arithmetic). -/
def roundNat (a k : Nat) : Nat :=
  let q := a >>> k
  let r := a - q <<< k
  let q1 :=
    if 2 * r < 1 <<< k then q
    else if 1 <<< k < 2 * r then q + 1
    else if q % 2 = 0 then q else q + 1
  q1 <<< k

/-- Rounding of a magnitude to 53 significant binary digits, never finer than
`2 ^ kmin`. -/
def roundSig (kmin a : Nat) : Nat := roundNat a (max kmin (bitLen a - 53))

/-- Rounding of an integer to 53 significant binary digits, never finer than
`2 ^ kmin`; the sign is kept and the magnitude rounded. -/
def round53 (kmin : Nat) (n : Int) : Int := Int.sign n * (roundSig kmin n.natAbs : Int)

end F64Impl

/-- A finite binary64 number, held as the integer `units` standing for
`units * 2 ^ (-1074)`.  The two zeros of binary64 compare equal and are one
value here; infinities and NaN cannot arise from the operations of the weight
formula on 64-bit integers and are not represented. -/
structure F64 where
  units : Int
  deriving DecidableEq, Repr

namespace F64

/-- The exponent of the unit: `2 ^ 1074` units make `1.0`. -/
def unitShift : Nat := 1074

/-- Conversion `float64(i)` of an integer: exact up to `2 ^ 53`, rounded above. -/
def ofInt (i : Int) : F64 :=
  ⟨F64Impl.round53 0 (i * ((1 <<< unitShift : Nat) : Int))⟩

/-- The binary64 sum `a + b`: the exact sum, rounded once. -/
def add (a b : F64) : F64 := ⟨F64Impl.round53 0 (a.units + b.units)⟩

/-- The binary64 difference `a - b`: the exact difference, rounded once. -/
def sub (a b : F64) : F64 := ⟨F64Impl.round53 0 (a.units - b.units)⟩

/-- The binary64 product `a * b`: the exact product, rounded once. -/
def mul (a b : F64) : F64 :=
  ⟨F64Impl.round53 unitShift (a.units * b.units) / ((1 <<< unitShift : Nat) : Int)⟩

instance : LT F64 := ⟨fun a b => a.units < b.units⟩
instance : LE F64 := ⟨fun a b => a.units ≤ b.units⟩
instance (a b : F64) : Decidable (a < b) := inferInstanceAs (Decidable (a.units < b.units))
instance (a b : F64) : Decidable (a ≤ b) := inferInstanceAs (Decidable (a.units ≤ b.units))

/-- The rational number a binary64 value stands for. -/
def toRat (a : F64) : ℚ := (a.units : ℚ) / (2 : ℚ) ^ unitShift

/-- The binary64 number nearest to `0.1`: `7205759403792794 * 2 ^ (-56)`. -/
def tenth : F64 := ⟨7205759403792794 * ((1 <<< 1018 : Nat) : Int)⟩

/-- The binary64 number nearest to `0.004`: `4611686018427388 * 2 ^ (-60)`. -/
def fourThousandths : F64 := ⟨4611686018427388 * ((1 <<< 1014 : Nat) : Int)⟩

end F64

namespace models

/-- Go `models.Disk`: the fields `SortHosts` reads.  `Eligible` is
`InstallationEligibility.Eligible`; `SizeBytes` is an `int64`. -/
structure Disk where
  Eligible : Bool
  SizeBytes : Int
  deriving DecidableEq, Repr

/-- Go `models.CPU`: `Count` is an `int64`. -/
structure CPU where
  Count : Int
  deriving DecidableEq, Repr

/-- Go `models.Memory`: `UsableBytes` is an `int64`. -/
structure Memory where
  UsableBytes : Int
  deriving DecidableEq, Repr

/-- Go `models.Inventory`: the sections `SortHosts` reads.  `CPU` and `Memory`
are pointers and may be nil; the entries of `Disks` are taken to be non-nil. -/
structure Inventory where
  CPU : Option CPU
  Memory : Option Memory
  Disks : List Disk
  deriving DecidableEq, Repr

/-- Go `models.Host`.  `Inventory` holds the outcome of
`common.UnmarshalInventory` on the host's inventory string: `none` when the
string is absent or does not parse.  `Status` is a `*string`. -/
structure Host where
  ID : String
  Status : Option String
  Inventory : Option Inventory
  deriving DecidableEq, Repr

end models

namespace host

open models

/-- Go's wrap-around of a 64-bit signed integer. -/
def wrapInt64 (x : Int) : Int := (x + 2 ^ 63) % 2 ^ 64 - 2 ^ 63

/-- Modelled from the spec: `conversions.BytesToGib` is not among the sources.
The spec has sizes "converted from bytes to gibibytes" (whole GiB); on `int64`
that is Go's integer division by `2 ^ 30`, which truncates toward zero. -/
def BytesToGib (bytes : Int) : Int := Int.tdiv bytes (2 ^ 30)

/-- Modelled from the spec: the calibration constants of the weight are
declared outside the sources; the spec gives 4 cores, 16 GiB, 100 GiB, 0.1
and 0.004, as does the comment above the formula in `SortHosts`. -/
def HostWeightMinimumCpuCores : F64 := F64.ofInt 4

/-- Modelled from the spec: see `HostWeightMinimumCpuCores`. -/
def HostWeightMinimumMemGib : F64 := F64.ofInt 16

/-- Modelled from the spec: see `HostWeightMinimumCpuCores`. -/
def HostWeightMinimumDiskCapacityGib : F64 := F64.ofInt 100

/-- Modelled from the spec: see `HostWeightMinimumCpuCores`. -/
def HostWeightMemWeight : F64 := F64.tenth

/-- Modelled from the spec: see `HostWeightMinimumCpuCores`. -/
def HostWeightDiskWeight : F64 := F64.fourThousandths

/-- The closure `diskCapacityGiB` of `SortHosts`: a left fold (`funk.Reduce`)
adding the whole GiB of every eligible disk in `int64`. -/
def diskCapacityGiB (disks : List Disk) : Int :=
  disks.foldl
    (fun acc d => if d.Eligible then wrapInt64 (acc + BytesToGib d.SizeBytes) else acc) 0

/-- The closure `cpuCount` of `SortHosts`. -/
def cpuCount (inventory : Inventory) : Int :=
  match inventory.CPU with
  | some cpu => cpu.Count
  | none => 0

/-- The closure `memInGib` of `SortHosts`. -/
def memInGib (inventory : Inventory) : Int :=
  match inventory.Memory with
  | some mem => BytesToGib mem.UsableBytes
  | none => 0

/-- The weight `wi` (and `wj`) computed by the comparison of `SortHosts`,
each operation rounded on its own:
`1.0*(float64(cpu)-4) + 0.1*(float64(mem)-16) + 0.004*(float64(disk)-100)`. -/
def hostWeight (inventory : Inventory) : F64 :=
  F64.add
    (F64.add
      (F64.mul (F64.ofInt 1) (F64.sub (F64.ofInt (cpuCount inventory)) HostWeightMinimumCpuCores))
      (F64.mul HostWeightMemWeight
        (F64.sub (F64.ofInt (memInGib inventory)) HostWeightMinimumMemGib)))
    (F64.mul HostWeightDiskWeight
      (F64.sub (F64.ofInt (diskCapacityGiB inventory.Disks)) HostWeightMinimumDiskCapacityGib))

/-- The comparison closure handed to `sort.SliceStable`.  It takes the current
value of `allHostsHasInventory` and returns the answer together with the new
value of the variable. -/
def SortHosts.less (allHostsHasInventory : Bool) (hi hj : Host) : Bool × Bool :=
  match hi.Inventory with
  | none => (false, false)
  | some inventory_i =>
    match hj.Inventory with
    | none => (true, false)
    | some inventory_j =>
      (decide (hostWeight inventory_i < hostWeight inventory_j), allHostsHasInventory)

/-- Inner loop of the insertion sort of `sort.SliceStable`
(`for j := i; j > a && less(j, j-1); j--` swapping `j` and `j-1`): the element
`x` moves left past its neighbours while it compares less.  The second
argument is the part of the slice before `x`, nearest neighbour first; the
result is that part with `x` inserted, in the same reversed order. -/
def SortHosts.sink (x : Host) : List Host → Bool → List Host × Bool
  | [], flag => ([x], flag)
  | y :: ys, flag =>
    if (SortHosts.less flag x y).1 then
      ((y :: (SortHosts.sink x ys (SortHosts.less flag x y).2).1),
        (SortHosts.sink x ys (SortHosts.less flag x y).2).2)
    else (x :: y :: ys, (SortHosts.less flag x y).2)

/-- Outer loop of the insertion sort (`for i := a + 1; i < b; i++`): the
elements still to come, the part already in order (reversed) and the flag. -/
def SortHosts.insertionSort : List Host → List Host → Bool → List Host × Bool
  | [], done, flag => (done.reverse, flag)
  | x :: xs, done, flag =>
    SortHosts.insertionSort xs (SortHosts.sink x done flag).1 (SortHosts.sink x done flag).2

/-- Go `SortHosts`: the hosts in the order `sort.SliceStable` leaves them and
the variable `allHostsHasInventory`.  `sort.SliceStable` is the stable sort of
the standard library: on a slice of up to 20 elements it is the insertion sort
embedded here, and on a longer slice it sorts runs of 20 elements in this way
and merges them in place.  It is embedded as the insertion sort over the whole
slice: the comparison is a strict weak order, under which a stable sort has
one result only, and in either procedure every host of a slice of two or more
hosts takes part in a comparison. -/
def SortHosts (hosts : List Host) : List Host × Bool :=
  SortHosts.insertionSort hosts [] true

/-- Weight of a host, when its inventory parses. -/
def weightOf (h : Host) : Option F64 := h.Inventory.map hostWeight

/-- The position of a host in the order of the comparison: its weight, and
the top element for a host without inventory. -/
def rank (h : Host) : WithTop Int := (weightOf h).map F64.units

/-- The weight as the specification writes it,
`(cpuCount - 4) + 0.1 * (memoryGiB - 16) + 0.004 * (eligibleDiskGiB - 100)`,
evaluated from left to right in binary64. -/
def specWeight (cpuCount memoryGiB eligibleDiskGiB : Int) : F64 :=
  F64.add
    (F64.add
      (F64.sub (F64.ofInt cpuCount) (F64.ofInt 4))
      (F64.mul F64.tenth (F64.sub (F64.ofInt memoryGiB) (F64.ofInt 16))))
    (F64.mul F64.fourThousandths (F64.sub (F64.ofInt eligibleDiskGiB) (F64.ofInt 100)))

/-- The inputs of the weight of an inventory are of magnitude at most
`2 ^ 40`: its CPU count, its usable memory in GiB and its eligible disk
capacity in GiB. -/
def inWeightRange (inventory : Inventory) : Prop :=
  (cpuCount inventory).natAbs ≤ 2 ^ 40 ∧ (memInGib inventory).natAbs ≤ 2 ^ 40 ∧
    (diskCapacityGiB inventory.Disks).natAbs ≤ 2 ^ 40

instance (inventory : Inventory) : Decidable (inWeightRange inventory) :=
  inferInstanceAs (Decidable (_ ∧ _ ∧ _))

/-- One GiB in bytes. -/
def GiB : Int := 2 ^ 30

/-- Scenario host H1: 8 cores, 32 GiB of usable memory, one eligible 200 GiB disk. -/
def H1 : Host :=
  { ID := "H1", Status := some "known",
    Inventory := some
      { CPU := some ⟨8⟩, Memory := some ⟨32 * GiB⟩, Disks := [⟨true, 200 * GiB⟩] } }

/-- Scenario host H2: 4 cores, 16 GiB of usable memory, no eligible disk (its
one disk is not eligible). -/
def H2 : Host :=
  { ID := "H2", Status := some "known",
    Inventory := some
      { CPU := some ⟨4⟩, Memory := some ⟨16 * GiB⟩, Disks := [⟨false, 500 * GiB⟩] } }

/-- Scenario host H3: no parseable inventory. -/
def H3 : Host := { ID := "H3", Status := some "discovering", Inventory := none }

/-- A host with `2 ^ 53 + 1` cores, 16 GiB of usable memory and no disk. -/
def manyCoresHost : Host :=
  { ID := "A", Status := some "known",
    Inventory := some { CPU := some ⟨2 ^ 53 + 1⟩, Memory := some ⟨16 * GiB⟩, Disks := [] } }

/-- A host with `2 ^ 53` cores that differs from `manyCoresHost` in nothing else
but its identifier. -/
def oneCoreLessHost : Host :=
  { ID := "B", Status := some "known",
    Inventory := some { CPU := some ⟨2 ^ 53⟩, Memory := some ⟨16 * GiB⟩, Disks := [] } }

end host

/-! ## The monitoring cycle -/

namespace common

/-- Go `common.Cluster`: the identifier and the hosts the monitor reads. -/
structure Cluster where
  ID : String
  Hosts : List models.Host
  deriving DecidableEq, Repr

/-- Go `common.InfraEnv`: the identifier and the hosts the monitor reads. -/
structure InfraEnv where
  ID : String
  Hosts : List models.Host
  deriving DecidableEq, Repr

end common

namespace host

open models common

/-- Level of a log line. -/
inductive LogLevel
  | debug
  | info
  | error
  deriving DecidableEq, Repr

/-- A call the monitor makes to one of its collaborators during one
invocation of `HostMonitoring`; durations and contexts are left out. -/
inductive Event
  /-- `m.leaderElector.IsLeader()` and its answer. -/
  | isLeader (answer : Bool)
  /-- One line written to the log. -/
  | log (level : LogLevel) (message : String)
  /-- `commonutils.MeasureOperation(name, ...)`: the measurement starts. -/
  | measureOperation (operation : String)
  /-- The function deferred by `HostMonitoring`: the total duration is reported. -/
  | reportOperationDuration (operation : String)
  /-- `m.initMonitoringQueryGenerator()`. -/
  | initMonitoringQueryGenerator
  /-- `common.ResetAutoAssignRoles(m.db, query)`. -/
  | resetAutoAssignRoles
  /-- `m.monitorClusterQueryGenerator.NewClusterQuery()`. -/
  | newClusterQuery
  /-- `query.Next()` on the cluster cursor. -/
  | clusterQueryNext
  /-- `m.monitorInfraEnvQueryGenerator.NewInfraEnvQuery()`. -/
  | newInfraEnvQuery
  /-- `query.Next()` on the infra-env cursor. -/
  | infraEnvQueryNext
  /-- `m.refreshStatusInternal(ctx, host, c, i, inventoryCache, m.db)`, with the
  identifier of the cluster or of the infra-env passed. -/
  | refreshStatus (host : Host) (cluster : Option String) (infraEnv : Option String)
  /-- `m.metricApi.MonitoredHostsDurationMs(duration)`. -/
  | monitoredHostsDurationMs
  /-- `m.refreshRoleInternal(ctx, host, m.db, force)`. -/
  | refreshRole (host : Host) (force : Bool)
  deriving DecidableEq, Repr

/-- The mutating calls: the auto-assign reset, the status refresh and the role
refresh. -/
def Event.isMutating : Event → Bool
  | .resetAutoAssignRoles => true
  | .refreshStatus _ _ _ => true
  | .refreshRole _ _ => true
  | _ => false

/-- What the collaborators answer during one invocation of `HostMonitoring`.
The cursors of `common` are not among the sources: a cursor is given by the
results of its successive `Next()` calls, and answers with an empty batch once
these are used up. -/
structure Answers where
  /-- Answer of the `n`-th call of `IsLeader()`, counted from 0. -/
  isLeader : Nat → Bool
  /-- Count returned by `common.ResetAutoAssignRoles`. -/
  resetCount : Nat
  /-- Whether `common.ResetAutoAssignRoles` returns an error. -/
  resetFails : Bool
  /-- Results of the successive `Next()` calls of the cluster cursor. -/
  clusterPages : List (Except String (List Cluster))
  /-- Results of the successive `Next()` calls of the infra-env cursor. -/
  infraEnvPages : List (Except String (List InfraEnv))
  /-- Whether the `n`-th call of `refreshStatusInternal` returns an error. -/
  refreshStatusFails : Nat → Bool
  /-- Whether the `n`-th call of `refreshRoleInternal` returns an error. -/
  refreshRoleFails : Nat → Bool

/-- How many calls of each answering collaborator have been made so far. -/
structure Calls where
  isLeader : Nat
  refreshStatus : Nat
  refreshRole : Nat
  deriving DecidableEq, Repr

/-- The statuses `infraEnvHostMonitoring` refreshes (`monitorStates`); the
constants of `models` hold these strings. -/
def infraEnvMonitorStates : List String :=
  ["binding", "disconnected-unbound", "discovering-unbound", "insufficient-unbound",
    "known-unbound", "reclaiming", "reclaiming-rebooting"]

/-- Go `Manager.resetRoleAssignmentIfNotAllRolesAreSet`. -/
def resetRoleAssignmentIfNotAllRolesAreSet (a : Answers) (n : Calls) : List Event × Calls :=
  if a.isLeader n.isLeader then
    ([Event.isLeader true, Event.resetAutoAssignRoles]
        ++ (if a.resetFails then
              [Event.log .error "fail to reset auto-assign role in monitor"] else [])
        ++ (if a.resetCount > 0 then
              [Event.log .info "resetting auto-assign roles on %d hosts in monitor"] else []),
      { n with isLeader := n.isLeader + 1 })
  else ([Event.isLeader false], { n with isLeader := n.isLeader + 1 })

/-- The loop `for _, host := range sortedHosts` of `clusterHostMonitoring`.
The third component is `false` when the loop left the function (`return`). -/
def clusterHostLoop (a : Answers) (c : Cluster) (canRefreshRoles : Bool) :
    List Host → Calls → List Event × Calls × Bool
  | [], n => ([], n, true)
  | host :: hosts, n =>
    if a.isLeader n.isLeader then
      let status :=
        [Event.isLeader true, Event.log .debug "Started refreshing host status",
          Event.refreshStatus host (some c.ID) none, Event.monitoredHostsDurationMs]
        ++ (if a.refreshStatusFails n.refreshStatus then
              [Event.log .error "failed to refresh host state"] else [])
        ++ [Event.log .debug "Finished refreshing host status"]
      let role :=
        if canRefreshRoles then
          [Event.log .debug "", Event.refreshRole host false]
          ++ (if a.refreshRoleFails n.refreshRole then
                [Event.log .error "failed to refresh host role"] else [])
        else []
      let n1 : Calls :=
        { isLeader := n.isLeader + 1, refreshStatus := n.refreshStatus + 1,
          refreshRole := if canRefreshRoles then n.refreshRole + 1 else n.refreshRole }
      let rest := clusterHostLoop a c canRefreshRoles hosts n1
      (status ++ role ++ rest.1, rest.2.1, rest.2.2)
    else
      ([Event.isLeader false, Event.log .debug "Not a leader, exiting cluster HostMonitoring"],
        { n with isLeader := n.isLeader + 1 }, false)

/-- The loop `for _, c := range clusters` of `clusterHostMonitoring`. -/
def clusterLoop (a : Answers) : List Cluster → Calls → List Event × Calls × Bool
  | [], n => ([], n, true)
  | c :: cs, n =>
    let sorted := SortHosts c.Hosts
    let r := clusterHostLoop a c sorted.2 sorted.1 n
    if r.2.2 then
      let rest := clusterLoop a cs r.2.1
      (r.1 ++ rest.1, rest.2.1, rest.2.2)
    else (r.1, r.2.1, false)

/-- The loop `for { ... query.Next() ... }` of `clusterHostMonitoring`, over
the results the cursor still has to give. -/
def clusterPageLoop (a : Answers) :
    List (Except String (List Cluster)) → Calls → List Event × Calls
  | [], n => ([Event.clusterQueryNext], n)
  | Except.error _ :: _, n =>
    ([Event.clusterQueryNext, Event.log .error "Getting clusters"], n)
  | Except.ok [] :: _, n => ([Event.clusterQueryNext], n)
  | Except.ok (c :: cs) :: pages, n =>
    let r := clusterLoop a (c :: cs) n
    if r.2.2 then
      let rest := clusterPageLoop a pages r.2.1
      ([Event.clusterQueryNext, Event.log .debug "Started cluster host monitoring cycle"]
          ++ r.1 ++ [Event.log .debug "Finished cluster host monitoring cycle"] ++ rest.1,
        rest.2)
    else
      ([Event.clusterQueryNext, Event.log .debug "Started cluster host monitoring cycle"] ++ r.1,
        r.2.1)

/-- Go `Manager.clusterHostMonitoring`. -/
def clusterHostMonitoring (a : Answers) (n : Calls) : List Event × Calls :=
  let reset := resetRoleAssignmentIfNotAllRolesAreSet a n
  let pages := clusterPageLoop a a.clusterPages reset.2
  (reset.1 ++ [Event.newClusterQuery] ++ pages.1, pages.2)

/-- The loop `for _, host := range i.Hosts` of `infraEnvHostMonitoring`. -/
def infraEnvHostLoop (a : Answers) (i : InfraEnv) :
    List Host → Calls → List Event × Calls × Bool
  | [], n => ([], n, true)
  | host :: hosts, n =>
    if a.isLeader n.isLeader then
      if infraEnvMonitorStates.contains (host.Status.getD "") then
        let rest := infraEnvHostLoop a i hosts
          { n with isLeader := n.isLeader + 1, refreshStatus := n.refreshStatus + 1 }
        ([Event.isLeader true, Event.refreshStatus host none (some i.ID),
            Event.monitoredHostsDurationMs]
          ++ (if a.refreshStatusFails n.refreshStatus then
                [Event.log .error "failed to refresh host %s state"] else [])
          ++ rest.1, rest.2.1, rest.2.2)
      else
        let rest := infraEnvHostLoop a i hosts { n with isLeader := n.isLeader + 1 }
        (Event.isLeader true :: rest.1, rest.2.1, rest.2.2)
    else
      ([Event.isLeader false, Event.log .debug "Not a leader, exiting infra-env HostMonitoring"],
        { n with isLeader := n.isLeader + 1 }, false)

/-- The loop `for _, i := range infraEnvs` of `infraEnvHostMonitoring`. -/
def infraEnvLoop (a : Answers) : List InfraEnv → Calls → List Event × Calls × Bool
  | [], n => ([], n, true)
  | i :: is, n =>
    let r := infraEnvHostLoop a i i.Hosts n
    if r.2.2 then
      let rest := infraEnvLoop a is r.2.1
      (r.1 ++ rest.1, rest.2.1, rest.2.2)
    else (r.1, r.2.1, false)

/-- The loop `for { ... query.Next() ... }` of `infraEnvHostMonitoring`. -/
def infraEnvPageLoop (a : Answers) :
    List (Except String (List InfraEnv)) → Calls → List Event × Calls
  | [], n => ([Event.infraEnvQueryNext], n)
  | Except.error _ :: _, n =>
    ([Event.infraEnvQueryNext, Event.log .error "Getting infra-envs"], n)
  | Except.ok [] :: _, n => ([Event.infraEnvQueryNext], n)
  | Except.ok (i :: is) :: pages, n =>
    let r := infraEnvLoop a (i :: is) n
    if r.2.2 then
      let rest := infraEnvPageLoop a pages r.2.1
      (Event.infraEnvQueryNext :: r.1 ++ rest.1, rest.2)
    else (Event.infraEnvQueryNext :: r.1, r.2.1)

/-- Go `Manager.infraEnvHostMonitoring`. -/
def infraEnvHostMonitoring (a : Answers) (n : Calls) : List Event × Calls :=
  let pages := infraEnvPageLoop a a.infraEnvPages n
  (Event.newInfraEnvQuery :: pages.1, pages.2)

/-- Go `Manager.HostMonitoring`: the calls of one invocation, in order. -/
def HostMonitoring (a : Answers) : List Event :=
  if a.isLeader 0 then
    let n0 : Calls := { isLeader := 1, refreshStatus := 0, refreshRole := 0 }
    let clusters := clusterHostMonitoring a n0
    let infraEnvs := infraEnvHostMonitoring a clusters.2
    [Event.isLeader true, Event.measureOperation "HostMonitoring",
        Event.initMonitoringQueryGenerator]
      ++ clusters.1 ++ infraEnvs.1 ++ [Event.reportOperationDuration "HostMonitoring"]
  else [Event.isLeader false, Event.log .debug "Not a leader, exiting HostMonitoring"]

/-- The answer of the last `IsLeader()` check once the event `e` has happened,
`leader` being the answer of the last check before it. -/
def Event.leaderAfter (leader : Bool) : Event → Bool
  | .isLeader answer => answer
  | _ => leader

/-- Whether every mutating call of a trace comes after an `IsLeader()` check
and the last check before it answered `true`; `leader` is the answer of the
last check so far. -/
def guarded (leader : Bool) : List Event → Bool
  | [] => true
  | e :: rest => (!e.isMutating || leader) && guarded (e.leaderAfter leader) rest

/-- Whether a trace has no mutating call after an `IsLeader()` check that
answered `false`. -/
def noMutationAfterLoss : List Event → Bool
  | [] => true
  | e :: rest =>
    if e = Event.isLeader false then rest.all (fun e => !e.isMutating)
    else noMutationAfterLoss rest

/-- Answers of a run that is not the leader at the entry of `HostMonitoring`,
with one cluster and one infra-env waiting to be monitored. -/
def notLeaderRun : Answers :=
  { isLeader := fun _ => false
    resetCount := 1
    resetFails := false
    clusterPages := [Except.ok [{ ID := "c1", Hosts := [H1, H2] }]]
    infraEnvPages := [Except.ok [{ ID := "i1", Hosts := [H3] }]]
    refreshStatusFails := fun _ => false
    refreshRoleFails := fun _ => false }

/-- Answers of a run that is the leader at the entry and at the check before
the reset, and loses leadership for good before the second host of its
cluster. -/
def lossAtSecondHostRun : Answers :=
  { isLeader := fun n => decide (n < 3)
    resetCount := 0
    resetFails := false
    clusterPages := [Except.ok [{ ID := "c1", Hosts := [H1, H2] }]]
    infraEnvPages := [Except.ok [{ ID := "i1", Hosts := [H3] }]]
    refreshStatusFails := fun _ => false
    refreshRoleFails := fun _ => false }

/-- Answers of a run in which leadership is lost at the check before the reset
and held again afterwards: one cluster with the single host H2, no infra-env. -/
def lossAtResetRun : Answers :=
  { isLeader := fun n => n != 1
    resetCount := 0
    resetFails := false
    clusterPages := [Except.ok [{ ID := "c1", Hosts := [H2] }]]
    infraEnvPages := []
    refreshStatusFails := fun _ => false
    refreshRoleFails := fun _ => false }

/-- The trace of `lossAtSecondHostRun` up to the check that answers `false`. -/
def lossAtSecondHostBefore : List Event :=
  [Event.isLeader true, Event.measureOperation "HostMonitoring",
    Event.initMonitoringQueryGenerator, Event.isLeader true, Event.resetAutoAssignRoles,
    Event.newClusterQuery, Event.clusterQueryNext,
    Event.log .debug "Started cluster host monitoring cycle",
    Event.isLeader true, Event.log .debug "Started refreshing host status",
    Event.refreshStatus H2 (some "c1") none, Event.monitoredHostsDurationMs,
    Event.log .debug "Finished refreshing host status", Event.log .debug "",
    Event.refreshRole H2 false]

/-- The trace of `lossAtSecondHostRun` after the check that answers `false`. -/
def lossAtSecondHostAfter : List Event :=
  [Event.log .debug "Not a leader, exiting cluster HostMonitoring",
    Event.newInfraEnvQuery, Event.infraEnvQueryNext, Event.isLeader false,
    Event.log .debug "Not a leader, exiting infra-env HostMonitoring",
    Event.reportOperationDuration "HostMonitoring"]

end host

/-! ## Properties of traces -/

namespace host

open models common

/-- What the last `IsLeader()` check still covers at a point of a trace. -/
inductive CheckState
  /-- No check has answered `true` since the last mutating call, or the last
  check answered `false`. -/
  | closed
  /-- The last check answered `true` and no mutating call has followed it. -/
  | checked
  /-- The last check answered `true` and the status refresh of `host` is the one
  mutating call that has followed it. -/
  | statusDone (host : Host)
  deriving DecidableEq, Repr

/-- One step of `directlyChecked`: `none` when the event is a mutating call
that the last check does not directly precede. -/
def directlyCheckedStep (fresh : Bool) (e : Event) : Option Bool :=
  match e with
  | .isLeader answer => some answer
  | .resetAutoAssignRoles => if fresh then some false else none
  | .refreshStatus _ _ _ => if fresh then some false else none
  | .refreshRole _ _ => if fresh then some false else none
  | _ => some fresh

/-- Whether every mutating call of a trace is directly preceded by an
`IsLeader()` check that answered `true`, with no other mutating call between
the check and the call; `fresh` tells whether such a check is pending. -/
def directlyChecked (fresh : Bool) : List Event → Bool
  | [] => true
  | e :: rest =>
    match directlyCheckedStep fresh e with
    | some fresh' => directlyChecked fresh' rest
    | none => false

/-- One step of `checkedOrAfterStatus`: the reset and the status refresh need
a pending check, the role refresh of a host needs the status refresh of that
host as the last mutating call after the check. -/
def checkedOrAfterStatusStep (s : CheckState) (e : Event) : Option CheckState :=
  match e with
  | .isLeader answer => some (if answer then CheckState.checked else CheckState.closed)
  | .resetAutoAssignRoles =>
    match s with
    | .checked => some CheckState.closed
    | _ => none
  | .refreshStatus host _ _ =>
    match s with
    | .checked => some (CheckState.statusDone host)
    | _ => none
  | .refreshRole host _ =>
    match s with
    | .statusDone host' => if host = host' then some CheckState.closed else none
    | _ => none
  | _ => some s

/-- Whether every reset and every status refresh of a trace is directly
preceded by an `IsLeader()` check that answered `true`, and every role refresh
directly follows the status refresh of the same host, with no check and no
other mutating call in between. -/
def checkedOrAfterStatus (s : CheckState) : List Event → Bool
  | [] => true
  | e :: rest =>
    match checkedOrAfterStatusStep s e with
    | some s' => checkedOrAfterStatus s' rest
    | none => false

/-- Answers of a run that stays the leader and refreshes nothing with an
error: one cluster with the single host H2, one infra-env with the host H3. -/
def leaderRun : Answers :=
  { isLeader := fun _ => true
    resetCount := 0
    resetFails := false
    clusterPages := [Except.ok [{ ID := "c1", Hosts := [H2] }]]
    infraEnvPages := [Except.ok [{ ID := "i1", Hosts := [H3] }]]
    refreshStatusFails := fun _ => false
    refreshRoleFails := fun _ => false }

/-- The status refreshes of the cluster phase in a trace, in order: the host
refreshed and the identifier of its cluster. -/
def clusterStatusRefreshes (trace : List Event) : List (Host × String) :=
  trace.filterMap fun e =>
    match e with
    | .refreshStatus host (some cluster) _ => some (host, cluster)
    | _ => none

/-- The hosts of the clusters of the given batches, each cluster's hosts in
the order `SortHosts` gives, paired with the identifier of the cluster. -/
def sortedHostsOfPages (pages : List (List Cluster)) : List (Host × String) :=
  pages.flatMap fun batch => batch.flatMap fun c => (SortHosts c.Hosts).1.map fun h => (h, c.ID)

/-- Answers of a run that stays the leader while the status refresh of every
host and the role refresh of every host fail: two batches of clusters, then the
empty batch. -/
def failingRefreshRun : Answers :=
  { isLeader := fun _ => true
    resetCount := 0
    resetFails := false
    clusterPages :=
      [Except.ok [{ ID := "c1", Hosts := [H1, H2] }, { ID := "c2", Hosts := [H3] }],
        Except.ok [{ ID := "c3", Hosts := [H1, H3] }], Except.ok []]
    infraEnvPages := []
    refreshStatusFails := fun _ => true
    refreshRoleFails := fun _ => true }

/-- The calls that belong to the infra-env phase. -/
def Event.inInfraEnvPhase : Event → Bool
  | .isLeader _ => true
  | .log _ _ => true
  | .newInfraEnvQuery => true
  | .infraEnvQueryNext => true
  | .monitoredHostsDurationMs => true
  | .refreshStatus _ none (some _) => true
  | _ => false

/-- The calls that belong to the cluster phase. -/
def Event.inClusterPhase : Event → Bool
  | .isLeader _ => true
  | .log _ _ => true
  | .resetAutoAssignRoles => true
  | .newClusterQuery => true
  | .clusterQueryNext => true
  | .monitoredHostsDurationMs => true
  | .refreshStatus _ (some _) none => true
  | .refreshRole _ false => true
  | _ => false

/-- Whether an event is a status refresh of the cluster phase or a role refresh. -/
def Event.isClusterRefresh : Event → Bool
  | .refreshStatus _ (some _) _ => true
  | .refreshRole _ _ => true
  | _ => false

/-- The refreshes a cluster host gets when it is processed, as the
specification has them: its status refresh, then its role refresh with
`force = false` when `SortHosts` returned `allHaveInventory = true` for the
hosts of its cluster. -/
def hostRefreshCalls (c : Cluster) (host : Host) : List Event :=
  Event.refreshStatus host (some c.ID) none ::
    (if (SortHosts c.Hosts).2 then [Event.refreshRole host false] else [])

/-- A host that is not bound to a cluster and waits in the status
`known-unbound`. -/
def unboundHost : Host := { ID := "U", Status := some "known-unbound", Inventory := none }

/-- Answers of a run that stays the leader: a cluster whose hosts all have
inventory, a cluster with a host without inventory, and an infra-env with a
host that is to be refreshed; the first status refresh fails. -/
def mixedInventoryRun : Answers :=
  { isLeader := fun _ => true
    resetCount := 0
    resetFails := false
    clusterPages :=
      [Except.ok [{ ID := "c1", Hosts := [H1, H2] }, { ID := "c2", Hosts := [H1, H3] }]]
    infraEnvPages := [Except.ok [{ ID := "i1", Hosts := [unboundHost] }]]
    refreshStatusFails := fun n => n == 0
    refreshRoleFails := fun _ => false }

/-- The error line `clusterHostMonitoring` logs when `query.Next()` fails. -/
def clusterFetchErrorLog : Event := Event.log .error "Getting clusters"

/-- The error line `infraEnvHostMonitoring` logs when `query.Next()` fails. -/
def infraEnvFetchErrorLog : Event := Event.log .error "Getting infra-envs"

/-- Whether an event is one of the two fetch-error lines. -/
def Event.isFetchErrorLog (e : Event) : Bool :=
  e == clusterFetchErrorLog || e == infraEnvFetchErrorLog

/-- Answers of a run that stays the leader and whose cluster cursor fails at
its second `Next()`, with a further batch behind the failure; the infra-env
cursor gives one infra-env. -/
def clusterFetchErrorRun : Answers :=
  { isLeader := fun _ => true
    resetCount := 0
    resetFails := false
    clusterPages :=
      [Except.ok [{ ID := "c1", Hosts := [H3] }], Except.error "connection lost",
        Except.ok [{ ID := "c2", Hosts := [H1] }]]
    infraEnvPages := [Except.ok [{ ID := "i1", Hosts := [unboundHost] }]]
    refreshStatusFails := fun _ => false
    refreshRoleFails := fun _ => false }

/-- Answers of a run that stays the leader and whose infra-env cursor fails at
its second `Next()`, with a further batch behind the failure. -/
def infraEnvFetchErrorRun : Answers :=
  { isLeader := fun _ => true
    resetCount := 0
    resetFails := false
    clusterPages := []
    infraEnvPages :=
      [Except.ok [{ ID := "i1", Hosts := [unboundHost] }], Except.error "connection lost",
        Except.ok [{ ID := "i2", Hosts := [unboundHost] }]]
    refreshStatusFails := fun _ => false
    refreshRoleFails := fun _ => false }

/-- The trace of `clusterFetchErrorRun` before the failed `Next()`. -/
def clusterFetchErrorBefore : List Event :=
  [Event.isLeader true, Event.measureOperation "HostMonitoring",
    Event.initMonitoringQueryGenerator, Event.isLeader true, Event.resetAutoAssignRoles,
    Event.newClusterQuery, Event.clusterQueryNext,
    Event.log .debug "Started cluster host monitoring cycle", Event.isLeader true,
    Event.log .debug "Started refreshing host status", Event.refreshStatus H3 (some "c1") none,
    Event.monitoredHostsDurationMs, Event.log .debug "Finished refreshing host status",
    Event.log .debug "", Event.refreshRole H3 false,
    Event.log .debug "Finished cluster host monitoring cycle"]

/-- The trace of `clusterFetchErrorRun` after the error line of the failed
`Next()`. -/
def clusterFetchErrorAfter : List Event :=
  [Event.newInfraEnvQuery, Event.infraEnvQueryNext, Event.isLeader true,
    Event.refreshStatus unboundHost none (some "i1"), Event.monitoredHostsDurationMs,
    Event.infraEnvQueryNext, Event.reportOperationDuration "HostMonitoring"]

/-- The trace of `infraEnvFetchErrorRun` before the failed `Next()`. -/
def infraEnvFetchErrorBefore : List Event :=
  [Event.isLeader true, Event.measureOperation "HostMonitoring",
    Event.initMonitoringQueryGenerator, Event.isLeader true, Event.resetAutoAssignRoles,
    Event.newClusterQuery, Event.clusterQueryNext, Event.newInfraEnvQuery,
    Event.infraEnvQueryNext, Event.isLeader true,
    Event.refreshStatus unboundHost none (some "i1"), Event.monitoredHostsDurationMs]

/-- A host that is not bound to a cluster and whose status is not set. -/
def statuslessHost : Host := { ID := "N", Status := none, Inventory := none }

/-- Answers of a run that stays the leader: one infra-env whose hosts are, in
this order, H3 (status `discovering`), `unboundHost` (status `known-unbound`),
a host without status, and `unboundHost` again; then the empty batch. -/
def unboundRun : Answers :=
  { isLeader := fun _ => true
    resetCount := 0
    resetFails := false
    clusterPages := []
    infraEnvPages :=
      [Except.ok [{ ID := "i1", Hosts := [H3, unboundHost, statuslessHost, unboundHost] }],
        Except.ok []]
    refreshStatusFails := fun _ => false
    refreshRoleFails := fun _ => false }

end host

/-! ## The queries of the monitor -/

namespace sql

/-- A truth value of SQL: `none` is NULL (unknown). -/
abbrev Truth := Option Bool

/-- SQL `AND`. -/
def and3 : Truth → Truth → Truth
  | some false, _ => some false
  | _, some false => some false
  | some true, some true => some true
  | _, _ => none

/-- SQL `OR`. -/
def or3 : Truth → Truth → Truth
  | some true, _ => some true
  | _, some true => some true
  | some false, some false => some false
  | _, _ => none

/-- SQL `col = v` for a value `v` that is not NULL. -/
def eq3 (col : Option String) (v : String) : Truth := col.map (fun x => x == v)

/-- SQL `col <> v` (also written `col != v`) for a value `v` that is not NULL. -/
def ne3 (col : Option String) (v : String) : Truth := col.map (fun x => x != v)

/-- SQL `col IN (vs)` for values that are not NULL. -/
def in3 (col : Option String) (vs : List String) : Truth := col.map (fun x => vs.contains x)

/-- SQL `col NOT IN (vs)` for values that are not NULL. -/
def notIn3 (col : Option String) (vs : List String) : Truth :=
  col.map (fun x => !vs.contains x)

/-- SQL `col IS NULL`. -/
def isNull {α : Type} (col : Option α) : Truth := some col.isNone

/-- Whether a `WHERE` (or `ON`) condition keeps the row: it does when the
condition is true, not when it is false or NULL. -/
def keeps (t : Truth) : Bool := t == some true

end sql

namespace models

/-- The constant `models.HostRoleAutoAssign`, declared outside the sources. -/
def HostRoleAutoAssign : String := "auto-assign"

/-- The constant `models.HostRoleWorker`, declared outside the sources. -/
def HostRoleWorker : String := "worker"

/-- The constant `models.HostKindHost`, declared outside the sources. -/
def HostKindHost : String := "Host"

/-- The constant `models.HostKindAddToExistingClusterHost`, declared outside
the sources. -/
def HostKindAddToExistingClusterHost : String := "AddToExistingClusterHost"

/-- The constant `models.HostStatusDisconnected`, declared outside the sources. -/
def HostStatusDisconnected : String := "disconnected"

/-- The constant `models.HostStatusDisabled`, declared outside the sources. -/
def HostStatusDisabled : String := "disabled"

/-- The constant `models.HostStatusKnown`, declared outside the sources. -/
def HostStatusKnown : String := "known"

/-- The constant `models.HostStatusCancelled`, declared outside the sources. -/
def HostStatusCancelled : String := "cancelled"

/-- The constant `models.HostStatusError`, declared outside the sources. -/
def HostStatusError : String := "error"

/-- The constant `models.HostStatusInstalled`, declared outside the sources. -/
def HostStatusInstalled : String := "installed"

/-- The constant `models.ClusterStatusInstalled`, declared outside the sources. -/
def ClusterStatusInstalled : String := "installed"

/-- The constant `models.ClusterStatusInstalling`, declared outside the sources. -/
def ClusterStatusInstalling : String := "installing"

end models

namespace host

open models sql

/-- A row of the table `hosts`: the columns the queries of the monitor read.
Every column but the key may be NULL; `deleted_at` is the soft-delete time. -/
structure HostRow where
  id : String
  cluster_id : Option String
  role : Option String
  suggested_role : Option String
  status : Option String
  kind : Option String
  logs_info : Option String
  deleted_at : Option Nat
  deriving DecidableEq, Repr

/-- A row of the table `clusters`: the columns the queries of the monitor read. -/
structure ClusterRow where
  id : String
  status : Option String
  deleted_at : Option Nat
  deriving DecidableEq, Repr

/-- The tables `hosts` and `clusters`. -/
structure Tables where
  hosts : List HostRow
  clusters : List ClusterRow
  deriving DecidableEq, Repr

/-- The `WHERE` condition of the query built in
`resetRoleAssignmentIfNotAllRolesAreSet`, on a row of `hosts`: the chained
`Where` calls are joined by `AND`. -/
def missingRoleAssignmentWhere (db : Tables) (h : HostRow) : Truth :=
  and3
    (and3
      (and3
        (and3
          (and3 (eq3 h.role HostRoleAutoAssign)
            (or3 (or3 (eq3 h.suggested_role HostRoleAutoAssign) (eq3 h.suggested_role ""))
              (isNull h.suggested_role)))
          (notIn3 h.status [HostStatusDisconnected, HostStatusDisabled]))
        (ne3 h.kind HostKindAddToExistingClusterHost))
      (isNull h.deleted_at))
    (some (db.clusters.any fun c => keeps (and3 (eq3 h.cluster_id c.id) (isNull c.deleted_at))))

/-- The query `clusetersWithMissingRoleAssignmentQuery` of
`resetRoleAssignmentIfNotAllRolesAreSet`: `SELECT DISTINCT cluster_id FROM
hosts WHERE ...`, the cluster ids selected for the reset. -/
def clustersWithMissingRoleAssignmentQuery (db : Tables) : List (Option String) :=
  ((db.hosts.filter fun h => keeps (missingRoleAssignmentWhere db h)).map
    fun h => h.cluster_id).dedup

/-- The condition on a host row as the specification words it, read in
two-valued logic: role auto-assign; suggested role auto-assign, empty or null;
status neither disconnected nor disabled; kind not add-to-existing-cluster-host;
not soft-deleted; a cluster row with the host's cluster id that is not
soft-deleted. -/
def specMissingRoleAssignment (db : Tables) (h : HostRow) : Prop :=
  h.role = some HostRoleAutoAssign ∧
    (h.suggested_role = some HostRoleAutoAssign ∨ h.suggested_role = some "" ∨
      h.suggested_role = none) ∧
    (h.status ≠ some HostStatusDisconnected ∧ h.status ≠ some HostStatusDisabled) ∧
    h.kind ≠ some HostKindAddToExistingClusterHost ∧
    h.deleted_at = none ∧
    ∃ c ∈ db.clusters, some c.id = h.cluster_id ∧ c.deleted_at = none

instance (db : Tables) (h : HostRow) : Decidable (specMissingRoleAssignment db h) :=
  inferInstanceAs (Decidable (_ ∧ _ ∧ _ ∧ _ ∧ _ ∧ _))

/-- A host row of cluster `c` in the status `known`, of kind `Host`, with role
auto-assign and the given suggested role. -/
def autoAssignHost (id c : String) (suggested : Option String) : HostRow :=
  { id := id, cluster_id := some c, role := some HostRoleAutoAssign, suggested_role := suggested,
    status := some HostStatusKnown, kind := some HostKindHost, logs_info := some "",
    deleted_at := none }

/-- The scenario of the specification: cluster A, all of whose hosts have role
auto-assign and no suggestion, and cluster B, whose only host has role
auto-assign and the suggested role worker. -/
def scenarioTables : Tables :=
  { hosts :=
      [autoAssignHost "a1" "A" none, autoAssignHost "a2" "A" none,
        autoAssignHost "b1" "B" (some HostRoleWorker)]
    clusters :=
      [{ id := "A", status := some "ready", deleted_at := none },
        { id := "B", status := some "ready", deleted_at := none }] }

/-- Tables with the one cluster A and one host of A whose kind is NULL, with
role auto-assign and no suggestion. -/
def nullKindTables : Tables :=
  { hosts := [{ autoAssignHost "a1" "A" none with kind := none }]
    clusters := [{ id := "A", status := some "ready", deleted_at := none }] }

/-- Tables with the one cluster C, one host of which has the suggested role
worker and another no suggestion. -/
def mixedSuggestionTables : Tables :=
  { hosts :=
      [autoAssignHost "c1" "C" (some HostRoleWorker), autoAssignHost "c2" "C" none]
    clusters := [{ id := "C", status := some "ready", deleted_at := none }] }

end host

namespace models

/-- The constant `models.HostStatusDiscovering`, declared outside the sources. -/
def HostStatusDiscovering : String := "discovering"

/-- The constant `models.HostStatusInsufficient`, declared outside the sources. -/
def HostStatusInsufficient : String := "insufficient"

/-- The constant `models.HostStatusPendingForInput`, declared outside the sources. -/
def HostStatusPendingForInput : String := "pending-for-input"

/-- The constant `models.HostStatusPreparingForInstallation`, declared outside
the sources. -/
def HostStatusPreparingForInstallation : String := "preparing-for-installation"

/-- The constant `models.HostStatusPreparingFailed`, declared outside the sources. -/
def HostStatusPreparingFailed : String := "preparing-failed"

/-- The constant `models.HostStatusPreparingSuccessful`, declared outside the
sources. -/
def HostStatusPreparingSuccessful : String := "preparing-successful"

/-- The constant `models.HostStatusInstalling`, declared outside the sources. -/
def HostStatusInstalling : String := "installing"

/-- The constant `models.HostStatusInstallingInProgress`, declared outside the
sources. -/
def HostStatusInstallingInProgress : String := "installing-in-progress"

/-- The constant `models.HostStatusInstallingPendingUserAction`, declared
outside the sources. -/
def HostStatusInstallingPendingUserAction : String := "installing-pending-user-action"

/-- The constant `models.HostStatusResettingPendingUserAction`, declared
outside the sources. -/
def HostStatusResettingPendingUserAction : String := "resetting-pending-user-action"

/-- The constant `models.LogsStateCompleted`, declared outside the sources. -/
def LogsStateCompleted : String := "completed"

/-- The constant `models.LogsStateTimeout`, declared outside the sources. -/
def LogsStateTimeout : String := "timeout"

/-- The constant `models.LogsStateEmpty`, declared outside the sources. -/
def LogsStateEmpty : String := ""

end models

namespace host

open models sql

/-- The list `monitorStates` of `initMonitoringQueryGenerator`. -/
def monitorStates : List String :=
  [HostStatusDiscovering, HostStatusKnown, HostStatusDisconnected, HostStatusInsufficient,
    HostStatusPendingForInput, HostStatusPreparingForInstallation, HostStatusPreparingFailed,
    HostStatusPreparingSuccessful, HostStatusInstalling, HostStatusInstallingInProgress,
    HostStatusInstallingPendingUserAction, HostStatusResettingPendingUserAction]

/-- The list `monitorStatesUntilLogCollection` of `initMonitoringQueryGenerator`. -/
def monitorStatesUntilLogCollection : List String := [HostStatusCancelled, HostStatusError]

/-- The list `logCollectionEndStates` of `initMonitoringQueryGenerator`. -/
def logCollectionEndStates : List String :=
  [LogsStateCompleted, LogsStateTimeout, LogsStateEmpty]

/-- The `WHERE` condition of the subquery of `buildInitialQuery`, on a row of
`clusters INNER JOIN hosts`. -/
def monitorWhere (c : ClusterRow) (h : HostRow) : Truth :=
  and3 (and3 (isNull c.deleted_at) (isNull h.deleted_at))
    (or3
      (or3 (in3 h.status monitorStates)
        (and3 (in3 h.status monitorStatesUntilLogCollection)
          (notIn3 h.logs_info logCollectionEndStates)))
      (and3 (eq3 h.status HostStatusInstalled) (ne3 c.status ClusterStatusInstalled)))

/-- The subquery of `buildInitialQuery`: `SELECT clusters.id FROM clusters INNER
JOIN hosts ON clusters.id = hosts.cluster_id WHERE ...`, one id for each joined
row the condition keeps. -/
def monitoredClusterIds (db : Tables) : List String :=
  db.clusters.flatMap fun c =>
    (db.hosts.filter fun h => keeps (eq3 h.cluster_id c.id) && keeps (monitorWhere c h)).map
      fun _ => c.id

/-- The query of `buildInitialQuery`: the rows of `clusters` with `id IN
(subquery)`, the clusters eligible for monitoring. -/
def buildInitialQuery (db : Tables) : List ClusterRow :=
  db.clusters.filter fun c => (monitoredClusterIds db).contains c.id

/-- The eligibility of a cluster row as the specification words it, read in
two-valued logic. -/
def specEligible (db : Tables) (c : ClusterRow) : Prop :=
  c.deleted_at = none ∧
    ∃ h ∈ db.hosts, h.cluster_id = some c.id ∧ h.deleted_at = none ∧
      ((∃ s ∈ monitorStates, h.status = some s) ∨
        ((h.status = some HostStatusCancelled ∨ h.status = some HostStatusError) ∧
          h.logs_info ≠ some LogsStateCompleted ∧ h.logs_info ≠ some LogsStateTimeout ∧
            h.logs_info ≠ some LogsStateEmpty) ∨
        (h.status = some HostStatusInstalled ∧ c.status ≠ some ClusterStatusInstalled))

/-- A host row of cluster `c` of kind `Host` with the given status and
logs_info. -/
def hostInStatus (id c : String) (status : String) (logs : Option String) : HostRow :=
  { id := id, cluster_id := some c, role := some HostRoleWorker, suggested_role := some HostRoleWorker,
    status := some status, kind := some HostKindHost, logs_info := logs, deleted_at := none }

/-- The one cluster of `nullStatusTables`: its status is NULL. -/
def nullStatusCluster : ClusterRow := { id := "N", status := none, deleted_at := none }

/-- Tables with one cluster whose status is NULL and one host of it, installed. -/
def nullStatusTables : Tables :=
  { hosts := [hostInStatus "n1" "N" HostStatusInstalled (some LogsStateCompleted)]
    clusters := [nullStatusCluster] }

/-- A cluster in the status `installing`. -/
def installingCluster : ClusterRow :=
  { id := "I", status := some ClusterStatusInstalling, deleted_at := none }

/-- A cluster in the status `installed`. -/
def installedCluster : ClusterRow :=
  { id := "D", status := some ClusterStatusInstalled, deleted_at := none }

/-- Tables with an installing cluster, one host installed and one installing,
and an installed cluster, both hosts of which are installed. -/
def installTables : Tables :=
  { hosts :=
      [hostInStatus "i1" "I" HostStatusInstalled (some LogsStateCompleted),
        hostInStatus "i2" "I" HostStatusInstalling (some LogsStateEmpty),
        hostInStatus "d1" "D" HostStatusInstalled (some LogsStateCompleted),
        hostInStatus "d2" "D" HostStatusInstalled (some LogsStateCompleted)]
    clusters := [installingCluster, installedCluster] }

end host

/-! ## The batch cursor -/

namespace common

/-- Modelled from the spec: the cursor `MonitorQuery` returned by
`MonitorQueryGenerator.NewClusterQuery`, whose code is outside the sources. It
scans the rows of a table, kept in the order of a monotonic key, remembers the
key of the last row it returned, and hands out the eligible rows beyond that
key in batches of at most `batchSize`. -/
structure MonitorQuery (ρ κ : Type) where
  rows : List ρ
  eligible : ρ → Bool
  key : ρ → κ
  batchSize : Nat
  lastKey : Option κ

namespace MonitorQuery

variable {ρ κ : Type} [LinearOrder κ]

/-- Modelled from the spec: whether a row lies beyond the last key returned. -/
def beyond (q : MonitorQuery ρ κ) (r : ρ) : Bool :=
  match q.lastKey with
  | none => true
  | some k => decide (k < q.key r)

/-- Modelled from the spec: the eligible rows the cursor has not returned yet. -/
def remaining (q : MonitorQuery ρ κ) : List ρ :=
  q.rows.filter fun r => q.eligible r && q.beyond r

/-- Modelled from the spec: `Next()`, the next batch and the cursor after it:
the first `batchSize` eligible rows beyond the last key, the key advancing to
that of the last row returned. -/
def Next (q : MonitorQuery ρ κ) : List ρ × MonitorQuery ρ κ :=
  let page := q.remaining.take q.batchSize
  (page,
    { q with
      lastKey :=
        match page.getLast? with
        | some r => some (q.key r)
        | none => q.lastKey })

/-- Modelled from the spec: the loop `for { page := Next(); if len(page) == 0
{ break }; ... }` of `clusterHostMonitoring`: the batches of successive
`Next()` calls up to and including the first empty one, within `fuel` calls. -/
def scan : Nat → MonitorQuery ρ κ → List (List ρ)
  | 0, _ => []
  | fuel + 1, q =>
    match q.Next with
    | ([], _) => [[]]
    | (page, q') => page :: scan fuel q'

/-- Modelled from the spec: a new cursor, as `NewClusterQuery` returns it,
positioned before the first row. -/
def new (rows : List ρ) (eligible : ρ → Bool) (key : ρ → κ) (batchSize : Nat) :
    MonitorQuery ρ κ :=
  { rows := rows, eligible := eligible, key := key, batchSize := batchSize, lastKey := none }

end MonitorQuery

end common

/-! ## The reference order and the marginal weights -/

namespace F64

/-- The binary64 number nearest to `-0.4`: `-7205759403792794 * 2 ^ (-54)`. -/
def negFourTenths : F64 := ⟨-(7205759403792794 * ((1 <<< 1020 : Nat) : Int))⟩

end F64

namespace host

open models

/-- Whether the inventory of a host parses. -/
def hasInventory (h : Host) : Bool := h.Inventory.isSome

/-- The order of the reference sort: ascending by weight; a host without
inventory, which has no weight, counts as above every weight. -/
def weightLe (a b : Host) : Bool := decide (rank a ≤ rank b)

/-- The reference the result of `SortHosts` is compared with: the hosts with
parseable inventory, stably sorted ascending by weight (by the merge sort of
the library, which is stable), followed by the hosts without parseable
inventory in their input order. -/
def specSortHosts (hosts : List Host) : List Host :=
  (hosts.filter hasInventory).mergeSort weightLe ++ hosts.filter (fun h => !hasInventory h)

/-- Whether two hosts are equivalent for the comparison of `SortHosts`: neither
is less than the other. -/
def SortHosts.equiv (a b : Host) : Bool :=
  !(SortHosts.less true a b).1 && !(SortHosts.less true b a).1

end host

namespace host

open models

/-- The sizes in bytes of the eligible disks, added up. -/
def eligibleBytes (disks : List Disk) : Int :=
  ((disks.filter fun d => d.Eligible).map fun d => d.SizeBytes).sum

/-- The whole GiB of the eligible disks, each disk converted on its own, added
up without regard to the width of `int64`. -/
def eligibleGiBSum (disks : List Disk) : Int :=
  ((disks.filter fun d => d.Eligible).map fun d => BytesToGib d.SizeBytes).sum

end host

namespace host

open models

/-- By how much the weight of `b` exceeds the weight of `a` raised by 1.0, in
units of `2 ^ (-1074)`. -/
def raiseError (a b : Inventory) : Int :=
  (hostWeight b).units - (hostWeight a).units - (F64.ofInt 1).units

/-- An inventory with the given number of cores, GiB of usable memory and GiB
on one eligible disk. -/
def inventoryOf (cores memGiB diskGiB : Int) : Inventory :=
  { CPU := some ⟨cores⟩, Memory := some ⟨memGiB * GiB⟩, Disks := [⟨true, diskGiB * GiB⟩] }

end host

/-! ## The phases of one cycle -/

namespace host

open models common

/-- The calls made by the loop of `clusterHostMonitoring` over the batches:
what the cluster phase calls once the reset is over and the cursor is made. -/
def Event.inClusterLoop : Event → Bool
  | .isLeader _ => true
  | .log _ _ => true
  | .clusterQueryNext => true
  | .monitoredHostsDurationMs => true
  | .refreshStatus _ (some _) none => true
  | .refreshRole _ false => true
  | _ => false

/-- The calls of the cluster cursor and the refreshes of cluster hosts. -/
def Event.isClusterCall : Event → Bool
  | .newClusterQuery => true
  | .clusterQueryNext => true
  | .refreshStatus _ (some _) _ => true
  | .refreshRole _ _ => true
  | _ => false

/-- The error line `resetRoleAssignmentIfNotAllRolesAreSet` logs when the reset
fails. -/
def resetErrorLog : Event := Event.log .error "fail to reset auto-assign role in monitor"

/-- Whether an event is a status refresh, of a cluster host or of an infra-env
host. -/
def Event.isStatusRefresh : Event → Bool
  | .refreshStatus _ _ _ => true
  | _ => false

/-- Whether in a trace every status refresh is followed at once by the report
of the per-host duration, and every such report follows a status refresh at
once; `pending` tells that a status refresh has just been made and its report
is due. -/
def durationReported (pending : Bool) : List Event → Bool
  | [] => !pending
  | e :: rest =>
    match e with
    | .refreshStatus _ _ _ => !pending && durationReported true rest
    | .monitoredHostsDurationMs => pending && durationReported false rest
    | _ => !pending && durationReported false rest

/-- Answers of a run that stays the leader and whose reset fails, having reset
two hosts: one cluster with the hosts H1 and H2, one infra-env with
`unboundHost`. -/
def resetFailsRun : Answers :=
  { isLeader := fun _ => true
    resetCount := 2
    resetFails := true
    clusterPages := [Except.ok [{ ID := "c1", Hosts := [H1, H2] }]]
    infraEnvPages := [Except.ok [{ ID := "i1", Hosts := [unboundHost] }]]
    refreshStatusFails := fun _ => false
    refreshRoleFails := fun _ => false }

/-- What an invocation that is the leader at the entry does once the reset is
over or has been skipped: the cluster phase from the making of the cursor on,
the infra-env phase and the report of the total duration. -/
def afterResetCheck (a : Answers) : List Event :=
  [Event.newClusterQuery] ++
    (clusterPageLoop a a.clusterPages { isLeader := 2, refreshStatus := 0, refreshRole := 0 }).1 ++
    (infraEnvHostMonitoring a
      (clusterPageLoop a a.clusterPages
        { isLeader := 2, refreshStatus := 0, refreshRole := 0 }).2).1 ++
    [Event.reportOperationDuration "HostMonitoring"]

/-- What an invocation that is the leader at the entry and at the check of the
reset does after the reset and its error line. -/
def afterReset (a : Answers) : List Event :=
  (if a.resetCount > 0 then
      [Event.log .info "resetting auto-assign roles on %d hosts in monitor"] else []) ++
    afterResetCheck a

/-- The calls of an invocation that is the leader at the entry and at the check
of the reset, up to the reset. -/
def uptoReset : List Event :=
  [Event.isLeader true, Event.measureOperation "HostMonitoring",
    Event.initMonitoringQueryGenerator, Event.isLeader true, Event.resetAutoAssignRoles]

end host

/-! ## The connectivity check command (`internal/host/hostcommands`) -/

namespace models

/-- Go `models.APIVipConnectivityAdditionalRequestHeader`. -/
structure APIVipConnectivityAdditionalRequestHeader where
  Key : String
  Value : String
  deriving DecidableEq, Repr

/-- Go `models.APIVipConnectivityRequest`: the fields `GetSteps` sets.  `URL`,
`CaCertificate` and `IgnitionEndpointToken` are pointers and may be nil; a nil
slice of headers is the empty list. -/
structure APIVipConnectivityRequest where
  URL : Option String
  CaCertificate : Option String
  IgnitionEndpointToken : Option String
  RequestHeaders : List APIVipConnectivityAdditionalRequestHeader
  deriving DecidableEq, Repr

/-- Go `models.Step`: the fields `GetSteps` sets. -/
structure Step where
  StepType : String
  Args : List String
  deriving DecidableEq, Repr

/-- The constant `models.StepTypeAPIVipConnectivityCheck`, declared outside the
sources. -/
def StepTypeAPIVipConnectivityCheck : String := "api-vip-connectivity-check"

end models

namespace hostcommands

open models

/-- Go `common.Host`, the host row as stored: the two columns `GetSteps` reads.
It is named apart from `models.Host`. -/
structure CommonHost where
  IgnitionEndpointToken : String
  IgnitionEndpointHTTPHeaders : String
  deriving DecidableEq, Repr

/-- The collaborators of `GetSteps`, none of which is among the sources; the
lines they write to the log are left out. -/
structure Env where
  /-- `c.db.First(&cluster, "id = ?", host.ClusterID)`: the cluster row of the
  host, or the error of the lookup. -/
  firstCluster : Host → Except String common.Cluster
  /-- `c.db.First(&commonHost, "id = ?", host.ID)`: the host row, or the error of
  the lookup. -/
  firstHost : Host → Except String CommonHost
  /-- `hostutil.GetIgnitionEndpointAndCert(&cluster, host, c.log)`: the URL of
  the ignition endpoint and the CA certificate, which may be nil. -/
  GetIgnitionEndpointAndCert : common.Cluster → Host → Except String (String × Option String)
  /-- `json.Unmarshal` of a text into a `map[string]string`: the entries in the
  order `range` visits them, or the error. -/
  jsonUnmarshal : String → Except String (List (String × String))
  /-- The JSON text of a request. -/
  encode : APIVipConnectivityRequest → String

/-- Go `json.Marshal` on a `models.APIVipConnectivityRequest`.  The struct
holds pointers to strings and a slice of structs of two strings, which
`encoding/json` marshals without error; the text is that of `encode`. -/
def jsonMarshal (env : Env) (request : APIVipConnectivityRequest) : Except String String :=
  Except.ok (env.encode request)

/-- Go `apivipConnectivityCheckCmd.GetSteps`: the steps and the error
returned; a nil slice of steps is the empty list and a nil error is `none`. -/
def GetSteps (env : Env) (host : Host) : List Step × Option String :=
  match env.firstCluster host with
  | Except.error err => ([], some err)
  | Except.ok cluster =>
    match env.firstHost host with
    | Except.error err => ([], some err)
    | Except.ok commonHost =>
      match env.GetIgnitionEndpointAndCert cluster host with
      | Except.error err => ([], some err)
      | Except.ok (ignitionEndpointUrl, cert) =>
        let request : APIVipConnectivityRequest :=
          { URL := some ignitionEndpointUrl, CaCertificate := none,
            IgnitionEndpointToken := none, RequestHeaders := [] }
        let request :=
          match cert with
          | some _ => { request with CaCertificate := cert }
          | none => request
        let requestHeaders : List APIVipConnectivityAdditionalRequestHeader := []
        let (requestHeaders, request) :=
          if commonHost.IgnitionEndpointToken != "" then
            (requestHeaders ++
                [{ Key := "Authorization",
                   Value := "Bearer " ++ commonHost.IgnitionEndpointToken }],
              { request with IgnitionEndpointToken := some commonHost.IgnitionEndpointToken })
          else (requestHeaders, request)
        let requestHeaders :=
          if commonHost.IgnitionEndpointHTTPHeaders != "" then
            match env.jsonUnmarshal commonHost.IgnitionEndpointHTTPHeaders with
            | Except.ok additionalHeaders =>
              requestHeaders ++ additionalHeaders.map fun kv => { Key := kv.1, Value := kv.2 }
            | Except.error _ => requestHeaders
          else requestHeaders
        let request := { request with RequestHeaders := requestHeaders }
        match jsonMarshal env request with
        | Except.error err => ([], some err)
        | Except.ok requestBytes =>
          ([{ StepType := StepTypeAPIVipConnectivityCheck, Args := [requestBytes] }], none)

/-- The headers of a request whose additional headers were dropped: the
Authorization header of the token when the token is not empty, and no header
otherwise. -/
def tokenHeaders (token : String) : List APIVipConnectivityAdditionalRequestHeader :=
  if token = "" then [] else [{ Key := "Authorization", Value := "Bearer " ++ token }]

/-- An environment in which the lookups succeed; the host row holds the token
`secret` and additional headers that are not JSON. -/
def malformedHeadersEnv : Env :=
  { firstCluster := fun _ => Except.ok { ID := "c1", Hosts := [] }
    firstHost := fun _ =>
      Except.ok { IgnitionEndpointToken := "secret", IgnitionEndpointHTTPHeaders := "not json" }
    GetIgnitionEndpointAndCert := fun _ _ => Except.ok ("https://api.example/config/worker", none)
    jsonUnmarshal := fun _ => Except.error "invalid character"
    encode := fun r =>
      String.intercalate ";" (r.URL.getD "" :: r.RequestHeaders.map fun h => h.Key ++ ": " ++ h.Value) }

/-- An environment in which the lookup of the host row fails. -/
def missingHostEnv : Env :=
  { malformedHeadersEnv with firstHost := fun _ => Except.error "record not found" }

end hostcommands

/-! ## Binary64 rounding -/

namespace F64Impl

theorem bitLenUp_spec (fuel w n : Nat) (h : n ≤ fuel + w) : n < 2 ^ bitLenUp fuel w n := by
  induction fuel generalizing w with
  | zero =>
    simp only [bitLenUp]
    exact lt_of_le_of_lt (by simpa using h) (Nat.lt_two_pow w)
  | succ fuel ih =>
    simp only [bitLenUp]
    split
    · rename_i h0
      rw [Nat.shiftRight_eq_div_pow] at h0
      exact (Nat.div_eq_zero_iff (Nat.two_pow_pos w)).mp h0
    · exact ih _ (by omega)

theorem bitLenDown_spec (fuel w n : Nat) (hf : w ≤ fuel + 1) (hn : n < 2 ^ w) :
    n < 2 ^ bitLenDown fuel w n ∧ (n ≠ 0 → 2 ^ bitLenDown fuel w n ≤ 2 * n) := by
  induction fuel generalizing w n with
  | zero =>
    have hw : w ≤ 1 := by omega
    have : n < 2 := lt_of_lt_of_le hn (by
      calc 2 ^ w ≤ 2 ^ 1 := Nat.pow_le_pow_right (by norm_num) hw
        _ = 2 := by norm_num)
    simp only [bitLenDown]
    split
    · subst_vars; simp
    · constructor
      · simpa using this
      · intro _; omega
  | succ fuel ih =>
    simp only [bitLenDown]
    split
    · rename_i hw
      have : n < 2 := lt_of_lt_of_le hn (by
        calc 2 ^ w ≤ 2 ^ 1 := Nat.pow_le_pow_right (by norm_num) hw
          _ = 2 := by norm_num)
      split
      · subst_vars; simp
      · constructor
        · simpa using this
        · intro _; omega
    · rename_i hw
      split
      · rename_i h0
        rw [Nat.shiftRight_eq_div_pow] at h0
        have hlt := (Nat.div_eq_zero_iff (Nat.two_pow_pos (w / 2))).mp h0
        exact ih _ _ (by omega) hlt
      · rename_i h0
        rw [Nat.shiftRight_eq_div_pow] at h0 ⊢
        have hpos : 0 < 2 ^ (w / 2) := Nat.two_pow_pos _
        have hm : n / 2 ^ (w / 2) < 2 ^ (w - w / 2) := by
          rw [Nat.div_lt_iff_lt_mul hpos, ← pow_add]
          rwa [Nat.sub_add_cancel (Nat.div_le_self w 2)]
        obtain ⟨h1, h2⟩ := ih (w - w / 2) (n / 2 ^ (w / 2)) (by omega) hm
        have h2 := h2 h0
        set m := n / 2 ^ (w / 2) with hmdef
        set r := bitLenDown fuel (w - w / 2) m
        have hdm : 2 ^ (w / 2) * m + n % 2 ^ (w / 2) = n := Nat.div_add_mod n (2 ^ (w / 2))
        have hmod := Nat.mod_lt n hpos
        rw [pow_add]
        constructor
        · calc n = 2 ^ (w / 2) * m + n % 2 ^ (w / 2) := hdm.symm
            _ < 2 ^ (w / 2) * m + 2 ^ (w / 2) := by omega
            _ = 2 ^ (w / 2) * (m + 1) := by ring
            _ ≤ 2 ^ (w / 2) * 2 ^ r := Nat.mul_le_mul_left _ h1
        · intro _
          calc 2 ^ (w / 2) * 2 ^ r ≤ 2 ^ (w / 2) * (2 * m) := Nat.mul_le_mul_left _ h2
            _ = 2 * (2 ^ (w / 2) * m) := by ring
            _ ≤ 2 * n := by omega

theorem lt_two_pow_bitLen (n : Nat) : n < 2 ^ bitLen n :=
  (bitLenDown_spec _ _ n (by omega) (bitLenUp_spec n 1 n (by omega))).1

theorem two_pow_bitLen_le (n : Nat) (h : n ≠ 0) : 2 ^ bitLen n ≤ 2 * n :=
  (bitLenDown_spec _ _ n (by omega) (bitLenUp_spec n 1 n (by omega))).2 h

theorem bitLen_le_iff (n k : Nat) : bitLen n ≤ k ↔ n < 2 ^ k := by
  constructor
  · intro h
    exact lt_of_lt_of_le (lt_two_pow_bitLen n) (Nat.pow_le_pow_right (by norm_num) h)
  · intro h
    by_contra hc
    push_neg at hc
    have hn : n ≠ 0 := by
      rintro rfl
      have := two_pow_bitLen_le
      have h0 : bitLen 0 = 0 := by decide
      omega
    have h1 := two_pow_bitLen_le n hn
    have h2 : 2 ^ (k + 1) ≤ 2 ^ bitLen n := Nat.pow_le_pow_right (by norm_num) hc
    rw [pow_succ] at h2
    omega

theorem bitLen_mono {a b : Nat} (h : a ≤ b) : bitLen a ≤ bitLen b := by
  rw [bitLen_le_iff]
  exact lt_of_le_of_lt h (lt_two_pow_bitLen b)
theorem roundNat_eq (a k : Nat) :
    roundNat a k =
      (if 2 * (a % 2 ^ k) < 2 ^ k then a / 2 ^ k
        else if 2 ^ k < 2 * (a % 2 ^ k) then a / 2 ^ k + 1
        else if a / 2 ^ k % 2 = 0 then a / 2 ^ k else a / 2 ^ k + 1) * 2 ^ k := by
  have h : a - a / 2 ^ k * 2 ^ k = a % 2 ^ k := by
    have := Nat.div_add_mod a (2 ^ k)
    rw [Nat.mul_comm] at this
    omega
  simp only [roundNat, Nat.shiftRight_eq_div_pow, Nat.shiftLeft_eq, Nat.one_mul, h]

theorem roundNat_lower (a k : Nat) : a / 2 ^ k * 2 ^ k ≤ roundNat a k := by
  rw [roundNat_eq]
  apply Nat.mul_le_mul_right
  split
  · exact le_rfl
  · split
    · exact Nat.le_succ _
    · split
      · exact le_rfl
      · exact Nat.le_succ _

theorem roundNat_upper (a k : Nat) : roundNat a k ≤ (a / 2 ^ k + 1) * 2 ^ k := by
  rw [roundNat_eq]
  apply Nat.mul_le_mul_right
  split
  · exact Nat.le_succ _
  · split
    · exact le_rfl
    · split
      · exact Nat.le_succ _
      · exact le_rfl

theorem roundNat_mul (m k : Nat) : roundNat (m * 2 ^ k) k = m * 2 ^ k := by
  rw [roundNat_eq]
  have hpos : 0 < 2 ^ k := Nat.two_pow_pos k
  simp [Nat.mul_div_cancel _ hpos, hpos]

theorem roundNat_mono {a b : Nat} (k : Nat) (h : a ≤ b) : roundNat a k ≤ roundNat b k := by
  have hpos : 0 < 2 ^ k := Nat.two_pow_pos k
  have hq : a / 2 ^ k ≤ b / 2 ^ k := Nat.div_le_div_right h
  rcases Nat.lt_or_eq_of_le hq with hlt | heq
  · calc roundNat a k ≤ (a / 2 ^ k + 1) * 2 ^ k := roundNat_upper a k
      _ ≤ b / 2 ^ k * 2 ^ k := Nat.mul_le_mul_right _ hlt
      _ ≤ roundNat b k := roundNat_lower b k
  · have hr : a % 2 ^ k ≤ b % 2 ^ k := by
      have h1 := Nat.div_add_mod a (2 ^ k)
      have h2 := Nat.div_add_mod b (2 ^ k)
      rw [heq] at h1
      omega
    rw [roundNat_eq, roundNat_eq, heq]
    apply Nat.mul_le_mul_right
    split_ifs <;> omega

theorem roundSig_mono (kmin : Nat) {a b : Nat} (h : a ≤ b) :
    roundSig kmin a ≤ roundSig kmin b := by
  unfold roundSig
  have hk : max kmin (bitLen a - 53) ≤ max kmin (bitLen b - 53) :=
    max_le_max le_rfl (Nat.sub_le_sub_right (bitLen_mono h) 53)
  rcases Nat.lt_or_eq_of_le hk with hlt | heq
  · set ka := max kmin (bitLen a - 53) with hka
    set kb := max kmin (bitLen b - 53) with hkb
    have hkb' : kb = bitLen b - 53 := by
      have h1 : kmin ≤ ka := le_max_left _ _
      rcases max_choice kmin (bitLen b - 53) with h2 | h2
      · rw [← hkb] at h2; omega
      · rw [← hkb] at h2; exact h2
    have hb0 : b ≠ 0 := by
      rintro rfl
      have h0 : bitLen 0 = 0 := by decide
      rw [h0] at hkb'
      omega
    have hbT : 2 ^ (kb + 52) ≤ b := by
      have h1 := two_pow_bitLen_le b hb0
      have h2 : bitLen b = kb + 52 + 1 := by omega
      rw [h2, pow_succ] at h1
      omega
    have haT : a < 2 ^ (kb + 52) := by
      rw [← bitLen_le_iff]
      have : bitLen a - 53 ≤ ka := le_max_right _ _
      omega
    have e1 : 2 ^ (kb + 52) = 2 ^ (kb + 52 - ka) * 2 ^ ka := by
      rw [← pow_add, Nat.sub_add_cancel (by omega)]
    have e2 : 2 ^ (kb + 52) = 2 ^ 52 * 2 ^ kb := by
      rw [← pow_add, Nat.add_comm]
    calc roundNat a ka ≤ roundNat (2 ^ (kb + 52)) ka := roundNat_mono ka (le_of_lt haT)
      _ = 2 ^ (kb + 52) := by rw [e1, roundNat_mul]
      _ = roundNat (2 ^ (kb + 52)) kb := by rw [e2, roundNat_mul]
      _ ≤ roundNat b kb := roundNat_mono kb hbT
  · rw [heq]
    exact roundNat_mono _ h

theorem roundSig_zero (kmin : Nat) : roundSig kmin 0 = 0 := by
  unfold roundSig
  have := roundNat_mul 0 (max kmin (bitLen 0 - 53))
  simpa using this

theorem round53_of_nonneg (kmin : Nat) {n : Int} (h : 0 ≤ n) :
    round53 kmin n = (roundSig kmin n.natAbs : Int) := by
  unfold round53
  rcases eq_or_lt_of_le h with h0 | hpos
  · subst h0; simp [roundSig_zero]
  · rw [Int.sign_eq_one_of_pos hpos, one_mul]

theorem round53_neg (kmin : Nat) (n : Int) : round53 kmin (-n) = -round53 kmin n := by
  unfold round53
  rw [Int.sign_neg, Int.natAbs_neg, neg_mul]

theorem round53_nonneg (kmin : Nat) {n : Int} (h : 0 ≤ n) : 0 ≤ round53 kmin n := by
  rw [round53_of_nonneg kmin h]
  exact Int.ofNat_nonneg _

theorem round53_mono (kmin : Nat) {n m : Int} (h : n ≤ m) :
    round53 kmin n ≤ round53 kmin m := by
  rcases le_total 0 n with hn | hn
  · have hm : 0 ≤ m := le_trans hn h
    rw [round53_of_nonneg kmin hn, round53_of_nonneg kmin hm]
    exact Int.ofNat_le.mpr (roundSig_mono kmin (by omega))
  · rcases le_total 0 m with hm | hm
    · have h1 : round53 kmin n ≤ 0 := by
        have := round53_nonneg kmin (n := -n) (by omega)
        rw [round53_neg] at this
        omega
      exact le_trans h1 (round53_nonneg kmin hm)
    · have h1 := round53_of_nonneg kmin (n := -n) (by omega)
      have h2 := round53_of_nonneg kmin (n := -m) (by omega)
      rw [round53_neg] at h1 h2
      have h3 : (-m).natAbs ≤ (-n).natAbs := by omega
      have h4 := Int.ofNat_le.mpr (roundSig_mono kmin h3)
      omega

theorem bitLen_zero : bitLen 0 = 0 := by decide

theorem bitLen_two_pow_mul (s : Nat) {r : Nat} (hr : r ≠ 0) :
    bitLen (2 ^ s * r) = s + bitLen r := by
  apply le_antisymm
  · rw [bitLen_le_iff, pow_add]
    exact Nat.mul_lt_mul_of_pos_left (lt_two_pow_bitLen r) (Nat.two_pow_pos s)
  · by_contra hc
    push_neg at hc
    have hpos : 0 < bitLen r := by
      by_contra h0
      have h1 : bitLen r ≤ 0 := by omega
      rw [bitLen_le_iff] at h1
      omega
    have h1 : bitLen (2 ^ s * r) ≤ s + (bitLen r - 1) := by omega
    rw [bitLen_le_iff, pow_add] at h1
    have h2 : r < 2 ^ (bitLen r - 1) := Nat.lt_of_mul_lt_mul_left h1
    have h3 := two_pow_bitLen_le r hr
    have h4 : bitLen r = bitLen r - 1 + 1 := by omega
    rw [h4, pow_succ] at h3
    omega

theorem roundNat_dvd (a k : Nat) : 2 ^ k ∣ roundNat a k := by
  rw [roundNat_eq]
  exact Dvd.intro_left _ rfl

theorem roundSig_dvd (kmin a : Nat) :
    2 ^ max kmin (bitLen (roundSig kmin a) - 53) ∣ roundSig kmin a := by
  set K := max kmin (bitLen a - 53) with hK
  set r := roundSig kmin a with hr
  have hrK : 2 ^ K ∣ r := roundNat_dvd a K
  set M := max (bitLen a) K with hM
  have hKM : K ≤ M := le_max_right _ _
  have hLM : bitLen a ≤ M := le_max_left _ _
  have hkK : kmin ≤ K := le_max_left _ _
  have hLK : bitLen a - 53 ≤ K := le_max_right _ _
  have hup : r ≤ 2 ^ M := by
    have e : 2 ^ M = 2 ^ (M - K) * 2 ^ K := by
      rw [← pow_add, Nat.sub_add_cancel hKM]
    have ha : a ≤ 2 ^ M :=
      le_of_lt (lt_of_lt_of_le (lt_two_pow_bitLen a) (Nat.pow_le_pow_right (by norm_num) hLM))
    calc r = roundNat a K := rfl
      _ ≤ roundNat (2 ^ M) K := roundNat_mono K ha
      _ = 2 ^ M := by rw [e, roundNat_mul]
  rcases Nat.lt_or_ge r (2 ^ M) with hlt | hge
  · have hb : bitLen r ≤ M := (bitLen_le_iff r M).mpr hlt
    have : max kmin (bitLen r - 53) ≤ K := by
      apply max_le hkK
      rcases le_total (bitLen a) K with h | h
      · have : M = K := max_eq_right h
        omega
      · have : M = bitLen a := max_eq_left h
        omega
    exact Dvd.dvd.trans (pow_dvd_pow 2 this) hrK
  · have hrM : r = 2 ^ M := le_antisymm hup hge
    rw [hrM]
    apply pow_dvd_pow
    apply max_le (le_trans hkK hKM)
    have h1 : bitLen (2 ^ M) ≤ M + 1 := by
      rw [bitLen_le_iff]
      exact Nat.pow_lt_pow_right (by norm_num) (Nat.lt_succ_self M)
    omega

theorem roundSig_of_dvd (kmin a : Nat) (h : 2 ^ max kmin (bitLen a - 53) ∣ a) :
    roundSig kmin a = a := by
  unfold roundSig
  generalize max kmin (bitLen a - 53) = k at h
  obtain ⟨c, hc⟩ := h
  rw [hc, Nat.mul_comm]
  exact roundNat_mul c k

theorem roundSig_idem (kmin a : Nat) : roundSig kmin (roundSig kmin a) = roundSig kmin a :=
  roundSig_of_dvd kmin _ (roundSig_dvd kmin a)

theorem natAbs_round53 (kmin : Nat) (y : Int) :
    (round53 kmin y).natAbs = roundSig kmin y.natAbs := by
  unfold round53
  rcases eq_or_ne y 0 with h | h
  · subst h; simp [roundSig_zero]
  · rw [Int.natAbs_mul, Int.natAbs_sign_of_nonzero h, Nat.one_mul, Int.natAbs_ofNat]

theorem sign_round53_mul (kmin : Nat) (y : Int) :
    Int.sign (round53 kmin y) * ((round53 kmin y).natAbs : Int) = round53 kmin y :=
  Int.sign_mul_natAbs _

theorem roundSig_two_pow_mul (s a : Nat) :
    roundSig s (2 ^ s * roundSig 0 a) = 2 ^ s * roundSig 0 a := by
  apply roundSig_of_dvd
  rcases Nat.eq_zero_or_pos (roundSig 0 a) with h0 | hpos
  · rw [h0]; simp
  · rw [bitLen_two_pow_mul s (Nat.pos_iff_ne_zero.mp hpos)]
    have h := roundSig_dvd 0 a
    rw [Nat.zero_max] at h
    have e : max s (s + bitLen (roundSig 0 a) - 53) = s + (bitLen (roundSig 0 a) - 53) := by
      omega
    rw [e, pow_add]
    exact Nat.mul_dvd_mul_left _ h

theorem round53_two_pow_mul (s : Nat) (y : Int) :
    round53 s (((2 ^ s : Nat) : Int) * round53 0 y) = ((2 ^ s : Nat) : Int) * round53 0 y := by
  have hpos : (0 : Int) < ((2 ^ s : Nat) : Int) := Int.ofNat_pos.mpr (Nat.two_pow_pos s)
  have key : ∀ u : Int, u.natAbs = roundSig 0 y.natAbs →
      round53 s (((2 ^ s : Nat) : Int) * u) = ((2 ^ s : Nat) : Int) * u := by
    intro u hu
    unfold round53
    rw [Int.sign_mul, Int.sign_eq_one_of_pos hpos, one_mul, Int.natAbs_mul, Int.natAbs_ofNat,
      hu, roundSig_two_pow_mul, Nat.cast_mul, ← hu, mul_left_comm, Int.sign_mul_natAbs]
  exact key _ (natAbs_round53 0 y)

theorem roundNat_err (a k : Nat) :
    2 * a ≤ 2 * roundNat a k + 2 ^ k ∧ 2 * roundNat a k ≤ 2 * a + 2 ^ k := by
  have hpos : 0 < 2 ^ k := Nat.two_pow_pos k
  have hdm : 2 ^ k * (a / 2 ^ k) + a % 2 ^ k = a := Nat.div_add_mod a (2 ^ k)
  have hlt : a % 2 ^ k < 2 ^ k := Nat.mod_lt a hpos
  rw [roundNat_eq]
  generalize a / 2 ^ k = q at *
  generalize a % 2 ^ k = r at *
  generalize 2 ^ k = P at *
  have e1 : (q + 1) * P = P * q + P := by ring
  have e2 : q * P = P * q := Nat.mul_comm _ _
  split_ifs <;> (first | rw [e1] | rw [e2]) <;> omega

theorem roundSig_err (kmin t a : Nat) (ha : a < 2 ^ t) :
    2 * a ≤ 2 * roundSig kmin a + 2 ^ max kmin (t - 53) ∧
      2 * roundSig kmin a ≤ 2 * a + 2 ^ max kmin (t - 53) := by
  have hb : bitLen a ≤ t := (bitLen_le_iff a t).mpr ha
  have hk : max kmin (bitLen a - 53) ≤ max kmin (t - 53) :=
    max_le_max le_rfl (Nat.sub_le_sub_right hb 53)
  have hp : 2 ^ max kmin (bitLen a - 53) ≤ 2 ^ max kmin (t - 53) :=
    Nat.pow_le_pow_right (by norm_num) hk
  have h := roundNat_err a (max kmin (bitLen a - 53))
  unfold roundSig
  omega

theorem round53_err (kmin t : Nat) (n : Int) (hn : n.natAbs < 2 ^ t) :
    2 * n ≤ 2 * round53 kmin n + ((2 ^ max kmin (t - 53) : Nat) : Int) ∧
      2 * round53 kmin n ≤ 2 * n + ((2 ^ max kmin (t - 53) : Nat) : Int) := by
  have h := roundSig_err kmin t n.natAbs hn
  generalize (2 ^ max kmin (t - 53) : Nat) = E at *
  rcases le_total 0 n with h0 | h0
  · rw [round53_of_nonneg kmin h0]
    have : (n.natAbs : Int) = n := Int.natAbs_of_nonneg h0
    omega
  · have h1 := round53_of_nonneg kmin (n := -n) (by omega)
    rw [round53_neg, Int.natAbs_neg] at h1
    have : (n.natAbs : Int) = -n := by omega
    omega

/-- Two numbers below `2 ^ t` in magnitude that lie `g` apart are rounded to
numbers at least `g - 2 ^ max kmin (t - 53)` apart. -/
theorem round53_gap (kmin t : Nat) (n m : Int) (hn : n.natAbs < 2 ^ t) (hm : m.natAbs < 2 ^ t) :
    (m - n) - ((2 ^ max kmin (t - 53) : Nat) : Int) ≤ round53 kmin m - round53 kmin n := by
  have h1 := round53_err kmin t n hn
  have h2 := round53_err kmin t m hm
  omega

theorem round53_exact (kmin s : Nat) (hk : kmin ≤ s) (i : Int) (hi : i.natAbs < 2 ^ 53) :
    round53 kmin (i * ((2 ^ s : Nat) : Int)) = i * ((2 ^ s : Nat) : Int) := by
  have key : roundSig kmin (i.natAbs * 2 ^ s) = i.natAbs * 2 ^ s := by
    apply roundSig_of_dvd
    have hb : bitLen (i.natAbs * 2 ^ s) ≤ 53 + s := by
      rw [bitLen_le_iff, pow_add]
      exact Nat.mul_lt_mul_of_pos_right hi (Nat.two_pow_pos s)
    have hk : max kmin (bitLen (i.natAbs * 2 ^ s) - 53) ≤ s := by omega
    exact Dvd.dvd.trans (pow_dvd_pow 2 hk) (Dvd.intro_left _ rfl)
  have hpos : (0 : Int) < ((2 ^ s : Nat) : Int) := Int.ofNat_pos.mpr (Nat.two_pow_pos s)
  unfold round53
  rw [Int.sign_mul, Int.sign_eq_one_of_pos hpos, mul_one, Int.natAbs_mul, Int.natAbs_ofNat, key,
    Nat.cast_mul, ← mul_assoc, Int.sign_mul_natAbs]

theorem round53_dvd (kmin : Nat) (n : Int) : ((2 ^ kmin : Nat) : Int) ∣ round53 kmin n := by
  unfold round53 roundSig
  apply Dvd.dvd.mul_left
  apply Int.natCast_dvd_natCast.mpr
  exact Dvd.dvd.trans (pow_dvd_pow 2 (le_max_left _ _)) (roundNat_dvd _ _)

end F64Impl

/-! ## Binary64 operations -/

namespace F64

open F64Impl

theorem le_def (a b : F64) : a ≤ b ↔ a.units ≤ b.units := Iff.rfl

theorem lt_def (a b : F64) : a < b ↔ a.units < b.units := Iff.rfl

theorem ofInt_mono {i j : Int} (h : i ≤ j) : ofInt i ≤ ofInt j := by
  rw [le_def]
  exact round53_mono 0 (Int.mul_le_mul_of_nonneg_right h (Int.ofNat_nonneg _))

theorem add_mono {a b c d : F64} (h1 : a ≤ b) (h2 : c ≤ d) : add a c ≤ add b d := by
  rw [le_def] at *
  exact round53_mono 0 (Int.add_le_add h1 h2)

theorem sub_mono_left {a b : F64} (c : F64) (h : a ≤ b) : sub a c ≤ sub b c := by
  rw [le_def] at *
  exact round53_mono 0 (Int.sub_le_sub_right h _)

theorem mul_mono_right {c : F64} (hc : 0 ≤ c.units) {a b : F64} (h : a ≤ b) :
    mul c a ≤ mul c b := by
  rw [le_def] at *
  exact Int.ediv_le_ediv (by simp [Nat.shiftLeft_eq]) (round53_mono _ (Int.mul_le_mul_of_nonneg_left h hc))

theorem units_ofInt_one : (ofInt 1).units = ((2 ^ unitShift : Nat) : Int) := by
  have h : ofInt 1 = ⟨((1 <<< unitShift : Nat) : Int)⟩ := by decide
  rw [h, Nat.one_shiftLeft]

/-- Multiplying by `1.0` leaves a binary64 number as it is. -/
theorem one_mul_round (y : Int) :
    mul (ofInt 1) ⟨round53 0 y⟩ = ⟨round53 0 y⟩ := by
  unfold mul
  rw [units_ofInt_one]
  simp only [Nat.one_shiftLeft]
  rw [round53_two_pow_mul]
  have hpos : ((2 ^ unitShift : Nat) : Int) ≠ 0 :=
    Int.ofNat_ne_zero.mpr (Nat.pos_iff_ne_zero.mp (Nat.two_pow_pos _))
  rw [Int.mul_ediv_cancel_left _ hpos]

/-- The number of units that make `1.0`, as an integer. -/
theorem unit_eq : ((1 <<< unitShift : Nat) : Int) = ((2 ^ unitShift : Nat) : Int) := by
  rw [Nat.one_shiftLeft]

theorem units_ofInt {i : Int} (hi : i.natAbs < 2 ^ 53) :
    (ofInt i).units = i * ((2 ^ unitShift : Nat) : Int) := by
  unfold ofInt
  rw [unit_eq]
  exact round53_exact 0 unitShift (Nat.zero_le _) i hi

theorem units_sub_ofInt {i j : Int} (hi : i.natAbs < 2 ^ 53) (hj : j.natAbs < 2 ^ 53)
    (hij : (i - j).natAbs < 2 ^ 53) :
    (sub (ofInt i) (ofInt j)).units = (i - j) * ((2 ^ unitShift : Nat) : Int) := by
  unfold sub
  rw [units_ofInt hi, units_ofInt hj, ← sub_mul]
  exact round53_exact 0 unitShift (Nat.zero_le _) _ hij

theorem units_mul (a b : F64) :
    ((2 ^ unitShift : Nat) : Int) * (mul a b).units = round53 unitShift (a.units * b.units) := by
  unfold mul
  rw [unit_eq]
  exact Int.mul_ediv_cancel' (round53_dvd unitShift _)

/-- A product term `T * (float64(v) - float64(v0))` of the weight, for `v`
and `v0` of magnitude at most `2 ^ 40` and a factor `T` below `2 ^ (-3)`: it
grows by at least `T * (w - v)` less a rounding error when `v` grows to `w`. -/
theorem mul_sub_gap (T : F64) (hT1 : T.units.natAbs < 2 ^ 1071)
    (v w v0 : Int) (hv : v.natAbs ≤ 2 ^ 40) (hw : w.natAbs ≤ 2 ^ 40) (hv0 : v0.natAbs ≤ 2 ^ 40)
    (hvw : v ≤ w) :
    T.units * (w - v) - ((2 ^ 1059 : Nat) : Int) ≤
      (mul T (sub (ofInt w) (ofInt v0))).units - (mul T (sub (ofInt v) (ofInt v0))).units := by
  have h40 : (2 : Nat) ^ 40 < 2 ^ 52 := Nat.pow_lt_pow_right (by norm_num) (by norm_num)
  have h41 : (2 : Nat) ^ 40 + 2 ^ 40 = 2 ^ 41 := by rw [← Nat.two_mul, ← pow_succ']
  have h52 : (2 : Nat) ^ 52 + 2 ^ 52 = 2 ^ 53 := by rw [← Nat.two_mul, ← pow_succ']
  have hsv : (sub (ofInt v) (ofInt v0)).units = (v - v0) * ((2 ^ unitShift : Nat) : Int) :=
    units_sub_ofInt (by omega) (by omega) (by omega)
  have hsw : (sub (ofInt w) (ofInt v0)).units = (w - v0) * ((2 ^ unitShift : Nat) : Int) :=
    units_sub_ofInt (by omega) (by omega) (by omega)
  have hmv := units_mul T (sub (ofInt v) (ofInt v0))
  have hmw := units_mul T (sub (ofInt w) (ofInt v0))
  rw [hsv] at hmv
  rw [hsw] at hmw
  have hbound : ∀ u : Int, u.natAbs ≤ 2 ^ 40 →
      (T.units * ((u - v0) * ((2 ^ unitShift : Nat) : Int))).natAbs < 2 ^ 2186 := by
    intro u hu
    rw [Int.natAbs_mul, Int.natAbs_mul, Int.natAbs_ofNat]
    have h1 : (u - v0).natAbs ≤ 2 ^ 41 := by omega
    have hsum : 1071 + (41 + unitShift) = 2186 := rfl
    have e : (2 : Nat) ^ 2186 = 2 ^ 1071 * (2 ^ 41 * 2 ^ unitShift) := by
      rw [← pow_add, ← pow_add, hsum]
    rw [e]
    apply Nat.mul_lt_mul_of_lt_of_le hT1 (Nat.mul_le_mul_right _ h1)
    exact Nat.mul_pos (Nat.two_pow_pos _) (Nat.two_pow_pos _)
  have hgap := round53_gap unitShift 2186 _ _ (hbound v hv) (hbound w hw)
  rw [← hmv, ← hmw] at hgap
  have hk : max unitShift (2186 - 53) = unitShift + 1059 := by decide
  rw [hk, pow_add, Nat.cast_mul] at hgap
  have hS : (0 : Int) < ((2 ^ unitShift : Nat) : Int) := Int.ofNat_pos.mpr (Nat.two_pow_pos _)
  have e2 : T.units * ((w - v0) * ((2 ^ unitShift : Nat) : Int)) -
      T.units * ((v - v0) * ((2 ^ unitShift : Nat) : Int)) -
      ((2 ^ unitShift : Nat) : Int) * ((2 ^ 1059 : Nat) : Int) =
      ((2 ^ unitShift : Nat) : Int) * (T.units * (w - v) - ((2 ^ 1059 : Nat) : Int)) := by ring
  have e3 : ((2 ^ unitShift : Nat) : Int) * (mul T (sub (ofInt w) (ofInt v0))).units -
      ((2 ^ unitShift : Nat) : Int) * (mul T (sub (ofInt v) (ofInt v0))).units =
      ((2 ^ unitShift : Nat) : Int) *
        ((mul T (sub (ofInt w) (ofInt v0))).units - (mul T (sub (ofInt v) (ofInt v0))).units) := by
    ring
  rw [e2, e3] at hgap
  exact le_of_mul_le_mul_left hgap hS

/-- A product term of the weight stays below `2 ^ 39` in magnitude. -/
theorem mul_sub_bound (T : F64) (hT1 : T.units.natAbs < 2 ^ 1071)
    (v v0 : Int) (hv : v.natAbs ≤ 2 ^ 40) (hv0 : v0.natAbs ≤ 2 ^ 40) :
    (mul T (sub (ofInt v) (ofInt v0))).units.natAbs < 2 ^ 1113 := by
  have h40 : (2 : Nat) ^ 40 < 2 ^ 52 := Nat.pow_lt_pow_right (by norm_num) (by norm_num)
  have h41 : (2 : Nat) ^ 40 + 2 ^ 40 = 2 ^ 41 := by rw [← Nat.two_mul, ← pow_succ']
  have h52 : (2 : Nat) ^ 52 + 2 ^ 52 = 2 ^ 53 := by rw [← Nat.two_mul, ← pow_succ']
  have hsv : (sub (ofInt v) (ofInt v0)).units = (v - v0) * ((2 ^ unitShift : Nat) : Int) :=
    units_sub_ofInt (by omega) (by omega) (by omega)
  have hmv := units_mul T (sub (ofInt v) (ofInt v0))
  rw [hsv] at hmv
  have hbound : (T.units * ((v - v0) * ((2 ^ unitShift : Nat) : Int))).natAbs < 2 ^ 2186 := by
    rw [Int.natAbs_mul, Int.natAbs_mul, Int.natAbs_ofNat]
    have h1 : (v - v0).natAbs ≤ 2 ^ 41 := by omega
    have hsum : 1071 + (41 + unitShift) = 2186 := rfl
    have e : (2 : Nat) ^ 2186 = 2 ^ 1071 * (2 ^ 41 * 2 ^ unitShift) := by
      rw [← pow_add, ← pow_add, hsum]
    rw [e]
    apply Nat.mul_lt_mul_of_lt_of_le hT1 (Nat.mul_le_mul_right _ h1)
    exact Nat.mul_pos (Nat.two_pow_pos _) (Nat.two_pow_pos _)
  have herr := round53_err unitShift 2186 _ hbound
  rw [← hmv] at herr
  have hk : max unitShift (2186 - 53) = unitShift + 1059 := by decide
  rw [hk, pow_add, Nat.cast_mul] at herr
  have hsum : unitShift + 1112 = 2186 := rfl
  have e1 : (2 : Nat) ^ 2186 = 2 ^ unitShift * 2 ^ 1112 := by
    rw [← pow_add, hsum]
  rw [e1] at hbound
  have e2 : (2 : Nat) ^ 1113 = 2 ^ 1112 + 2 ^ 1112 := by rw [← Nat.two_mul, ← pow_succ']
  have e3 : (2 : Nat) ^ 1112 = 2 ^ 53 * 2 ^ 1059 := by rw [← pow_add]
  have hp : 0 < 2 ^ unitShift := Nat.two_pow_pos unitShift
  have hq : 0 < 2 ^ 1059 := Nat.two_pow_pos 1059
  generalize (mul T (sub (ofInt v) (ofInt v0))).units = X at *
  generalize T.units * ((v - v0) * ((2 ^ unitShift : Nat) : Int)) = p at *
  rw [e2, e3]
  rw [e3] at hbound
  generalize 2 ^ unitShift = S at *
  generalize 2 ^ 1059 = Q at *
  have hS : (0 : Int) < (S : Int) := Int.ofNat_pos.mpr hp
  have h53 : (2 : Nat) ^ 53 = 9007199254740992 := by norm_num
  rw [h53] at hbound ⊢
  by_contra hc
  push_neg at hc
  have hX : (9007199254740992 * Q + 9007199254740992 * Q : Int) ≤ |X| := by
    have := Int.natAbs_of_nonneg (abs_nonneg X)
    rw [Int.natAbs_abs] at this
    rw [← this]
    exact_mod_cast hc
  have hp1 : |p| < (S : Int) * (9007199254740992 * Q) := by
    have := Int.natAbs_of_nonneg (abs_nonneg p)
    rw [Int.natAbs_abs] at this
    rw [← this]
    exact_mod_cast hbound
  have hSX : (S : Int) * (9007199254740992 * Q + 9007199254740992 * Q) ≤ (S : Int) * |X| :=
    Int.mul_le_mul_of_nonneg_left hX (le_of_lt hS)
  have habs : (S : Int) * |X| = |(S : Int) * X| := by
    rw [abs_mul, abs_of_pos hS]
  rw [habs] at hSX
  have hQ : (0 : Int) < (Q : Int) := Int.ofNat_pos.mpr hq
  have hSQ : (0 : Int) < (S : Int) * (Q : Int) := Int.mul_pos hS hQ
  have := abs_le.mp (le_refl |(S : Int) * X|)
  have hp2 := abs_lt.mp hp1
  rcases abs_cases ((S : Int) * X) with ⟨h1, _⟩ | ⟨h1, _⟩ <;> rw [h1] at hSX <;> nlinarith

end F64

/-! ## The comparison and the insertion sort -/

namespace host

open models

theorem less_fst_iff (f : Bool) (a b : Host) :
    (SortHosts.less f a b).1 = true ↔ rank a < rank b := by
  unfold SortHosts.less rank weightOf
  cases ha : a.Inventory with
  | none => simp
  | some ia =>
    cases hb : b.Inventory with
    | none => simp
    | some ib =>
      simp
      exact Iff.rfl

theorem sink_perm (x : Host) (l : List Host) (f : Bool) :
    (SortHosts.sink x l f).1.Perm (x :: l) := by
  induction l generalizing f with
  | nil => simp [SortHosts.sink]
  | cons y ys ih =>
    unfold SortHosts.sink
    split
    · exact ((ih _).cons y).trans (List.Perm.swap x y ys)
    · exact List.Perm.refl _

theorem sink_sorted (x : Host) (l : List Host) (f : Bool)
    (hl : l.Pairwise (fun a b => rank b ≤ rank a)) :
    (SortHosts.sink x l f).1.Pairwise (fun a b => rank b ≤ rank a) := by
  induction l generalizing f with
  | nil => simp [SortHosts.sink]
  | cons y ys ih =>
    unfold SortHosts.sink
    rw [List.pairwise_cons] at hl
    split
    · rename_i hlt
      rw [less_fst_iff] at hlt
      rw [List.pairwise_cons]
      refine ⟨?_, ih _ hl.2⟩
      intro b hb
      rcases List.mem_cons.mp ((sink_perm x ys _).mem_iff.mp hb) with h | h
      · subst h; exact le_of_lt hlt
      · exact hl.1 b h
    · rename_i hlt
      rw [less_fst_iff, not_lt] at hlt
      rw [List.pairwise_cons, List.pairwise_cons]
      refine ⟨?_, hl.1, hl.2⟩
      intro b hb
      rcases List.mem_cons.mp hb with h | h
      · subst h; exact hlt
      · exact le_trans (hl.1 b h) hlt

theorem sink_filter (x : Host) (l : List Host) (f : Bool) (k : WithTop Int) :
    (SortHosts.sink x l f).1.filter (fun h => decide (rank h = k)) =
      (x :: l).filter (fun h => decide (rank h = k)) := by
  induction l generalizing f with
  | nil => simp [SortHosts.sink]
  | cons y ys ih =>
    unfold SortHosts.sink
    split
    · rename_i hlt
      rw [less_fst_iff] at hlt
      simp only [List.filter_cons, ih]
      by_cases hx : rank x = k <;> by_cases hy : rank y = k <;> simp [hx, hy]
      exact absurd (hx.trans hy.symm) (ne_of_lt hlt)
    · rfl

theorem insertionSort_perm (xs done : List Host) (f : Bool) :
    (SortHosts.insertionSort xs done f).1.Perm (done.reverse ++ xs) := by
  induction xs generalizing done f with
  | nil => simp [SortHosts.insertionSort]
  | cons x xs ih =>
    unfold SortHosts.insertionSort
    refine (ih _ _).trans ?_
    have h := (sink_perm x done f)
    have h2 : (SortHosts.sink x done f).1.reverse.Perm (done.reverse ++ [x]) := by
      refine (List.reverse_perm _).trans (h.trans ?_)
      exact (@List.perm_append_comm _ [x] done).trans
        ((List.reverse_perm done).symm.append_right [x])
    simpa using h2.append_right xs

theorem insertionSort_sorted (xs done : List Host) (f : Bool)
    (hd : done.Pairwise (fun a b => rank b ≤ rank a)) :
    (SortHosts.insertionSort xs done f).1.Pairwise (fun a b => rank a ≤ rank b) := by
  induction xs generalizing done f with
  | nil => simpa [SortHosts.insertionSort, List.pairwise_reverse] using hd
  | cons x xs ih =>
    unfold SortHosts.insertionSort
    exact ih _ _ (sink_sorted x done f hd)

theorem insertionSort_filter (xs done : List Host) (f : Bool) (k : WithTop Int) :
    (SortHosts.insertionSort xs done f).1.filter (fun h => decide (rank h = k)) =
      (done.reverse ++ xs).filter (fun h => decide (rank h = k)) := by
  induction xs generalizing done f with
  | nil => simp [SortHosts.insertionSort]
  | cons x xs ih =>
    unfold SortHosts.insertionSort
    rw [ih, List.filter_append, List.filter_reverse, sink_filter, List.filter_append,
      List.filter_reverse]
    by_cases hx : rank x = k <;> simp [List.filter_cons, hx]

end host

/-! ## The order returned by `SortHosts` -/

namespace host

open models

theorem rank_le_iff_of_weight {a b : Host} {wa wb : F64}
    (ha : weightOf a = some wa) (hb : weightOf b = some wb) :
    rank a ≤ rank b ↔ wa ≤ wb := by
  unfold rank
  rw [ha, hb]
  exact WithTop.coe_le_coe

theorem rank_eq_top_iff (a : Host) : rank a = ⊤ ↔ a.Inventory = none := by
  unfold rank weightOf
  cases a.Inventory with
  | none => simp; rfl
  | some i => simp

theorem rank_eq_iff_weightOf (h : Host) (k : Option F64) :
    rank h = k.map F64.units ↔ weightOf h = k := by
  unfold rank
  constructor
  · intro e
    refine Option.map_injective ?_ e
    intro x y hxy
    cases x; cases y; simp_all
  · intro e; rw [e]

/-- C1: for every list of hosts, in the list returned by `SortHosts` any two
hosts that both have parseable inventory appear in non-decreasing order of
weight: if `a` is placed before `b` then the weight of `a` is at most the
weight of `b`. -/
theorem SortHosts_ascending_by_weight (hosts : List Host) :
    (SortHosts hosts).1.Pairwise
      (fun a b => ∀ wa wb, weightOf a = some wa → weightOf b = some wb → wa ≤ wb) := by
  have h := insertionSort_sorted hosts [] true List.Pairwise.nil
  exact h.imp (fun {a b} hab wa wb ha hb => (rank_le_iff_of_weight ha hb).mp hab)

/-- C2: for every list of hosts `SortHosts` is stable: the hosts that compare
as equal to one another (the hosts with parseable inventory of one given
weight, or the hosts without parseable inventory) appear in the result in the
same relative order as in the input. -/
theorem SortHosts_stable (hosts : List Host) (k : Option F64) :
    (SortHosts hosts).1.filter (fun h => decide (weightOf h = k)) =
      hosts.filter (fun h => decide (weightOf h = k)) := by
  have h := insertionSort_filter hosts [] true (k.map F64.units)
  have e : (fun h => decide (rank h = k.map F64.units)) = (fun h => decide (weightOf h = k)) := by
    funext h
    exact decide_eq_decide.mpr (rank_eq_iff_weightOf h k)
  rw [e] at h
  simpa [SortHosts] using h

/-- C3: the flag `SortHosts` returns for the single host H3, which has no
parseable inventory, is `true`: the comparison is never evaluated on a list of
one host, so the host without inventory goes unnoticed. -/
theorem SortHosts_single_host_without_inventory :
    SortHosts [H3] = ([H3], true) ∧ H3.Inventory = none := by
  decide

/-- C4, as stated, fails: sorting H3 (no inventory) and H2 (valid inventory)
leaves H2 before H3, so a host with inventory precedes one without. -/
theorem SortHosts_noInventory_not_first :
    SortHosts [H3, H2] = ([H2, H3], false) ∧
      ¬ (SortHosts [H3, H2]).1.Pairwise (fun a b => b.Inventory = none → a.Inventory = none) := by
  decide

/-- C4, amended: for every list of hosts, a host without parseable inventory
sorts as the highest weight: in the list returned by `SortHosts` no host
without inventory is placed before a host that has valid inventory. -/
theorem SortHosts_noInventory_last (hosts : List Host) :
    (SortHosts hosts).1.Pairwise (fun a b => a.Inventory = none → b.Inventory = none) := by
  have h := insertionSort_sorted hosts [] true List.Pairwise.nil
  refine h.imp ?_
  intro a b hab ha
  rw [← rank_eq_top_iff] at ha ⊢
  rw [ha] at hab
  exact top_le_iff.mp hab

/-- C5, as stated, fails: for the input order H1, H2, H3 `SortHosts` does not
return the order H3, H2, H1. -/
theorem SortHosts_scenario_not_H3_first :
    (SortHosts [H1, H2, H3]).1 ≠ [H3, H2, H1] := by
  decide

/-- C5, amended: for the three hosts H1, H2 and H3 given in any of the six
input orders, `SortHosts` returns the order H2, H1, H3 and the flag `false`. -/
theorem SortHosts_scenario :
    SortHosts [H1, H2, H3] = ([H2, H1, H3], false) ∧
    SortHosts [H1, H3, H2] = ([H2, H1, H3], false) ∧
    SortHosts [H2, H1, H3] = ([H2, H1, H3], false) ∧
    SortHosts [H2, H3, H1] = ([H2, H1, H3], false) ∧
    SortHosts [H3, H1, H2] = ([H2, H1, H3], false) ∧
    SortHosts [H3, H2, H1] = ([H2, H1, H3], false) := by
  decide

end host


/-! ## The weight -/

namespace host

open models F64Impl

theorem diskCapacityGiB_foldl_filter (disks : List Disk) (acc : Int) :
    disks.foldl
        (fun acc d => if d.Eligible then wrapInt64 (acc + BytesToGib d.SizeBytes) else acc) acc =
      (disks.filter (fun d => d.Eligible)).foldl
        (fun acc d => if d.Eligible then wrapInt64 (acc + BytesToGib d.SizeBytes) else acc) acc := by
  induction disks generalizing acc with
  | nil => rfl
  | cons d ds ih =>
    by_cases hd : d.Eligible = true
    · simp only [List.foldl_cons, List.filter_cons, hd, if_true]
      exact ih _
    · simp only [List.foldl_cons, List.filter_cons, hd, if_false]
      simp only [Bool.false_eq_true, if_false]
      exact ih _

theorem diskCapacityGiB_filter (disks : List Disk) :
    diskCapacityGiB disks = diskCapacityGiB (disks.filter (fun d => d.Eligible)) := by
  unfold diskCapacityGiB
  exact diskCapacityGiB_foldl_filter disks 0

/-- C6: for every host with parseable inventory the weight `SortHosts`
compares is `(cpuCount - 4) + 0.1 * (memoryGiB - 16) + 0.004 *
(eligibleDiskGiB - 100)` in binary64, where `cpuCount` is 0 without a CPU
section, `memoryGiB` is the usable memory in whole GiB and 0 without a memory
section, and `eligibleDiskGiB` is the eligible disk capacity; 8 cores, 32 GiB
and 200 GiB give exactly 6.0. -/
theorem hostWeight_eq_specWeight (inventory : Inventory) :
    hostWeight inventory =
        specWeight ((inventory.CPU.map CPU.Count).getD 0)
          ((inventory.Memory.map (fun m => BytesToGib m.UsableBytes)).getD 0)
          (diskCapacityGiB inventory.Disks) ∧
      specWeight 8 32 200 = F64.ofInt 6 ∧
      weightOf H1 = some (F64.ofInt 6) := by
  refine ⟨?_, by decide, by decide⟩
  have hc : cpuCount inventory = (inventory.CPU.map CPU.Count).getD 0 := by
    unfold cpuCount; cases inventory.CPU <;> rfl
  have hm : memInGib inventory =
      (inventory.Memory.map (fun m => BytesToGib m.UsableBytes)).getD 0 := by
    unfold memInGib; cases inventory.Memory <;> rfl
  unfold hostWeight specWeight
  rw [← hc, ← hm]
  have h1 : F64.mul (F64.ofInt 1) (F64.sub (F64.ofInt (cpuCount inventory)) HostWeightMinimumCpuCores)
      = F64.sub (F64.ofInt (cpuCount inventory)) HostWeightMinimumCpuCores :=
    F64.one_mul_round _
  rw [h1]
  rfl

/-- C7: disks marked ineligible contribute zero to capacity: the eligible
capacity is that of the eligible disks alone, so adding, removing or resizing
an ineligible disk leaves the capacity and the weight of the host unchanged,
and an inventory of ineligible disks only has eligible capacity 0. -/
theorem ineligible_disks_contribute_zero (cpu : Option CPU) (mem : Option Memory)
    (pre post : List Disk) (size size2 : Int) (sizes : List Int) :
    diskCapacityGiB (pre ++ post) = diskCapacityGiB ((pre ++ post).filter (fun d => d.Eligible)) ∧
      diskCapacityGiB (pre ++ ⟨false, size⟩ :: post) = diskCapacityGiB (pre ++ post) ∧
      diskCapacityGiB (pre ++ ⟨false, size⟩ :: post) =
        diskCapacityGiB (pre ++ ⟨false, size2⟩ :: post) ∧
      hostWeight ⟨cpu, mem, pre ++ ⟨false, size⟩ :: post⟩ = hostWeight ⟨cpu, mem, pre ++ post⟩ ∧
      hostWeight ⟨cpu, mem, pre ++ ⟨false, size⟩ :: post⟩ =
        hostWeight ⟨cpu, mem, pre ++ ⟨false, size2⟩ :: post⟩ ∧
      diskCapacityGiB (sizes.map (fun s => ⟨false, s⟩)) = 0 := by
  have e1 : diskCapacityGiB (pre ++ ⟨false, size⟩ :: post) = diskCapacityGiB (pre ++ post) := by
    rw [diskCapacityGiB_filter, diskCapacityGiB_filter (pre ++ post)]
    simp [List.filter_append, List.filter_cons]
  have e2 : diskCapacityGiB (pre ++ ⟨false, size2⟩ :: post) = diskCapacityGiB (pre ++ post) := by
    rw [diskCapacityGiB_filter, diskCapacityGiB_filter (pre ++ post)]
    simp [List.filter_append, List.filter_cons]
  refine ⟨diskCapacityGiB_filter _, e1, e1.trans e2.symm, ?_, ?_, ?_⟩
  · simp only [hostWeight, cpuCount, memInGib, e1]
  · simp only [hostWeight, cpuCount, memInGib, e1, e2]
  · rw [diskCapacityGiB_filter]
    have : (sizes.map (fun s => (⟨false, s⟩ : Disk))).filter (fun d => d.Eligible) = [] := by
      simp [List.filter_eq_nil_iff]
    rw [this]
    rfl

theorem hostWeight_mono {a b : Inventory} (hc : cpuCount a ≤ cpuCount b)
    (hm : memInGib a ≤ memInGib b)
    (hd : diskCapacityGiB a.Disks ≤ diskCapacityGiB b.Disks) :
    hostWeight a ≤ hostWeight b := by
  unfold hostWeight
  refine F64.add_mono (F64.add_mono ?_ ?_) ?_
  · exact F64.mul_mono_right (by decide) (F64.sub_mono_left _ (F64.ofInt_mono hc))
  · exact F64.mul_mono_right (by decide) (F64.sub_mono_left _ (F64.ofInt_mono hm))
  · exact F64.mul_mono_right (by decide) (F64.sub_mono_left _ (F64.ofInt_mono hd))

theorem natAbs_lt_of_abs_lt {x : Int} {B : Nat} (h1 : -(B : Int) < x) (h2 : x < (B : Int)) :
    x.natAbs < B := by omega

theorem abs_lt_of_natAbs_lt {x : Int} {B : Nat} (h : x.natAbs < B) :
    -(B : Int) < x ∧ x < (B : Int) := by omega

theorem tenth_bounds :
    F64.tenth.units.natAbs < 2 ^ 1071 ∧ ((2 ^ 1070 : Nat) : Int) ≤ F64.tenth.units := by
  have e1 : (2 : Nat) ^ 1071 = 9007199254740992 * 2 ^ 1018 := by
    have : (9007199254740992 : Nat) = 2 ^ 53 := by norm_num
    rw [this, ← pow_add]
  have e2 : (2 : Nat) ^ 1070 = 4503599627370496 * 2 ^ 1018 := by
    have : (4503599627370496 : Nat) = 2 ^ 52 := by norm_num
    rw [this, ← pow_add]
  have hp : 0 < 2 ^ 1018 := Nat.two_pow_pos 1018
  unfold F64.tenth
  rw [Nat.one_shiftLeft]
  rw [e1, e2]
  generalize 2 ^ 1018 = P at *
  constructor
  · rw [Int.natAbs_mul, Int.natAbs_ofNat]
    exact Nat.mul_lt_mul_of_pos_right (by norm_num) hp
  · push_cast
    exact Int.mul_le_mul_of_nonneg_right (by norm_num) (Int.ofNat_nonneg P)

theorem fourThousandths_bounds :
    F64.fourThousandths.units.natAbs < 2 ^ 1071 ∧
      ((2 ^ 1066 : Nat) : Int) ≤ F64.fourThousandths.units := by
  have e1 : (2 : Nat) ^ 1071 = 144115188075855872 * 2 ^ 1014 := by
    have : (144115188075855872 : Nat) = 2 ^ 57 := by norm_num
    rw [this, ← pow_add]
  have e2 : (2 : Nat) ^ 1066 = 4503599627370496 * 2 ^ 1014 := by
    have : (4503599627370496 : Nat) = 2 ^ 52 := by norm_num
    rw [this, ← pow_add]
  have hp : 0 < 2 ^ 1014 := Nat.two_pow_pos 1014
  unfold F64.fourThousandths
  rw [Nat.one_shiftLeft]
  rw [e1, e2]
  generalize 2 ^ 1014 = P at *
  constructor
  · rw [Int.natAbs_mul, Int.natAbs_ofNat]
    exact Nat.mul_lt_mul_of_pos_right (by norm_num) hp
  · push_cast
    exact Int.mul_le_mul_of_nonneg_right (by norm_num) (Int.ofNat_nonneg P)

theorem hostWeight_units (a : Inventory) (hc : (cpuCount a).natAbs ≤ 2 ^ 40) :
    (hostWeight a).units =
      round53 0
        (round53 0
            ((cpuCount a - 4) * ((2 ^ F64.unitShift : Nat) : Int) +
              (F64.mul F64.tenth (F64.sub (F64.ofInt (memInGib a)) (F64.ofInt 16))).units) +
          (F64.mul F64.fourThousandths
            (F64.sub (F64.ofInt (diskCapacityGiB a.Disks)) (F64.ofInt 100))).units) := by
  have h40 : (2 : Nat) ^ 40 < 2 ^ 52 := Nat.pow_lt_pow_right (by norm_num) (by norm_num)
  have h52 : (2 : Nat) ^ 52 + 2 ^ 52 = 2 ^ 53 := by rw [← Nat.two_mul, ← pow_succ']
  have h4 : (4 : Int).natAbs < 2 ^ 40 := by norm_num
  have h1 : F64.mul (F64.ofInt 1) (F64.sub (F64.ofInt (cpuCount a)) HostWeightMinimumCpuCores)
      = F64.sub (F64.ofInt (cpuCount a)) (F64.ofInt 4) :=
    F64.one_mul_round _
  have h2 : (F64.sub (F64.ofInt (cpuCount a)) (F64.ofInt 4)).units =
      (cpuCount a - 4) * ((2 ^ F64.unitShift : Nat) : Int) :=
    F64.units_sub_ofInt (by omega) (by omega) (by omega)
  unfold hostWeight
  rw [h1]
  unfold F64.add
  simp only []
  rw [h2]
  rfl

/-- The weight grows strictly when one of the three inputs grows and none
shrinks, all of them being of magnitude at most `2 ^ 40`. -/
theorem hostWeight_strict {a b : Inventory}
    (hca : (cpuCount a).natAbs ≤ 2 ^ 40) (hcb : (cpuCount b).natAbs ≤ 2 ^ 40)
    (hma : (memInGib a).natAbs ≤ 2 ^ 40) (hmb : (memInGib b).natAbs ≤ 2 ^ 40)
    (hda : (diskCapacityGiB a.Disks).natAbs ≤ 2 ^ 40)
    (hdb : (diskCapacityGiB b.Disks).natAbs ≤ 2 ^ 40)
    (hc : cpuCount a ≤ cpuCount b) (hm : memInGib a ≤ memInGib b)
    (hd : diskCapacityGiB a.Disks ≤ diskCapacityGiB b.Disks)
    (hlt : cpuCount a < cpuCount b ∨ memInGib a < memInGib b ∨
      diskCapacityGiB a.Disks < diskCapacityGiB b.Disks) :
    hostWeight a < hostWeight b := by
  rw [F64.lt_def, hostWeight_units a hca, hostWeight_units b hcb]
  have h16 : (16 : Int).natAbs ≤ 2 ^ 40 := by norm_num
  have h100 : (100 : Int).natAbs ≤ 2 ^ 40 := by norm_num
  -- the product terms
  have gM := F64.mul_sub_gap F64.tenth tenth_bounds.1 _ _ 16 hma hmb h16 hm
  have gD := F64.mul_sub_gap F64.fourThousandths fourThousandths_bounds.1 _ _ 100 hda hdb h100 hd
  have bMa := abs_lt_of_natAbs_lt (F64.mul_sub_bound F64.tenth tenth_bounds.1 _ 16 hma h16)
  have bMb := abs_lt_of_natAbs_lt (F64.mul_sub_bound F64.tenth tenth_bounds.1 _ 16 hmb h16)
  have bDa := abs_lt_of_natAbs_lt
    (F64.mul_sub_bound F64.fourThousandths fourThousandths_bounds.1 _ 100 hda h100)
  have bDb := abs_lt_of_natAbs_lt
    (F64.mul_sub_bound F64.fourThousandths fourThousandths_bounds.1 _ 100 hdb h100)
  have mM : (F64.mul F64.tenth (F64.sub (F64.ofInt (memInGib a)) (F64.ofInt 16))).units ≤
      (F64.mul F64.tenth (F64.sub (F64.ofInt (memInGib b)) (F64.ofInt 16))).units :=
    F64.mul_mono_right (by decide) (F64.sub_mono_left _ (F64.ofInt_mono hm))
  have mD : (F64.mul F64.fourThousandths
        (F64.sub (F64.ofInt (diskCapacityGiB a.Disks)) (F64.ofInt 100))).units ≤
      (F64.mul F64.fourThousandths
        (F64.sub (F64.ofInt (diskCapacityGiB b.Disks)) (F64.ofInt 100))).units :=
    F64.mul_mono_right (by decide) (F64.sub_mono_left _ (F64.ofInt_mono hd))
  have tM := tenth_bounds.2
  have tD := fourThousandths_bounds.2
  generalize (F64.mul F64.tenth (F64.sub (F64.ofInt (memInGib a)) (F64.ofInt 16))).units = Ma at *
  generalize (F64.mul F64.tenth (F64.sub (F64.ofInt (memInGib b)) (F64.ofInt 16))).units = Mb at *
  generalize (F64.mul F64.fourThousandths
    (F64.sub (F64.ofInt (diskCapacityGiB a.Disks)) (F64.ofInt 100))).units = Da at *
  generalize (F64.mul F64.fourThousandths
    (F64.sub (F64.ofInt (diskCapacityGiB b.Disks)) (F64.ofInt 100))).units = Db at *
  generalize F64.tenth.units = TM at *
  generalize F64.fourThousandths.units = TD at *
  generalize cpuCount a = ca at *
  generalize cpuCount b = cb at *
  generalize memInGib a = ma at *
  generalize memInGib b = mb at *
  generalize diskCapacityGiB a.Disks = da at *
  generalize diskCapacityGiB b.Disks = db at *
  -- every power of two in sight is a multiple of E = 2 ^ 1055
  have p1059 : (2 : Nat) ^ 1059 = 16 * 2 ^ 1055 := by
    have : (16 : Nat) = 2 ^ 4 := by norm_num
    rw [this, ← pow_add]
  have p1063 : (2 : Nat) ^ 1063 = 256 * 2 ^ 1055 := by
    have : (256 : Nat) = 2 ^ 8 := by norm_num
    rw [this, ← pow_add]
  have p1064 : (2 : Nat) ^ 1064 = 512 * 2 ^ 1055 := by
    have : (512 : Nat) = 2 ^ 9 := by norm_num
    rw [this, ← pow_add]
  have p1066 : (2 : Nat) ^ 1066 = 2048 * 2 ^ 1055 := by
    have : (2048 : Nat) = 2 ^ 11 := by norm_num
    rw [this, ← pow_add]
  have p1070 : (2 : Nat) ^ 1070 = 32768 * 2 ^ 1055 := by
    have : (32768 : Nat) = 2 ^ 15 := by norm_num
    rw [this, ← pow_add]
  have pS : (2 : Nat) ^ F64.unitShift = 524288 * 2 ^ 1055 := by
    have hu : F64.unitShift = 19 + 1055 := rfl
    have : (524288 : Nat) = 2 ^ 19 := by norm_num
    rw [this, hu, pow_add]
  have p1113 : (2 : Nat) ^ 1113 = 288230376151711744 * 2 ^ 1055 := by
    have : (288230376151711744 : Nat) = 2 ^ 58 := by norm_num
    rw [this, ← pow_add]
  have p1116 : (2 : Nat) ^ 1116 = 2305843009213693952 * 2 ^ 1055 := by
    have : (2305843009213693952 : Nat) = 2 ^ 61 := by norm_num
    rw [this, ← pow_add]
  have p1117 : (2 : Nat) ^ 1117 = 4611686018427387904 * 2 ^ 1055 := by
    have : (4611686018427387904 : Nat) = 2 ^ 62 := by norm_num
    rw [this, ← pow_add]
  have p40 : (2 : Nat) ^ 40 = 1099511627776 := by norm_num
  have hE : 0 < 2 ^ 1055 := Nat.two_pow_pos 1055
  have k1 : max 0 (1116 - 53) = 1063 := by decide
  have k2 : max 0 (1117 - 53) = 1064 := by decide
  have gap1 := fun x y hx hy => round53_gap 0 1116 x y hx hy
  have err1 := fun x hx => round53_err 0 1116 x hx
  have gap2 := fun x y hx hy => round53_gap 0 1117 x y hx hy
  rw [k1] at gap1 err1
  rw [k2] at gap2
  rw [p1059] at gM gD
  rw [p1113] at bMa bMb bDa bDb
  rw [p1070] at tM
  rw [p1066] at tD
  rw [p1063] at gap1 err1
  rw [p1064] at gap2
  rw [p1116] at gap1 err1
  rw [p1117] at gap2
  rw [pS]
  rw [p40] at hca hcb
  generalize 2 ^ 1055 = E at *
  have hE' : (0 : Int) < (E : Int) := Int.ofNat_pos.mpr hE
  push_cast at *
  -- the CPU terms
  have hCa1 : (ca - 4) * (524288 * (E : Int)) ≤ 1099511627780 * (524288 * (E : Int)) :=
    Int.mul_le_mul_of_nonneg_right (by omega) (by omega)
  have hCa2 : -1099511627780 * (524288 * (E : Int)) ≤ (ca - 4) * (524288 * (E : Int)) :=
    Int.mul_le_mul_of_nonneg_right (by omega) (by omega)
  have hCb1 : (cb - 4) * (524288 * (E : Int)) ≤ 1099511627780 * (524288 * (E : Int)) :=
    Int.mul_le_mul_of_nonneg_right (by omega) (by omega)
  have hCb2 : -1099511627780 * (524288 * (E : Int)) ≤ (cb - 4) * (524288 * (E : Int)) :=
    Int.mul_le_mul_of_nonneg_right (by omega) (by omega)
  have hCab : (ca - 4) * (524288 * (E : Int)) ≤ (cb - 4) * (524288 * (E : Int)) :=
    Int.mul_le_mul_of_nonneg_right (by omega) (by omega)
  have hCs : ca < cb →
      (ca - 4) * (524288 * (E : Int)) + 1 * (524288 * (E : Int)) ≤
        (cb - 4) * (524288 * (E : Int)) := by
    intro h
    rw [← add_mul]
    exact Int.mul_le_mul_of_nonneg_right (by omega) (by omega)
  have hTM : 0 ≤ TM := by omega
  have hTD : 0 ≤ TD := by omega
  have hPM : ma < mb → TM * 1 ≤ TM * (mb - ma) := fun h =>
    Int.mul_le_mul_of_nonneg_left (by omega) hTM
  have hPD : da < db → TD * 1 ≤ TD * (db - da) := fun h =>
    Int.mul_le_mul_of_nonneg_left (by omega) hTD
  generalize (ca - 4) * (524288 * (E : Int)) = Ca at *
  generalize (cb - 4) * (524288 * (E : Int)) = Cb at *
  generalize TM * (mb - ma) = PM at *
  generalize TD * (db - da) = PD at *
  have hxa : (Ca + Ma).natAbs < 2305843009213693952 * E := by omega
  have hxb : (Cb + Mb).natAbs < 2305843009213693952 * E := by omega
  have g1 := gap1 _ _ hxa hxb
  have e1a := err1 _ hxa
  have e1b := err1 _ hxb
  have m1 : round53 0 (Ca + Ma) ≤ round53 0 (Cb + Mb) := round53_mono 0 (by omega)
  generalize round53 0 (Ca + Ma) = Ra at *
  generalize round53 0 (Cb + Mb) = Rb at *
  have hya : (Ra + Da).natAbs < 4611686018427387904 * E := by omega
  have hyb : (Rb + Db).natAbs < 4611686018427387904 * E := by omega
  have g2 := gap2 _ _ hya hyb
  generalize round53 0 (Ra + Da) = Wa at *
  generalize round53 0 (Rb + Db) = Wb at *
  rcases hlt with h | h | h
  · have := hCs h
    omega
  · have := hPM h
    omega
  · have := hPD h
    omega

/-- C8, as stated, fails: two inventories that differ only in their CPU count,
`2 ^ 53 + 1` against `2 ^ 53`, have the same weight, and `SortHosts` leaves
the host with more cores before the other. -/
theorem hostWeight_not_strictly_increasing :
    weightOf manyCoresHost = weightOf oneCoreLessHost ∧
      SortHosts [manyCoresHost, oneCoreLessHost] = ([manyCoresHost, oneCoreLessHost], true) := by
  decide

/-- C8, amended: the weight is monotonically non-decreasing in each of its
three inputs, and strictly increasing while the values are of magnitude at
most `2 ^ 40`: of two inventories of which `b` has at least the CPU count, the
usable memory in GiB and the eligible disk capacity in GiB of `a`, `b` never
has the smaller weight and `SortHosts` leaves it after `a`; when one of the
three values is larger in `b` and all are within range, the weight of `b` is
strictly larger and `SortHosts` places `b` after `a` whatever the input
order. -/
theorem hostWeight_monotone (a b : Inventory) (ida idb : String) (sa sb : Option String)
    (hc : cpuCount a ≤ cpuCount b) (hm : memInGib a ≤ memInGib b)
    (hd : diskCapacityGiB a.Disks ≤ diskCapacityGiB b.Disks) :
    hostWeight a ≤ hostWeight b ∧
      SortHosts [⟨ida, sa, some a⟩, ⟨idb, sb, some b⟩] =
        ([⟨ida, sa, some a⟩, ⟨idb, sb, some b⟩], true) ∧
      (inWeightRange a → inWeightRange b →
        (cpuCount a < cpuCount b ∨ memInGib a < memInGib b ∨
          diskCapacityGiB a.Disks < diskCapacityGiB b.Disks) →
        hostWeight a < hostWeight b ∧
          SortHosts [⟨idb, sb, some b⟩, ⟨ida, sa, some a⟩] =
            ([⟨ida, sa, some a⟩, ⟨idb, sb, some b⟩], true)) := by
  have h := hostWeight_mono hc hm hd
  have hn : ¬ (hostWeight b < hostWeight a) := by
    rw [F64.lt_def, not_lt]; exact h
  refine ⟨h, ?_, ?_⟩
  · simp [SortHosts, SortHosts.insertionSort, SortHosts.sink, SortHosts.less, hn]
  · intro ra rb hlt
    have hs := hostWeight_strict ra.1 rb.1 ra.2.1 rb.2.1 ra.2.2 rb.2.2 hc hm hd hlt
    refine ⟨hs, ?_⟩
    simp [SortHosts, SortHosts.insertionSort, SortHosts.sink, SortHosts.less, hs]

/-- C8, amended, at the inventories of H2 and H1. -/
theorem hostWeight_monotone_witness :
    hostWeight ⟨some ⟨4⟩, some ⟨16 * GiB⟩, [⟨false, 500 * GiB⟩]⟩ ≤
        hostWeight ⟨some ⟨8⟩, some ⟨32 * GiB⟩, [⟨true, 200 * GiB⟩]⟩ ∧
      SortHosts [H2, H1] = ([H2, H1], true) ∧
      hostWeight ⟨some ⟨4⟩, some ⟨16 * GiB⟩, [⟨false, 500 * GiB⟩]⟩ <
        hostWeight ⟨some ⟨8⟩, some ⟨32 * GiB⟩, [⟨true, 200 * GiB⟩]⟩ ∧
      SortHosts [H1, H2] = ([H2, H1], true) :=
  have t := hostWeight_monotone ⟨some ⟨4⟩, some ⟨16 * GiB⟩, [⟨false, 500 * GiB⟩]⟩
    ⟨some ⟨8⟩, some ⟨32 * GiB⟩, [⟨true, 200 * GiB⟩]⟩ "H2" "H1" (some "known") (some "known")
    (by decide) (by decide) (by decide)
  ⟨t.1, t.2.1, (t.2.2 (by decide) (by decide) (by decide)).1,
    (t.2.2 (by decide) (by decide) (by decide)).2⟩

end host

/-! ## Leadership -/

namespace host

open models common

theorem guarded_append {s : Bool} {t u : List Event} (h1 : guarded s t = true)
    (h2 : ∀ s', guarded s' u = true) : guarded s (t ++ u) = true := by
  induction t generalizing s with
  | nil => exact h2 s
  | cons e rest ih =>
    simp only [List.cons_append, guarded, Bool.and_eq_true] at h1 ⊢
    exact ⟨h1.1, ih h1.2⟩

theorem guarded_of_append {s : Bool} {t1 t2 : List Event} (h : guarded s (t1 ++ t2) = true) :
    ∃ s', guarded s' t2 = true := by
  induction t1 generalizing s with
  | nil => exact ⟨s, h⟩
  | cons e rest ih =>
    simp only [List.cons_append, guarded, Bool.and_eq_true] at h
    exact ih h.2

theorem quiet_of_guarded_false {post : List Event} (h : guarded false post = true)
    (hpost : post.all (fun e => e != Event.isLeader true) = true) :
    post.all (fun e => !e.isMutating) = true := by
  induction post with
  | nil => rfl
  | cons e rest ih =>
    simp only [List.all_cons, Bool.and_eq_true, guarded] at h hpost ⊢
    have he : e.leaderAfter false = false := by
      cases e with
      | isLeader answer =>
        cases answer with
        | false => rfl
        | true => simp at hpost
      | _ => rfl
    rw [he] at h
    refine ⟨?_, ih h.2 hpost.2⟩
    simpa using h.1

theorem guarded_reset (a : Answers) (n : Calls) (s : Bool) :
    guarded s (resetRoleAssignmentIfNotAllRolesAreSet a n).1 = true := by
  unfold resetRoleAssignmentIfNotAllRolesAreSet
  split
  · split <;> split <;> rfl
  · rfl

theorem guarded_clusterHostLoop (a : Answers) (c : Cluster) (r : Bool) (hosts : List Host)
    (n : Calls) (s : Bool) : guarded s (clusterHostLoop a c r hosts n).1 = true := by
  induction hosts generalizing n s with
  | nil => rfl
  | cons h hs ih =>
    unfold clusterHostLoop
    split
    · simp only []
      refine guarded_append ?_ (fun s' => ih _ s')
      cases r <;> cases a.refreshStatusFails n.refreshStatus <;>
        cases a.refreshRoleFails n.refreshRole <;> rfl
    · rfl

theorem guarded_clusterLoop (a : Answers) (cs : List Cluster) (n : Calls) (s : Bool) :
    guarded s (clusterLoop a cs n).1 = true := by
  induction cs generalizing n s with
  | nil => rfl
  | cons c cs ih =>
    unfold clusterLoop
    simp only []
    split
    · exact guarded_append (guarded_clusterHostLoop _ _ _ _ _ _) (fun s' => ih _ s')
    · exact guarded_clusterHostLoop _ _ _ _ _ _

theorem guarded_clusterPageLoop (a : Answers) (pages : List (Except String (List Cluster)))
    (n : Calls) (s : Bool) : guarded s (clusterPageLoop a pages n).1 = true := by
  induction pages generalizing n s with
  | nil => rfl
  | cons p pages ih =>
    cases p with
    | error e => rfl
    | ok cs =>
      cases cs with
      | nil => rfl
      | cons c cs =>
        unfold clusterPageLoop
        simp only []
        split
        · simp only [List.append_assoc]
          refine guarded_append (t := [_, _]) rfl (fun s' => ?_)
          refine guarded_append (guarded_clusterLoop _ _ _ _) (fun s' => ?_)
          exact guarded_append (t := [_]) rfl (fun s' => ih _ s')
        · exact guarded_append (t := [_, _]) rfl (fun s' => guarded_clusterLoop _ _ _ _)

theorem guarded_clusterHostMonitoring (a : Answers) (n : Calls) (s : Bool) :
    guarded s (clusterHostMonitoring a n).1 = true := by
  unfold clusterHostMonitoring
  simp only [List.append_assoc]
  refine guarded_append (guarded_reset _ _ _) (fun s' => ?_)
  exact guarded_append (t := [_]) rfl (fun s' => guarded_clusterPageLoop _ _ _ _)

theorem guarded_infraEnvHostLoop (a : Answers) (i : InfraEnv) (hosts : List Host)
    (n : Calls) (s : Bool) : guarded s (infraEnvHostLoop a i hosts n).1 = true := by
  induction hosts generalizing n s with
  | nil => rfl
  | cons h hs ih =>
    unfold infraEnvHostLoop
    split
    · split
      · simp only []
        refine guarded_append ?_ (fun s' => ih _ s')
        cases a.refreshStatusFails n.refreshStatus <;> rfl
      · exact guarded_append (t := [_]) rfl (fun s' => ih _ s')
    · rfl

theorem guarded_infraEnvLoop (a : Answers) (is : List InfraEnv) (n : Calls) (s : Bool) :
    guarded s (infraEnvLoop a is n).1 = true := by
  induction is generalizing n s with
  | nil => rfl
  | cons i is ih =>
    unfold infraEnvLoop
    simp only []
    split
    · exact guarded_append (guarded_infraEnvHostLoop _ _ _ _ _) (fun s' => ih _ s')
    · exact guarded_infraEnvHostLoop _ _ _ _ _

theorem guarded_infraEnvPageLoop (a : Answers) (pages : List (Except String (List InfraEnv)))
    (n : Calls) (s : Bool) : guarded s (infraEnvPageLoop a pages n).1 = true := by
  induction pages generalizing n s with
  | nil => rfl
  | cons p pages ih =>
    cases p with
    | error e => rfl
    | ok is =>
      cases is with
      | nil => rfl
      | cons i is =>
        unfold infraEnvPageLoop
        simp only []
        split
        · refine guarded_append (t := [_]) rfl (fun s' => ?_)
          exact guarded_append (guarded_infraEnvLoop _ _ _ _) (fun s' => ih _ s')
        · exact guarded_append (t := [_]) rfl (fun s' => guarded_infraEnvLoop _ _ _ _)

theorem guarded_infraEnvHostMonitoring (a : Answers) (n : Calls) (s : Bool) :
    guarded s (infraEnvHostMonitoring a n).1 = true := by
  unfold infraEnvHostMonitoring
  exact guarded_append (t := [_]) rfl (fun s' => guarded_infraEnvPageLoop _ _ _ _)

theorem guarded_HostMonitoring (a : Answers) (s : Bool) : guarded s (HostMonitoring a) = true := by
  unfold HostMonitoring
  split
  · simp only [List.append_assoc]
    refine guarded_append (t := [_, _, _]) rfl (fun s' => ?_)
    refine guarded_append (guarded_clusterHostMonitoring _ _ _) (fun s' => ?_)
    exact guarded_append (guarded_infraEnvHostMonitoring _ _ _) (fun s' => rfl)
  · rfl

/-- C9: if `IsLeader()` answers `false` at the entry of `HostMonitoring`, the
whole invocation is a no-op: the trace holds the check and one debug line, and
so no reset, no cursor, no refresh and no duration report. -/
theorem HostMonitoring_not_leader (a : Answers) (h : a.isLeader 0 = false) :
    HostMonitoring a =
      [Event.isLeader false, Event.log .debug "Not a leader, exiting HostMonitoring"] := by
  unfold HostMonitoring
  simp [h]

/-- C9 at `notLeaderRun`, whose cluster and infra-env are left untouched. -/
theorem HostMonitoring_not_leader_witness :
    notLeaderRun.isLeader 0 = false ∧
      HostMonitoring notLeaderRun =
        [Event.isLeader false, Event.log .debug "Not a leader, exiting HostMonitoring"] :=
  ⟨rfl, HostMonitoring_not_leader notLeaderRun rfl⟩

/-- C10, as stated, fails: when `IsLeader()` answers `false` at the check
before the reset and `true` again afterwards, the status refresh and the role
refresh of the host H2 are still called in that invocation. -/
theorem HostMonitoring_mutation_after_loss :
    noMutationAfterLoss (HostMonitoring lossAtResetRun) = false ∧
      HostMonitoring lossAtResetRun =
        [Event.isLeader true, Event.measureOperation "HostMonitoring",
          Event.initMonitoringQueryGenerator, Event.isLeader false, Event.newClusterQuery,
          Event.clusterQueryNext, Event.log .debug "Started cluster host monitoring cycle",
          Event.isLeader true, Event.log .debug "Started refreshing host status",
          Event.refreshStatus H2 (some "c1") none, Event.monitoredHostsDurationMs,
          Event.log .debug "Finished refreshing host status", Event.log .debug "",
          Event.refreshRole H2 false,
          Event.log .debug "Finished cluster host monitoring cycle", Event.clusterQueryNext,
          Event.newInfraEnvQuery, Event.infraEnvQueryNext,
          Event.reportOperationDuration "HostMonitoring"] := by
  decide

/-- C10, amended: for every sequence of answers of `IsLeader()`, once
`IsLeader()` has answered `false` at a checkpoint, no mutating call (reset,
status refresh, role refresh) occurs in the remainder of the invocation for as
long as no later check answers `true`. -/
theorem HostMonitoring_no_mutation_while_not_leader (a : Answers) (pre post : List Event)
    (h : HostMonitoring a = pre ++ Event.isLeader false :: post)
    (hpost : post.all (fun e => e != Event.isLeader true) = true) :
    post.all (fun e => !e.isMutating) = true := by
  have hg := guarded_HostMonitoring a false
  rw [h] at hg
  obtain ⟨s', hs'⟩ := guarded_of_append hg
  exact quiet_of_guarded_false (by simpa [guarded, Event.isMutating, Event.leaderAfter] using hs') hpost

/-- C10, amended, at `lossAtSecondHostRun`: nothing is refreshed after the
check before the second host. -/
theorem HostMonitoring_no_mutation_while_not_leader_witness :
    HostMonitoring lossAtSecondHostRun =
        lossAtSecondHostBefore ++ Event.isLeader false :: lossAtSecondHostAfter ∧
      lossAtSecondHostAfter.all (fun e => e != Event.isLeader true) = true ∧
      lossAtSecondHostAfter.all (fun e => !e.isMutating) = true :=
  ⟨by decide, by decide,
    HostMonitoring_no_mutation_while_not_leader lossAtSecondHostRun lossAtSecondHostBefore
      lossAtSecondHostAfter (by decide) (by decide)⟩

end host

/-! ## The calls of one cycle -/

namespace host

open models common

theorem checkedOrAfterStatus_append {s : CheckState} {t u : List Event}
    (h1 : checkedOrAfterStatus s t = true) (h2 : ∀ s', checkedOrAfterStatus s' u = true) :
    checkedOrAfterStatus s (t ++ u) = true := by
  induction t generalizing s with
  | nil => exact h2 s
  | cons e rest ih =>
    simp only [List.cons_append, checkedOrAfterStatus] at h1 ⊢
    cases hstep : checkedOrAfterStatusStep s e with
    | none => rw [hstep] at h1; exact absurd h1 (by simp)
    | some s' => rw [hstep] at h1; exact ih h1

theorem checked_reset (a : Answers) (n : Calls) (s : CheckState) :
    checkedOrAfterStatus s (resetRoleAssignmentIfNotAllRolesAreSet a n).1 = true := by
  unfold resetRoleAssignmentIfNotAllRolesAreSet
  split
  · split <;> split <;> rfl
  · rfl

theorem checked_clusterHostLoop (a : Answers) (c : Cluster) (r : Bool) (hosts : List Host)
    (n : Calls) (s : CheckState) :
    checkedOrAfterStatus s (clusterHostLoop a c r hosts n).1 = true := by
  induction hosts generalizing n s with
  | nil => rfl
  | cons h hs ih =>
    unfold clusterHostLoop
    split
    · simp only []
      refine checkedOrAfterStatus_append ?_ (fun s' => ih _ s')
      cases r <;> cases a.refreshStatusFails n.refreshStatus <;>
        cases a.refreshRoleFails n.refreshRole <;>
        simp [checkedOrAfterStatus, checkedOrAfterStatusStep]
    · rfl

theorem checked_clusterLoop (a : Answers) (cs : List Cluster) (n : Calls) (s : CheckState) :
    checkedOrAfterStatus s (clusterLoop a cs n).1 = true := by
  induction cs generalizing n s with
  | nil => rfl
  | cons c cs ih =>
    unfold clusterLoop
    simp only []
    split
    · exact checkedOrAfterStatus_append (checked_clusterHostLoop _ _ _ _ _ _) (fun s' => ih _ s')
    · exact checked_clusterHostLoop _ _ _ _ _ _

theorem checked_clusterPageLoop (a : Answers) (pages : List (Except String (List Cluster)))
    (n : Calls) (s : CheckState) :
    checkedOrAfterStatus s (clusterPageLoop a pages n).1 = true := by
  induction pages generalizing n s with
  | nil => rfl
  | cons p pages ih =>
    cases p with
    | error e => rfl
    | ok cs =>
      cases cs with
      | nil => rfl
      | cons c cs =>
        unfold clusterPageLoop
        simp only []
        split
        · simp only [List.append_assoc]
          refine checkedOrAfterStatus_append (t := [_, _]) rfl (fun s' => ?_)
          refine checkedOrAfterStatus_append (checked_clusterLoop _ _ _ _) (fun s' => ?_)
          exact checkedOrAfterStatus_append (t := [_]) rfl (fun s' => ih _ s')
        · exact checkedOrAfterStatus_append (t := [_, _]) rfl
            (fun s' => checked_clusterLoop _ _ _ _)

theorem checked_clusterHostMonitoring (a : Answers) (n : Calls) (s : CheckState) :
    checkedOrAfterStatus s (clusterHostMonitoring a n).1 = true := by
  unfold clusterHostMonitoring
  simp only [List.append_assoc]
  refine checkedOrAfterStatus_append (checked_reset _ _ _) (fun s' => ?_)
  exact checkedOrAfterStatus_append (t := [_]) rfl (fun s' => checked_clusterPageLoop _ _ _ _)

theorem checked_infraEnvHostLoop (a : Answers) (i : InfraEnv) (hosts : List Host)
    (n : Calls) (s : CheckState) :
    checkedOrAfterStatus s (infraEnvHostLoop a i hosts n).1 = true := by
  induction hosts generalizing n s with
  | nil => rfl
  | cons h hs ih =>
    unfold infraEnvHostLoop
    split
    · split
      · simp only []
        refine checkedOrAfterStatus_append ?_ (fun s' => ih _ s')
        cases a.refreshStatusFails n.refreshStatus <;> rfl
      · exact checkedOrAfterStatus_append (t := [_]) rfl (fun s' => ih _ s')
    · rfl

theorem checked_infraEnvLoop (a : Answers) (is : List InfraEnv) (n : Calls) (s : CheckState) :
    checkedOrAfterStatus s (infraEnvLoop a is n).1 = true := by
  induction is generalizing n s with
  | nil => rfl
  | cons i is ih =>
    unfold infraEnvLoop
    simp only []
    split
    · exact checkedOrAfterStatus_append (checked_infraEnvHostLoop _ _ _ _ _) (fun s' => ih _ s')
    · exact checked_infraEnvHostLoop _ _ _ _ _

theorem checked_infraEnvPageLoop (a : Answers) (pages : List (Except String (List InfraEnv)))
    (n : Calls) (s : CheckState) :
    checkedOrAfterStatus s (infraEnvPageLoop a pages n).1 = true := by
  induction pages generalizing n s with
  | nil => rfl
  | cons p pages ih =>
    cases p with
    | error e => rfl
    | ok is =>
      cases is with
      | nil => rfl
      | cons i is =>
        unfold infraEnvPageLoop
        simp only []
        split
        · refine checkedOrAfterStatus_append (t := [_]) rfl (fun s' => ?_)
          exact checkedOrAfterStatus_append (checked_infraEnvLoop _ _ _ _) (fun s' => ih _ s')
        · exact checkedOrAfterStatus_append (t := [_]) rfl
            (fun s' => checked_infraEnvLoop _ _ _ _)

theorem checked_infraEnvHostMonitoring (a : Answers) (n : Calls) (s : CheckState) :
    checkedOrAfterStatus s (infraEnvHostMonitoring a n).1 = true := by
  unfold infraEnvHostMonitoring
  exact checkedOrAfterStatus_append (t := [_]) rfl (fun s' => checked_infraEnvPageLoop _ _ _ _)

/-- C11, as stated, fails: in the run `leaderRun` the role refresh of H2 is
called after the status refresh of H2 with no `IsLeader()` check in between. -/
theorem HostMonitoring_role_refresh_not_rechecked :
    directlyChecked false (HostMonitoring leaderRun) = false ∧
      HostMonitoring leaderRun =
        [Event.isLeader true, Event.measureOperation "HostMonitoring",
          Event.initMonitoringQueryGenerator, Event.isLeader true, Event.resetAutoAssignRoles,
          Event.newClusterQuery, Event.clusterQueryNext,
          Event.log .debug "Started cluster host monitoring cycle",
          Event.isLeader true, Event.log .debug "Started refreshing host status",
          Event.refreshStatus H2 (some "c1") none, Event.monitoredHostsDurationMs,
          Event.log .debug "Finished refreshing host status", Event.log .debug "",
          Event.refreshRole H2 false,
          Event.log .debug "Finished cluster host monitoring cycle", Event.clusterQueryNext,
          Event.newInfraEnvQuery, Event.infraEnvQueryNext, Event.isLeader true,
          Event.infraEnvQueryNext, Event.reportOperationDuration "HostMonitoring"] := by
  decide

/-- C11, amended: in the trace of one invocation, each auto-assign reset and
each status-refresh call is directly preceded by an `IsLeader()` check that
answered `true`, with no other mutating call between the check and the call;
each role-refresh call directly follows the status refresh of the same host,
with no check and no other mutating call in between. -/
theorem HostMonitoring_checked_before_mutation (a : Answers) :
    checkedOrAfterStatus CheckState.closed (HostMonitoring a) = true := by
  unfold HostMonitoring
  split
  · simp only [List.append_assoc]
    refine checkedOrAfterStatus_append (t := [_, _, _]) rfl (fun s' => ?_)
    refine checkedOrAfterStatus_append (checked_clusterHostMonitoring _ _ _) (fun s' => ?_)
    exact checkedOrAfterStatus_append (checked_infraEnvHostMonitoring _ _ _) (fun s' => rfl)
  · rfl

theorem clusterStatusRefreshes_append (t u : List Event) :
    clusterStatusRefreshes (t ++ u) = clusterStatusRefreshes t ++ clusterStatusRefreshes u := by
  unfold clusterStatusRefreshes
  exact List.filterMap_append _ _ _

theorem clusterHostLoop_leader (a : Answers) (hl : ∀ n, a.isLeader n = true) (c : Cluster)
    (r : Bool) (hosts : List Host) (n : Calls) :
    (clusterHostLoop a c r hosts n).2.2 = true ∧
      clusterStatusRefreshes (clusterHostLoop a c r hosts n).1 =
        hosts.map (fun h => (h, c.ID)) := by
  induction hosts generalizing n with
  | nil => exact ⟨rfl, rfl⟩
  | cons h hs ih =>
    unfold clusterHostLoop
    rw [if_pos (hl _)]
    simp only []
    refine ⟨(ih _).1, ?_⟩
    rw [clusterStatusRefreshes_append, (ih _).2]
    cases r <;> cases a.refreshStatusFails n.refreshStatus <;>
      cases a.refreshRoleFails n.refreshRole <;> rfl

theorem clusterLoop_leader (a : Answers) (hl : ∀ n, a.isLeader n = true) (cs : List Cluster)
    (n : Calls) :
    (clusterLoop a cs n).2.2 = true ∧
      clusterStatusRefreshes (clusterLoop a cs n).1 =
        cs.flatMap (fun c => (SortHosts c.Hosts).1.map (fun h => (h, c.ID))) := by
  induction cs generalizing n with
  | nil => exact ⟨rfl, rfl⟩
  | cons c cs ih =>
    unfold clusterLoop
    simp only []
    rw [if_pos (clusterHostLoop_leader a hl c _ _ n).1]
    refine ⟨(ih _).1, ?_⟩
    rw [clusterStatusRefreshes_append, (ih _).2, (clusterHostLoop_leader a hl c _ _ n).2,
      List.flatMap_cons]

theorem clusterPageLoop_leader (a : Answers) (hl : ∀ n, a.isLeader n = true)
    (pages : List (List Cluster)) (rest : List (Except String (List Cluster)))
    (hne : ∀ batch ∈ pages, batch ≠ []) (n : Calls) :
    clusterStatusRefreshes
        (clusterPageLoop a (pages.map Except.ok ++ Except.ok [] :: rest) n).1 =
      sortedHostsOfPages pages := by
  induction pages generalizing n with
  | nil => rfl
  | cons batch pages ih =>
    cases batch with
    | nil => exact absurd rfl (hne [] (List.mem_cons_self _ _))
    | cons c cs =>
      simp only [List.map_cons, List.cons_append]
      unfold clusterPageLoop
      simp only []
      rw [if_pos (clusterLoop_leader a hl (c :: cs) n).1]
      simp only [clusterStatusRefreshes_append]
      rw [(clusterLoop_leader a hl (c :: cs) n).2,
        ih (fun b hb => hne b (List.mem_cons_of_mem _ hb))]
      simp [sortedHostsOfPages, clusterStatusRefreshes]

theorem clusterStatusRefreshes_reset (a : Answers) (n : Calls) :
    clusterStatusRefreshes (resetRoleAssignmentIfNotAllRolesAreSet a n).1 = [] := by
  unfold resetRoleAssignmentIfNotAllRolesAreSet
  split
  · split <;> split <;> rfl
  · rfl

theorem clusterStatusRefreshes_infraEnvHostLoop (a : Answers) (i : InfraEnv) (hosts : List Host)
    (n : Calls) : clusterStatusRefreshes (infraEnvHostLoop a i hosts n).1 = [] := by
  induction hosts generalizing n with
  | nil => rfl
  | cons h hs ih =>
    unfold infraEnvHostLoop
    split
    · split
      · simp only []
        rw [clusterStatusRefreshes_append, ih]
        cases a.refreshStatusFails n.refreshStatus <;> rfl
      · simp only []
        rw [← List.singleton_append, clusterStatusRefreshes_append, ih]
        rfl
    · rfl

theorem clusterStatusRefreshes_infraEnvLoop (a : Answers) (is : List InfraEnv) (n : Calls) :
    clusterStatusRefreshes (infraEnvLoop a is n).1 = [] := by
  induction is generalizing n with
  | nil => rfl
  | cons i is ih =>
    unfold infraEnvLoop
    simp only []
    split
    · rw [clusterStatusRefreshes_append, ih, clusterStatusRefreshes_infraEnvHostLoop]
      rfl
    · exact clusterStatusRefreshes_infraEnvHostLoop _ _ _ _

theorem clusterStatusRefreshes_infraEnvPageLoop (a : Answers)
    (pages : List (Except String (List InfraEnv))) (n : Calls) :
    clusterStatusRefreshes (infraEnvPageLoop a pages n).1 = [] := by
  induction pages generalizing n with
  | nil => rfl
  | cons p pages ih =>
    cases p with
    | error e => rfl
    | ok is =>
      cases is with
      | nil => rfl
      | cons i is =>
        unfold infraEnvPageLoop
        simp only []
        split
        · rw [← List.singleton_append, clusterStatusRefreshes_append,
            clusterStatusRefreshes_append, ih, clusterStatusRefreshes_infraEnvLoop]
          rfl
        · rw [← List.singleton_append, clusterStatusRefreshes_append,
            clusterStatusRefreshes_infraEnvLoop]
          rfl

theorem clusterStatusRefreshes_infraEnvHostMonitoring (a : Answers) (n : Calls) :
    clusterStatusRefreshes (infraEnvHostMonitoring a n).1 = [] := by
  unfold infraEnvHostMonitoring
  simp only []
  rw [← List.singleton_append, clusterStatusRefreshes_append,
    clusterStatusRefreshes_infraEnvPageLoop]
  rfl

/-- C12: per-host refresh errors never abort the batch: if `IsLeader()` stays
`true` and the cluster cursor yields the non-empty batches `pages` followed by
an empty batch, then the status refresh is invoked exactly once for every host
of every cluster of every batch, in the order `SortHosts` gives for that
cluster, whatever errors the status and the role refreshers return. -/
theorem HostMonitoring_refreshes_every_cluster_host (a : Answers) (pages : List (List Cluster))
    (rest : List (Except String (List Cluster))) (hl : ∀ n, a.isLeader n = true)
    (hp : a.clusterPages = pages.map Except.ok ++ Except.ok [] :: rest)
    (hne : ∀ batch ∈ pages, batch ≠ []) :
    clusterStatusRefreshes (HostMonitoring a) = sortedHostsOfPages pages := by
  unfold HostMonitoring
  rw [if_pos (hl 0)]
  simp only [clusterHostMonitoring, clusterStatusRefreshes_append]
  rw [hp, clusterPageLoop_leader a hl pages rest hne, clusterStatusRefreshes_reset,
    clusterStatusRefreshes_infraEnvHostMonitoring]
  simp [clusterStatusRefreshes]

/-- C12 at `failingRefreshRun`, where every refresh fails: all five hosts of
the three clusters are refreshed, each cluster's hosts in sorted order. -/
theorem HostMonitoring_refreshes_every_cluster_host_witness :
    clusterStatusRefreshes (HostMonitoring failingRefreshRun) =
      [(H2, "c1"), (H1, "c1"), (H3, "c2"), (H1, "c3"), (H3, "c3")] :=
  (HostMonitoring_refreshes_every_cluster_host failingRefreshRun
    [[{ ID := "c1", Hosts := [H1, H2] }, { ID := "c2", Hosts := [H3] }],
      [{ ID := "c3", Hosts := [H1, H3] }]] [] (fun _ => rfl) rfl (by decide)).trans (by decide)

theorem all_inInfraEnvPhase_hostLoop (a : Answers) (i : InfraEnv) (hosts : List Host)
    (n : Calls) : (infraEnvHostLoop a i hosts n).1.all Event.inInfraEnvPhase = true := by
  induction hosts generalizing n with
  | nil => rfl
  | cons h hs ih =>
    unfold infraEnvHostLoop
    split
    · split
      · simp only [List.all_append, ih, Bool.and_true]
        cases a.refreshStatusFails n.refreshStatus <;> rfl
      · simp only [List.all_cons, ih, Bool.and_true]
        rfl
    · rfl

theorem all_inInfraEnvPhase_loop (a : Answers) (is : List InfraEnv) (n : Calls) :
    (infraEnvLoop a is n).1.all Event.inInfraEnvPhase = true := by
  induction is generalizing n with
  | nil => rfl
  | cons i is ih =>
    unfold infraEnvLoop
    simp only []
    split
    · simp only [List.all_append, ih, all_inInfraEnvPhase_hostLoop, Bool.and_true]
    · exact all_inInfraEnvPhase_hostLoop _ _ _ _

theorem all_inInfraEnvPhase_pageLoop (a : Answers)
    (pages : List (Except String (List InfraEnv))) (n : Calls) :
    (infraEnvPageLoop a pages n).1.all Event.inInfraEnvPhase = true := by
  induction pages generalizing n with
  | nil => rfl
  | cons p pages ih =>
    cases p with
    | error e => rfl
    | ok is =>
      cases is with
      | nil => rfl
      | cons i is =>
        unfold infraEnvPageLoop
        simp only []
        split
        · simp only [List.all_cons, List.all_append, ih, all_inInfraEnvPhase_loop,
            Bool.and_true]
          rfl
        · simp only [List.all_cons, all_inInfraEnvPhase_loop, Bool.and_true]
          rfl

theorem all_inInfraEnvPhase (a : Answers) (n : Calls) :
    (infraEnvHostMonitoring a n).1.all Event.inInfraEnvPhase = true := by
  unfold infraEnvHostMonitoring
  simp only [List.all_cons, all_inInfraEnvPhase_pageLoop, Bool.and_true]
  rfl

theorem all_inClusterPhase_reset (a : Answers) (n : Calls) :
    (resetRoleAssignmentIfNotAllRolesAreSet a n).1.all Event.inClusterPhase = true := by
  unfold resetRoleAssignmentIfNotAllRolesAreSet
  split
  · split <;> split <;> rfl
  · rfl

theorem all_inClusterPhase_hostLoop (a : Answers) (c : Cluster) (r : Bool) (hosts : List Host)
    (n : Calls) : (clusterHostLoop a c r hosts n).1.all Event.inClusterPhase = true := by
  induction hosts generalizing n with
  | nil => rfl
  | cons h hs ih =>
    unfold clusterHostLoop
    split
    · simp only [List.all_append, ih, Bool.and_true]
      cases r <;> cases a.refreshStatusFails n.refreshStatus <;>
        cases a.refreshRoleFails n.refreshRole <;> rfl
    · rfl

theorem all_inClusterPhase_loop (a : Answers) (cs : List Cluster) (n : Calls) :
    (clusterLoop a cs n).1.all Event.inClusterPhase = true := by
  induction cs generalizing n with
  | nil => rfl
  | cons c cs ih =>
    unfold clusterLoop
    simp only []
    split
    · simp only [List.all_append, ih, all_inClusterPhase_hostLoop, Bool.and_true]
    · exact all_inClusterPhase_hostLoop _ _ _ _ _

theorem all_inClusterPhase_pageLoop (a : Answers)
    (pages : List (Except String (List Cluster))) (n : Calls) :
    (clusterPageLoop a pages n).1.all Event.inClusterPhase = true := by
  induction pages generalizing n with
  | nil => rfl
  | cons p pages ih =>
    cases p with
    | error e => rfl
    | ok cs =>
      cases cs with
      | nil => rfl
      | cons c cs =>
        unfold clusterPageLoop
        simp only []
        split
        · simp only [List.all_cons, List.all_append, ih, all_inClusterPhase_loop,
            Bool.and_true]
          rfl
        · simp only [List.all_cons, List.all_append, all_inClusterPhase_loop, Bool.and_true]
          rfl

theorem all_inClusterPhase (a : Answers) (n : Calls) :
    (clusterHostMonitoring a n).1.all Event.inClusterPhase = true := by
  unfold clusterHostMonitoring
  simp only [List.all_append, all_inClusterPhase_reset, all_inClusterPhase_pageLoop,
    Bool.and_true, Bool.true_and]
  rfl

theorem filter_eq_nil_of_all {p q : Event → Bool} {t : List Event} (h : t.all p = true)
    (hpq : ∀ e, p e = true → q e = false) : t.filter q = [] := by
  rw [List.filter_eq_nil_iff]
  intro e he
  rw [List.all_eq_true] at h
  simp [hpq e (h e he)]

theorem not_isClusterRefresh_of_inInfraEnvPhase (e : Event)
    (h : e.inInfraEnvPhase = true) : e.isClusterRefresh = false := by
  cases e with
  | refreshStatus host c i =>
    cases c with
    | none => rfl
    | some c => cases i <;> simp [Event.inInfraEnvPhase] at h
  | refreshRole host force => simp [Event.inInfraEnvPhase] at h
  | _ => rfl

theorem clusterHostLoop_calls (a : Answers) (c : Cluster) (r : Bool) (hosts : List Host)
    (n : Calls) :
    ∃ visited, visited <+: hosts ∧
      (clusterHostLoop a c r hosts n).1.filter Event.isClusterRefresh =
        visited.flatMap (fun h => Event.refreshStatus h (some c.ID) none ::
          (if r then [Event.refreshRole h false] else [])) := by
  induction hosts generalizing n with
  | nil => exact ⟨[], List.prefix_refl _, rfl⟩
  | cons h hs ih =>
    unfold clusterHostLoop
    split
    · obtain ⟨v, hv, he⟩ := ih
        { isLeader := n.isLeader + 1, refreshStatus := n.refreshStatus + 1,
          refreshRole := if r then n.refreshRole + 1 else n.refreshRole }
      refine ⟨h :: v, (List.prefix_cons_inj h).mpr hv, ?_⟩
      simp only [List.filter_append, he, List.flatMap_cons]
      cases r <;> cases a.refreshStatusFails n.refreshStatus <;>
        cases a.refreshRoleFails n.refreshRole <;> rfl
    · exact ⟨[], List.nil_prefix, rfl⟩

theorem clusterLoop_calls (a : Answers) (cs : List Cluster) (n : Calls) :
    ∃ visited : List (Cluster × List Host),
      (∀ p ∈ visited, p.2 <+: (SortHosts p.1.Hosts).1 ∧ p.1 ∈ cs) ∧
      (clusterLoop a cs n).1.filter Event.isClusterRefresh =
        visited.flatMap (fun p => p.2.flatMap (hostRefreshCalls p.1)) := by
  induction cs generalizing n with
  | nil => exact ⟨[], by simp, rfl⟩
  | cons c cs ih =>
    unfold clusterLoop
    simp only []
    obtain ⟨v, hv, he⟩ := clusterHostLoop_calls a c (SortHosts c.Hosts).2 (SortHosts c.Hosts).1 n
    split
    · obtain ⟨vs, hvs, hes⟩ := ih (clusterHostLoop a c (SortHosts c.Hosts).2
        (SortHosts c.Hosts).1 n).2.1
      refine ⟨(c, v) :: vs, ?_, ?_⟩
      · intro p hp
        rcases List.mem_cons.mp hp with rfl | hp
        · exact ⟨hv, List.mem_cons_self _ _⟩
        · exact ⟨(hvs p hp).1, List.mem_cons_of_mem _ (hvs p hp).2⟩
      · rw [List.filter_append, he, hes, List.flatMap_cons]
        rfl
    · refine ⟨[(c, v)], ?_, ?_⟩
      · intro p hp
        rw [List.mem_singleton] at hp
        subst hp
        exact ⟨hv, List.mem_cons_self _ _⟩
      · rw [he]
        simp only [List.flatMap_cons, List.flatMap_nil, List.append_nil]
        rfl

theorem clusterPageLoop_calls (a : Answers) (pages : List (Except String (List Cluster)))
    (n : Calls) :
    ∃ visited : List (Cluster × List Host),
      (∀ p ∈ visited, p.2 <+: (SortHosts p.1.Hosts).1 ∧
        ∃ batch, Except.ok batch ∈ pages ∧ p.1 ∈ batch) ∧
      (clusterPageLoop a pages n).1.filter Event.isClusterRefresh =
        visited.flatMap (fun p => p.2.flatMap (hostRefreshCalls p.1)) := by
  induction pages generalizing n with
  | nil => exact ⟨[], by simp, rfl⟩
  | cons pg pages ih =>
    cases pg with
    | error e => exact ⟨[], by simp, rfl⟩
    | ok cs =>
      cases cs with
      | nil => exact ⟨[], by simp, rfl⟩
      | cons c cs =>
        unfold clusterPageLoop
        simp only []
        obtain ⟨v, hv, he⟩ := clusterLoop_calls a (c :: cs) n
        split
        · obtain ⟨vs, hvs, hes⟩ := ih (clusterLoop a (c :: cs) n).2.1
          refine ⟨v ++ vs, ?_, ?_⟩
          · intro p hp
            rcases List.mem_append.mp hp with hp | hp
            · exact ⟨(hv p hp).1, c :: cs, List.mem_cons_self _ _, (hv p hp).2⟩
            · obtain ⟨h1, b, hb, hpb⟩ := hvs p hp
              exact ⟨h1, b, List.mem_cons_of_mem _ hb, hpb⟩
          · simp only [List.filter_append, he, hes, List.flatMap_append]
            simp [Event.isClusterRefresh]
        · refine ⟨v, ?_, ?_⟩
          · intro p hp
            exact ⟨(hv p hp).1, c :: cs, List.mem_cons_self _ _, (hv p hp).2⟩
          · simp only [List.filter_append, he]
            simp [Event.isClusterRefresh]

/-- C13: the role refresh is invoked for a host exactly when the host is
processed in the cluster phase and `SortHosts` returned `allHaveInventory =
true` for the hosts of its cluster; it is then invoked once, right after the
status refresh of that host, whether or not that refresh failed, with
`force = false`.  The status refreshes of the cluster phase and the role
refreshes of an invocation are the `hostRefreshCalls` of the hosts visited,
a leading part of the sorted hosts of clusters of the batches; in
`mixedInventoryRun` the hosts of the cluster c1 get their role refresh, the
first one after a failed status refresh, and the hosts of c2, one of which has
no inventory, and the host of the infra-env get none. -/
theorem HostMonitoring_role_refresh_calls :
    (∀ a : Answers, ∃ visited : List (Cluster × List Host),
      (∀ p ∈ visited, p.2 <+: (SortHosts p.1.Hosts).1 ∧
        ∃ batch, Except.ok batch ∈ a.clusterPages ∧ p.1 ∈ batch) ∧
      (HostMonitoring a).filter Event.isClusterRefresh =
        visited.flatMap (fun p => p.2.flatMap (hostRefreshCalls p.1))) ∧
      (HostMonitoring mixedInventoryRun).filter Event.isMutating =
        [Event.resetAutoAssignRoles,
          Event.refreshStatus H2 (some "c1") none, Event.refreshRole H2 false,
          Event.refreshStatus H1 (some "c1") none, Event.refreshRole H1 false,
          Event.refreshStatus H1 (some "c2") none, Event.refreshStatus H3 (some "c2") none,
          Event.refreshStatus unboundHost none (some "i1")] := by
  refine ⟨fun a => ?_, by decide⟩
  unfold HostMonitoring
  split
  · obtain ⟨v, hv, he⟩ := clusterPageLoop_calls a a.clusterPages
      (resetRoleAssignmentIfNotAllRolesAreSet a
        { isLeader := 1, refreshStatus := 0, refreshRole := 0 }).2
    refine ⟨v, hv, ?_⟩
    have h1 : (infraEnvHostMonitoring a (clusterHostMonitoring a
        { isLeader := 1, refreshStatus := 0, refreshRole := 0 }).2).1.filter
        Event.isClusterRefresh = [] :=
      filter_eq_nil_of_all (all_inInfraEnvPhase _ _) not_isClusterRefresh_of_inInfraEnvPhase
    have h2 : (resetRoleAssignmentIfNotAllRolesAreSet a
        { isLeader := 1, refreshStatus := 0, refreshRole := 0 }).1.filter
        Event.isClusterRefresh = [] := by
      unfold resetRoleAssignmentIfNotAllRolesAreSet
      split
      · split <;> split <;> rfl
      · rfl
    simp only [List.filter_append, h1]
    simp only [clusterHostMonitoring, List.filter_append, h2, he]
    simp [Event.isClusterRefresh]
  · exact ⟨[], by simp, rfl⟩

theorem append_cons_unique {g : Event} {A B A' B' : List Event} (hA : g ∉ A) (hB : g ∉ B)
    (h : A ++ g :: B = A' ++ g :: B') : A = A' ∧ B = B' := by
  induction A generalizing A' with
  | nil =>
    cases A' with
    | nil => simpa using h
    | cons x A'' =>
      simp only [List.nil_append, List.cons_append, List.cons.injEq] at h
      obtain ⟨rfl, h2⟩ := h
      exact absurd (h2 ▸ List.mem_append_right _ (List.mem_cons_self _ _)) hB
  | cons x A2 ih =>
    cases A' with
    | nil =>
      simp only [List.nil_append, List.cons_append, List.cons.injEq] at h
      exact absurd (h.1 ▸ List.mem_cons_self _ _) hA
    | cons x' A'' =>
      simp only [List.cons_append, List.cons.injEq] at h
      obtain ⟨rfl, h2⟩ := h
      obtain ⟨e1, e2⟩ := ih (fun hm => hA (List.mem_cons_of_mem _ hm)) h2
      exact ⟨by rw [e1], e2⟩

theorem noFetchErrorLog_reset (a : Answers) (n : Calls) :
    (resetRoleAssignmentIfNotAllRolesAreSet a n).1.all (fun e => !e.isFetchErrorLog) = true := by
  unfold resetRoleAssignmentIfNotAllRolesAreSet
  split
  · split <;> split <;> simp [Event.isFetchErrorLog, clusterFetchErrorLog, infraEnvFetchErrorLog]
  · simp [Event.isFetchErrorLog, clusterFetchErrorLog, infraEnvFetchErrorLog]

theorem noFetchErrorLog_clusterHostLoop (a : Answers) (c : Cluster) (r : Bool)
    (hosts : List Host) (n : Calls) :
    (clusterHostLoop a c r hosts n).1.all (fun e => !e.isFetchErrorLog) = true := by
  induction hosts generalizing n with
  | nil => rfl
  | cons h hs ih =>
    unfold clusterHostLoop
    split
    · simp only [List.all_append, ih, Bool.and_true]
      cases r <;> cases a.refreshStatusFails n.refreshStatus <;>
        cases a.refreshRoleFails n.refreshRole <;>
        simp [Event.isFetchErrorLog, clusterFetchErrorLog, infraEnvFetchErrorLog]
    · simp [Event.isFetchErrorLog, clusterFetchErrorLog, infraEnvFetchErrorLog]

theorem noFetchErrorLog_clusterLoop (a : Answers) (cs : List Cluster) (n : Calls) :
    (clusterLoop a cs n).1.all (fun e => !e.isFetchErrorLog) = true := by
  induction cs generalizing n with
  | nil => rfl
  | cons c cs ih =>
    unfold clusterLoop
    simp only []
    split
    · simp only [List.all_append, ih, noFetchErrorLog_clusterHostLoop, Bool.and_true]
    · exact noFetchErrorLog_clusterHostLoop _ _ _ _ _

theorem noFetchErrorLog_infraEnvHostLoop (a : Answers) (i : InfraEnv) (hosts : List Host)
    (n : Calls) :
    (infraEnvHostLoop a i hosts n).1.all (fun e => !e.isFetchErrorLog) = true := by
  induction hosts generalizing n with
  | nil => rfl
  | cons h hs ih =>
    unfold infraEnvHostLoop
    split
    · split
      · simp only [List.all_append, ih, Bool.and_true]
        cases a.refreshStatusFails n.refreshStatus <;>
          simp [Event.isFetchErrorLog, clusterFetchErrorLog, infraEnvFetchErrorLog]
      · simp only [List.all_cons, ih, Bool.and_true]
        simp [Event.isFetchErrorLog, clusterFetchErrorLog, infraEnvFetchErrorLog]
    · simp [Event.isFetchErrorLog, clusterFetchErrorLog, infraEnvFetchErrorLog]

theorem noFetchErrorLog_infraEnvLoop (a : Answers) (is : List InfraEnv) (n : Calls) :
    (infraEnvLoop a is n).1.all (fun e => !e.isFetchErrorLog) = true := by
  induction is generalizing n with
  | nil => rfl
  | cons i is ih =>
    unfold infraEnvLoop
    simp only []
    split
    · simp only [List.all_append, ih, noFetchErrorLog_infraEnvHostLoop, Bool.and_true]
    · exact noFetchErrorLog_infraEnvHostLoop _ _ _ _

theorem not_mem_of_all_noFetchErrorLog {t : List Event} {g : Event}
    (h : t.all (fun e => !e.isFetchErrorLog) = true) (hg : g.isFetchErrorLog = true) : g ∉ t := by
  intro hm
  have := List.all_eq_true.mp h g hm
  simp [hg] at this

theorem clusterFetchErrorLog_not_mem_clusterLoop (a : Answers) (cs : List Cluster) (n : Calls) :
    clusterFetchErrorLog ∉ (clusterLoop a cs n).1 :=
  not_mem_of_all_noFetchErrorLog (noFetchErrorLog_clusterLoop a cs n) (by decide)

theorem infraEnvFetchErrorLog_not_mem_clusterLoop (a : Answers) (cs : List Cluster)
    (n : Calls) : infraEnvFetchErrorLog ∉ (clusterLoop a cs n).1 :=
  not_mem_of_all_noFetchErrorLog (noFetchErrorLog_clusterLoop a cs n) (by decide)

theorem clusterFetchErrorLog_not_mem_infraEnvLoop (a : Answers) (is : List InfraEnv)
    (n : Calls) : clusterFetchErrorLog ∉ (infraEnvLoop a is n).1 :=
  not_mem_of_all_noFetchErrorLog (noFetchErrorLog_infraEnvLoop a is n) (by decide)

theorem infraEnvFetchErrorLog_not_mem_infraEnvLoop (a : Answers) (is : List InfraEnv)
    (n : Calls) : infraEnvFetchErrorLog ∉ (infraEnvLoop a is n).1 :=
  not_mem_of_all_noFetchErrorLog (noFetchErrorLog_infraEnvLoop a is n) (by decide)

theorem infraEnvFetchErrorLog_not_mem_clusterPageLoop (a : Answers)
    (pages : List (Except String (List Cluster))) (n : Calls) :
    infraEnvFetchErrorLog ∉ (clusterPageLoop a pages n).1 := by
  induction pages generalizing n with
  | nil => exact (by simp [clusterPageLoop, infraEnvPageLoop, clusterFetchErrorLog, infraEnvFetchErrorLog])
  | cons p pages ih =>
    cases p with
    | error e => exact (by simp [clusterPageLoop, infraEnvPageLoop, clusterFetchErrorLog, infraEnvFetchErrorLog])
    | ok cs =>
      cases cs with
      | nil => exact (by simp [clusterPageLoop, infraEnvPageLoop, clusterFetchErrorLog, infraEnvFetchErrorLog])
      | cons c cs =>
        unfold clusterPageLoop
        simp only []
        have h1 := infraEnvFetchErrorLog_not_mem_clusterLoop a (c :: cs) n
        split
        · have h2 := ih (clusterLoop a (c :: cs) n).2.1
          simp only [List.mem_append, List.mem_cons, List.mem_singleton, List.not_mem_nil,
            or_false, not_or]
          exact ⟨⟨⟨⟨by decide, by decide⟩, h1⟩, by decide⟩, h2⟩
        · simp only [List.mem_append, List.mem_cons, List.mem_singleton, List.not_mem_nil,
            or_false, not_or]
          exact ⟨⟨by decide, by decide⟩, h1⟩

theorem clusterFetchErrorLog_not_mem_infraEnvPageLoop (a : Answers)
    (pages : List (Except String (List InfraEnv))) (n : Calls) :
    clusterFetchErrorLog ∉ (infraEnvPageLoop a pages n).1 := by
  induction pages generalizing n with
  | nil => exact (by simp [clusterPageLoop, infraEnvPageLoop, clusterFetchErrorLog, infraEnvFetchErrorLog])
  | cons p pages ih =>
    cases p with
    | error e => exact (by simp [clusterPageLoop, infraEnvPageLoop, clusterFetchErrorLog, infraEnvFetchErrorLog])
    | ok is =>
      cases is with
      | nil => exact (by simp [clusterPageLoop, infraEnvPageLoop, clusterFetchErrorLog, infraEnvFetchErrorLog])
      | cons i is =>
        unfold infraEnvPageLoop
        simp only []
        have h1 := clusterFetchErrorLog_not_mem_infraEnvLoop a (i :: is) n
        split
        · have h2 := ih (infraEnvLoop a (i :: is) n).2.1
          simp only [List.mem_append, List.mem_cons, not_or]
          exact ⟨⟨by decide, h1⟩, h2⟩
        · simp only [List.mem_cons, not_or]
          exact ⟨by decide, h1⟩

/-- The trace of the cluster batches either has no fetch-error line or ends
with the failed `Next()` and its error line. -/
theorem clusterPageLoop_fetchError (a : Answers) (pages : List (Except String (List Cluster)))
    (n : Calls) :
    clusterFetchErrorLog ∉ (clusterPageLoop a pages n).1 ∨
      ∃ X, (clusterPageLoop a pages n).1 = X ++ [Event.clusterQueryNext, clusterFetchErrorLog] ∧
        clusterFetchErrorLog ∉ X := by
  induction pages generalizing n with
  | nil => exact Or.inl (by simp [clusterPageLoop, infraEnvPageLoop, clusterFetchErrorLog, infraEnvFetchErrorLog])
  | cons p pages ih =>
    cases p with
    | error e => exact Or.inr ⟨[], rfl, by simp⟩
    | ok cs =>
      cases cs with
      | nil => exact Or.inl (by simp [clusterPageLoop, infraEnvPageLoop, clusterFetchErrorLog, infraEnvFetchErrorLog])
      | cons c cs =>
        unfold clusterPageLoop
        simp only []
        have h1 := clusterFetchErrorLog_not_mem_clusterLoop a (c :: cs) n
        have h0 : clusterFetchErrorLog ∉
            [Event.clusterQueryNext, Event.log .debug "Started cluster host monitoring cycle"] ++
              (clusterLoop a (c :: cs) n).1 ++
              [Event.log .debug "Finished cluster host monitoring cycle"] := by
          simp only [List.mem_append, List.mem_cons, List.mem_singleton, List.not_mem_nil,
            or_false, not_or]
          exact ⟨⟨⟨by decide, by decide⟩, h1⟩, by decide⟩
        split
        · rcases ih (clusterLoop a (c :: cs) n).2.1 with h2 | ⟨X, hX, hXn⟩
          · left
            intro hm
            rcases List.mem_append.mp hm with hm | hm
            · exact h0 hm
            · exact h2 hm
          · right
            refine ⟨([Event.clusterQueryNext,
                Event.log .debug "Started cluster host monitoring cycle"] ++
              (clusterLoop a (c :: cs) n).1 ++
              [Event.log .debug "Finished cluster host monitoring cycle"]) ++ X, ?_, ?_⟩
            · rw [hX]
              simp only [List.append_assoc]
            · intro hm
              rcases List.mem_append.mp hm with hm | hm
              · exact h0 hm
              · exact hXn hm
        · left
          simp only [List.mem_append, List.mem_cons, List.mem_singleton, List.not_mem_nil,
            or_false, not_or]
          exact ⟨⟨by decide, by decide⟩, h1⟩

/-- The trace of the infra-env batches either has no fetch-error line or ends
with the failed `Next()` and its error line. -/
theorem infraEnvPageLoop_fetchError (a : Answers)
    (pages : List (Except String (List InfraEnv))) (n : Calls) :
    infraEnvFetchErrorLog ∉ (infraEnvPageLoop a pages n).1 ∨
      ∃ X, (infraEnvPageLoop a pages n).1 =
          X ++ [Event.infraEnvQueryNext, infraEnvFetchErrorLog] ∧
        infraEnvFetchErrorLog ∉ X := by
  induction pages generalizing n with
  | nil => exact Or.inl (by simp [clusterPageLoop, infraEnvPageLoop, clusterFetchErrorLog, infraEnvFetchErrorLog])
  | cons p pages ih =>
    cases p with
    | error e => exact Or.inr ⟨[], rfl, by simp⟩
    | ok is =>
      cases is with
      | nil => exact Or.inl (by simp [clusterPageLoop, infraEnvPageLoop, clusterFetchErrorLog, infraEnvFetchErrorLog])
      | cons i is =>
        unfold infraEnvPageLoop
        simp only []
        have h1 := infraEnvFetchErrorLog_not_mem_infraEnvLoop a (i :: is) n
        have h0 : infraEnvFetchErrorLog ∉
            Event.infraEnvQueryNext :: (infraEnvLoop a (i :: is) n).1 := by
          simp only [List.mem_cons, not_or]
          exact ⟨by decide, h1⟩
        split
        · rcases ih (infraEnvLoop a (i :: is) n).2.1 with h2 | ⟨X, hX, hXn⟩
          · left
            show infraEnvFetchErrorLog ∉
              (Event.infraEnvQueryNext :: (infraEnvLoop a (i :: is) n).1) ++ _
            intro hm
            rcases List.mem_append.mp hm with hm | hm
            · exact h0 hm
            · exact h2 hm
          · right
            refine ⟨(Event.infraEnvQueryNext :: (infraEnvLoop a (i :: is) n).1) ++ X, ?_, ?_⟩
            · rw [hX]
              simp only [List.append_assoc, List.cons_append]
            · intro hm
              rcases List.mem_append.mp hm with hm | hm
              · exact h0 hm
              · exact hXn hm
        · left
          exact h0

theorem not_clusterCall_of_inInfraEnvPhase (e : Event) (h : e.inInfraEnvPhase = true) :
    (e != Event.clusterQueryNext && !e.isClusterRefresh) = true := by
  rw [not_isClusterRefresh_of_inInfraEnvPhase e h]
  cases e <;> simp_all [Event.inInfraEnvPhase]

/-- C14: a fetch error interrupts only its own scope.  When the cluster
cursor's `Next()` returns an error, what follows in the trace is the infra-env
phase and the report of the total duration: the cluster cursor is not called
again and no cluster host is refreshed.  When the infra-env cursor's `Next()`
returns an error, what follows is the report of the total duration alone. -/
theorem HostMonitoring_fetch_error (a : Answers) (t1 t2 u1 u2 : List Event) :
    (HostMonitoring a = t1 ++ Event.clusterQueryNext :: clusterFetchErrorLog :: t2 →
      t2.all (fun e => e != Event.clusterQueryNext && !e.isClusterRefresh) = true ∧
        ∃ n, t2 = Event.newInfraEnvQuery :: (infraEnvPageLoop a a.infraEnvPages n).1 ++
          [Event.reportOperationDuration "HostMonitoring"]) ∧
      (HostMonitoring a = u1 ++ Event.infraEnvQueryNext :: infraEnvFetchErrorLog :: u2 →
        u2 = [Event.reportOperationDuration "HostMonitoring"]) := by
  unfold HostMonitoring
  split
  · simp only [clusterHostMonitoring, infraEnvHostMonitoring]
    generalize hn0 : ({ isLeader := 1, refreshStatus := 0, refreshRole := 0 } : Calls) = n0
    generalize hrs : resetRoleAssignmentIfNotAllRolesAreSet a n0 = rs
    have hr1 := noFetchErrorLog_reset a n0
    rw [hrs] at hr1
    generalize hpl : clusterPageLoop a a.clusterPages rs.2 = pl
    have hpl1 := clusterPageLoop_fetchError a a.clusterPages rs.2
    have hpl2 := infraEnvFetchErrorLog_not_mem_clusterPageLoop a a.clusterPages rs.2
    rw [hpl] at hpl1 hpl2
    generalize hil : infraEnvPageLoop a a.infraEnvPages pl.2 = il
    have hil1 := infraEnvPageLoop_fetchError a a.infraEnvPages pl.2
    have hil2 := clusterFetchErrorLog_not_mem_infraEnvPageLoop a a.infraEnvPages pl.2
    have hil3 := all_inInfraEnvPhase_pageLoop a a.infraEnvPages pl.2
    rw [hil] at hil1 hil2 hil3
    have gr : clusterFetchErrorLog ∉ rs.1 := not_mem_of_all_noFetchErrorLog hr1 (by decide)
    have gr' : infraEnvFetchErrorLog ∉ rs.1 := not_mem_of_all_noFetchErrorLog hr1 (by decide)
    constructor
    · intro h
      rcases hpl1 with hno | ⟨X, hX, hXn⟩
      · exfalso
        have hm : clusterFetchErrorLog ∈
            t1 ++ Event.clusterQueryNext :: clusterFetchErrorLog :: t2 := by simp
        rw [← h] at hm
        simp only [List.mem_append, List.mem_cons, List.mem_singleton, List.not_mem_nil,
          or_false] at hm
        rcases hm with (((hm | hm | hm) | (hm | hm) | hm) | hm | hm) | hm
        · exact absurd hm (by decide)
        · exact absurd hm (by decide)
        · exact absurd hm (by decide)
        · exact gr hm
        · exact absurd hm (by decide)
        · exact hno hm
        · exact absurd hm (by decide)
        · exact hil2 hm
        · exact absurd hm (by decide)
      · rw [hX] at h
        have hA : clusterFetchErrorLog ∉
            [Event.isLeader true, Event.measureOperation "HostMonitoring",
              Event.initMonitoringQueryGenerator] ++ (rs.1 ++ [Event.newClusterQuery] ++ X) ++
              [Event.clusterQueryNext] := by
          simp only [List.mem_append, List.mem_cons, List.mem_singleton, List.not_mem_nil,
            or_false, not_or]
          exact ⟨⟨⟨by decide, by decide, by decide⟩, ⟨gr, by decide⟩, hXn⟩, by decide⟩
        have hB : clusterFetchErrorLog ∉
            Event.newInfraEnvQuery :: il.1 ++
              [Event.reportOperationDuration "HostMonitoring"] := by
          simp only [List.mem_append, List.mem_cons, List.mem_singleton, List.not_mem_nil,
            or_false, not_or]
          exact ⟨⟨by decide, hil2⟩, by decide⟩
        have h' : ([Event.isLeader true, Event.measureOperation "HostMonitoring",
              Event.initMonitoringQueryGenerator] ++ (rs.1 ++ [Event.newClusterQuery] ++ X) ++
              [Event.clusterQueryNext]) ++ clusterFetchErrorLog ::
              (Event.newInfraEnvQuery :: il.1 ++
                [Event.reportOperationDuration "HostMonitoring"]) =
            (t1 ++ [Event.clusterQueryNext]) ++ clusterFetchErrorLog :: t2 := by
          simpa [List.append_assoc] using h
        obtain ⟨_, hB2⟩ := append_cons_unique hA hB h'
        refine ⟨?_, pl.2, ?_⟩
        · rw [← hB2]
          simp only [List.all_append, List.all_cons, List.all_nil, Bool.and_true]
          refine Bool.and_eq_true_iff.mpr ⟨Bool.and_eq_true_iff.mpr ⟨by decide, ?_⟩, by decide⟩
          rw [List.all_eq_true]
          intro e he
          exact not_clusterCall_of_inInfraEnvPhase e (List.all_eq_true.mp hil3 e he)
        · rw [← hB2, hil]
    · intro h
      rcases hil1 with hno | ⟨X, hX, hXn⟩
      · exfalso
        have hm : infraEnvFetchErrorLog ∈
            u1 ++ Event.infraEnvQueryNext :: infraEnvFetchErrorLog :: u2 := by simp
        rw [← h] at hm
        simp only [List.mem_append, List.mem_cons, List.mem_singleton, List.not_mem_nil,
          or_false] at hm
        rcases hm with (((hm | hm | hm) | (hm | hm) | hm) | hm | hm) | hm
        · exact absurd hm (by decide)
        · exact absurd hm (by decide)
        · exact absurd hm (by decide)
        · exact gr' hm
        · exact absurd hm (by decide)
        · exact hpl2 hm
        · exact absurd hm (by decide)
        · exact hno hm
        · exact absurd hm (by decide)
      · rw [hX] at h
        have hA : infraEnvFetchErrorLog ∉
            [Event.isLeader true, Event.measureOperation "HostMonitoring",
              Event.initMonitoringQueryGenerator] ++ (rs.1 ++ [Event.newClusterQuery] ++ pl.1) ++
              (Event.newInfraEnvQuery :: X ++ [Event.infraEnvQueryNext]) := by
          simp only [List.mem_append, List.mem_cons, List.mem_singleton, List.not_mem_nil,
            or_false, not_or]
          exact ⟨⟨⟨by decide, by decide, by decide⟩, ⟨gr', by decide⟩, hpl2⟩,
            ⟨by decide, hXn⟩, by decide⟩
        have hB : infraEnvFetchErrorLog ∉ [Event.reportOperationDuration "HostMonitoring"] := by
          decide
        have h' : ([Event.isLeader true, Event.measureOperation "HostMonitoring",
              Event.initMonitoringQueryGenerator] ++ (rs.1 ++ [Event.newClusterQuery] ++ pl.1) ++
              (Event.newInfraEnvQuery :: X ++ [Event.infraEnvQueryNext])) ++
              infraEnvFetchErrorLog :: [Event.reportOperationDuration "HostMonitoring"] =
            (u1 ++ [Event.infraEnvQueryNext]) ++ infraEnvFetchErrorLog :: u2 := by
          simpa [List.append_assoc] using h
        exact (append_cons_unique hA hB h').2.symm
  · constructor
    · intro h
      exfalso
      have hm : clusterFetchErrorLog ∈
          t1 ++ Event.clusterQueryNext :: clusterFetchErrorLog :: t2 := by simp
      rw [← h] at hm
      exact absurd hm (by decide)
    · intro h
      exfalso
      have hm : infraEnvFetchErrorLog ∈
          u1 ++ Event.infraEnvQueryNext :: infraEnvFetchErrorLog :: u2 := by simp
      rw [← h] at hm
      exact absurd hm (by decide)

/-- C14 at `clusterFetchErrorRun` and at `infraEnvFetchErrorRun`: the batch
behind the failed `Next()` is never fetched. -/
theorem HostMonitoring_fetch_error_witness :
    (HostMonitoring clusterFetchErrorRun =
        clusterFetchErrorBefore ++
          Event.clusterQueryNext :: clusterFetchErrorLog :: clusterFetchErrorAfter ∧
      clusterFetchErrorAfter.all
        (fun e => e != Event.clusterQueryNext && !e.isClusterRefresh) = true) ∧
      HostMonitoring infraEnvFetchErrorRun =
        infraEnvFetchErrorBefore ++ Event.infraEnvQueryNext :: infraEnvFetchErrorLog ::
          [Event.reportOperationDuration "HostMonitoring"] :=
  ⟨⟨by decide,
      ((HostMonitoring_fetch_error clusterFetchErrorRun clusterFetchErrorBefore
        clusterFetchErrorAfter [] []).1 (by decide)).1⟩,
    ((HostMonitoring_fetch_error infraEnvFetchErrorRun [] [] infraEnvFetchErrorBefore
      [Event.reportOperationDuration "HostMonitoring"]).2 (by decide)) ▸ (by decide)⟩

theorem infraEnvHostLoop_leader (a : Answers) (hl : ∀ k, a.isLeader k = true) (i : InfraEnv)
    (hosts : List Host) (n : Calls) :
    (infraEnvHostLoop a i hosts n).2.2 = true ∧
      (infraEnvHostLoop a i hosts n).1.filter Event.isMutating =
        (hosts.filter (fun h => infraEnvMonitorStates.contains (h.Status.getD ""))).map
          (fun h => Event.refreshStatus h none (some i.ID)) := by
  induction hosts generalizing n with
  | nil => exact ⟨rfl, rfl⟩
  | cons h hs ih =>
    unfold infraEnvHostLoop
    rw [if_pos (hl _)]
    split
    · rename_i hs'
      simp only []
      refine ⟨(ih _).1, ?_⟩
      rw [List.filter_append, (ih _).2, List.filter_cons, if_pos hs', List.map_cons]
      cases a.refreshStatusFails n.refreshStatus <;> rfl
    · rename_i hs'
      simp only []
      refine ⟨(ih _).1, ?_⟩
      rw [List.filter_cons, (ih _).2, List.filter_cons, if_neg hs']
      rfl

theorem infraEnvLoop_leader (a : Answers) (hl : ∀ k, a.isLeader k = true) (is : List InfraEnv)
    (n : Calls) :
    (infraEnvLoop a is n).2.2 = true ∧
      (infraEnvLoop a is n).1.filter Event.isMutating =
        is.flatMap (fun i =>
          (i.Hosts.filter (fun h => infraEnvMonitorStates.contains (h.Status.getD ""))).map
            (fun h => Event.refreshStatus h none (some i.ID))) := by
  induction is generalizing n with
  | nil => exact ⟨rfl, rfl⟩
  | cons i is ih =>
    unfold infraEnvLoop
    simp only []
    rw [if_pos (infraEnvHostLoop_leader a hl i _ n).1]
    refine ⟨(ih _).1, ?_⟩
    rw [List.filter_append, (ih _).2, (infraEnvHostLoop_leader a hl i _ n).2, List.flatMap_cons]

theorem infraEnvPageLoop_leader (a : Answers) (hl : ∀ k, a.isLeader k = true)
    (pages : List (List InfraEnv)) (rest : List (Except String (List InfraEnv)))
    (hne : ∀ batch ∈ pages, batch ≠ []) (n : Calls) :
    (infraEnvPageLoop a (pages.map Except.ok ++ Except.ok [] :: rest) n).1.filter
        Event.isMutating =
      pages.flatMap (fun batch => batch.flatMap (fun i =>
        (i.Hosts.filter (fun h => infraEnvMonitorStates.contains (h.Status.getD ""))).map
          (fun h => Event.refreshStatus h none (some i.ID)))) := by
  induction pages generalizing n with
  | nil => rfl
  | cons batch pages ih =>
    cases batch with
    | nil => exact absurd rfl (hne [] (List.mem_cons_self _ _))
    | cons i is =>
      simp only [List.map_cons, List.cons_append]
      unfold infraEnvPageLoop
      simp only []
      rw [if_pos (infraEnvLoop_leader a hl (i :: is) n).1]
      show List.filter Event.isMutating
        (Event.infraEnvQueryNext :: ((infraEnvLoop a (i :: is) n).1 ++ _)) = _
      rw [List.filter_cons, List.filter_append, (infraEnvLoop_leader a hl (i :: is) n).2,
        ih (fun b hb => hne b (List.mem_cons_of_mem _ hb)), List.flatMap_cons]
      rfl

/-- C15: in the infra-env phase with leadership held, the status refresh is
invoked for a host if and only if its status is one of the seven
unbound-lifecycle statuses; the hosts are visited batch by batch in the stored
order of their infra-env, without sorting, and the role refresh is never
invoked: the mutating calls of the phase are these status refreshes. -/
theorem infraEnvHostMonitoring_refreshes (a : Answers) (n : Calls)
    (pages : List (List InfraEnv)) (rest : List (Except String (List InfraEnv)))
    (hl : ∀ k, a.isLeader k = true)
    (hp : a.infraEnvPages = pages.map Except.ok ++ Except.ok [] :: rest)
    (hne : ∀ batch ∈ pages, batch ≠ []) :
    (infraEnvHostMonitoring a n).1.filter Event.isMutating =
      pages.flatMap (fun batch => batch.flatMap (fun i =>
        (i.Hosts.filter (fun h =>
          ["binding", "disconnected-unbound", "discovering-unbound", "insufficient-unbound",
            "known-unbound", "reclaiming", "reclaiming-rebooting"].contains
              (h.Status.getD ""))).map
          (fun h => Event.refreshStatus h none (some i.ID)))) := by
  unfold infraEnvHostMonitoring
  simp only []
  rw [List.filter_cons, hp, infraEnvPageLoop_leader a hl pages rest hne]
  rfl

/-- C15 at `unboundRun`: of the four hosts of the infra-env the two in the
status `known-unbound` are refreshed, in their stored order. -/
theorem infraEnvHostMonitoring_refreshes_witness :
    (infraEnvHostMonitoring unboundRun { isLeader := 2, refreshStatus := 0, refreshRole := 0 }).1.filter
        Event.isMutating =
      [Event.refreshStatus unboundHost none (some "i1"),
        Event.refreshStatus unboundHost none (some "i1")] :=
  (infraEnvHostMonitoring_refreshes unboundRun _
    [[{ ID := "i1", Hosts := [H3, unboundHost, statuslessHost, unboundHost] }]] []
    (fun _ => rfl) rfl (by decide)).trans (by decide)

theorem count_eq_zero_of_all {p : Event → Bool} {t : List Event} {e : Event}
    (h : t.all p = true) (he : p e = false) : t.count e = 0 := by
  rw [List.count_eq_zero]
  intro hm
  have := List.all_eq_true.mp h e hm
  rw [he] at this
  exact absurd this (by simp)

/-- C20: every invocation of `HostMonitoring` that passes the entry leadership
check emits exactly one total-duration measurement for the operation
"HostMonitoring", as its last call, whatever the collaborators answer
afterwards. -/
theorem HostMonitoring_reports_duration_once (a : Answers) (h : a.isLeader 0 = true) :
    (HostMonitoring a).count (Event.reportOperationDuration "HostMonitoring") = 1 ∧
      (HostMonitoring a).getLast? = some (Event.reportOperationDuration "HostMonitoring") := by
  unfold HostMonitoring
  rw [if_pos h]
  simp only []
  constructor
  · have hr1 : Event.inClusterPhase (Event.reportOperationDuration "HostMonitoring") = false :=
      rfl
    have hr2 : Event.inInfraEnvPhase (Event.reportOperationDuration "HostMonitoring") = false :=
      rfl
    rw [List.count_append, List.count_append, List.count_append,
      count_eq_zero_of_all (all_inClusterPhase a _) hr1,
      count_eq_zero_of_all (all_inInfraEnvPhase a _) hr2]
    rfl
  · rw [List.getLast?_append]
    rfl

/-- C20 at `clusterFetchErrorRun`, whose cluster cursor fails. -/
theorem HostMonitoring_reports_duration_once_witness :
    (HostMonitoring clusterFetchErrorRun).count
        (Event.reportOperationDuration "HostMonitoring") = 1 ∧
      (HostMonitoring clusterFetchErrorRun).getLast? =
        some (Event.reportOperationDuration "HostMonitoring") :=
  HostMonitoring_reports_duration_once clusterFetchErrorRun rfl

end host

/-! ## Three-valued conditions -/

namespace sql

theorem keeps_and3 (a b : Truth) : keeps (and3 a b) = (keeps a && keeps b) := by
  rcases a with _ | _ | _ <;> rcases b with _ | _ | _ <;> rfl

theorem keeps_or3 (a b : Truth) : keeps (or3 a b) = (keeps a || keeps b) := by
  rcases a with _ | _ | _ <;> rcases b with _ | _ | _ <;> rfl

theorem keeps_eq3 (col : Option String) (v : String) : keeps (eq3 col v) = true ↔ col = some v := by
  cases col <;> simp [keeps, eq3]

theorem keeps_ne3 (col : Option String) (v : String) :
    keeps (ne3 col v) = true ↔ ∃ x, col = some x ∧ x ≠ v := by
  cases col <;> simp [keeps, ne3]

theorem keeps_in3 (col : Option String) (vs : List String) :
    keeps (in3 col vs) = true ↔ ∃ x, col = some x ∧ x ∈ vs := by
  cases col <;> simp [keeps, in3]

theorem keeps_notIn3 (col : Option String) (vs : List String) :
    keeps (notIn3 col vs) = true ↔ ∃ x, col = some x ∧ x ∉ vs := by
  cases col <;> simp [keeps, notIn3]

theorem keeps_isNull {α : Type} (col : Option α) : keeps (isNull col) = true ↔ col = none := by
  cases col <;> simp [keeps, isNull]

theorem keeps_some (b : Bool) : keeps (some b) = b := by
  cases b <;> rfl

end sql

namespace host

open models sql

theorem keeps_missingRoleAssignmentWhere (db : Tables) (h : HostRow) :
    keeps (missingRoleAssignmentWhere db h) = true ↔
      h.role = some HostRoleAutoAssign ∧
        (h.suggested_role = some HostRoleAutoAssign ∨ h.suggested_role = some "" ∨
          h.suggested_role = none) ∧
        (∃ s, h.status = some s ∧ s ≠ HostStatusDisconnected ∧ s ≠ HostStatusDisabled) ∧
        (∃ k, h.kind = some k ∧ k ≠ HostKindAddToExistingClusterHost) ∧
        h.deleted_at = none ∧
        ∃ c ∈ db.clusters, h.cluster_id = some c.id ∧ c.deleted_at = none := by
  unfold missingRoleAssignmentWhere
  simp only [keeps_and3, keeps_or3, keeps_some, Bool.and_eq_true, Bool.or_eq_true, keeps_eq3,
    keeps_ne3, keeps_notIn3, keeps_isNull, List.any_eq_true, List.mem_cons, List.mem_singleton,
    List.not_mem_nil, or_false, not_or]
  tauto

end host

/-! ## The clusters selected for the reset -/

namespace host

open models sql

theorem mem_clustersWithMissingRoleAssignmentQuery (db : Tables) (v : Option String) :
    v ∈ clustersWithMissingRoleAssignmentQuery db ↔
      ∃ h ∈ db.hosts, keeps (missingRoleAssignmentWhere db h) = true ∧ h.cluster_id = v := by
  unfold clustersWithMissingRoleAssignmentQuery
  simp only [List.mem_dedup, List.mem_map, List.mem_filter]
  constructor
  · rintro ⟨h, ⟨hm, hk⟩, hv⟩
    exact ⟨h, hm, hk, hv⟩
  · rintro ⟨h, hm, hk, hv⟩
    exact ⟨h, ⟨hm, hk⟩, hv⟩

/-- C16 (as stated, refuted): in `nullKindTables` the host of cluster A meets
every condition as the claim words them (its kind, being NULL, is not
add-to-existing-cluster-host), yet A is not selected: `kind != ?` is NULL for
a NULL kind and drops the row. -/
theorem missingRoleAssignment_null_kind_not_selected :
    (∃ h ∈ nullKindTables.hosts,
        h.cluster_id = some "A" ∧ specMissingRoleAssignment nullKindTables h) ∧
      some "A" ∉ clustersWithMissingRoleAssignmentQuery nullKindTables := by
  decide

/-- C16 (amended): a cluster id `c` is selected for the reset exactly when some
host row of `c` has role auto-assign, a suggested role that is auto-assign,
empty or NULL, a status that is set and neither disconnected nor disabled, a
kind that is set and not add-to-existing-cluster-host, no soft-delete time, and
a cluster row with id `c` exists that is not soft-deleted; NULL is never
selected. In the scenario of clusters A (all hosts auto-assign with NULL
suggestion) and B (one host auto-assign with suggestion worker) exactly A is
selected. -/
theorem missingRoleAssignment_selected_iff :
    (∀ (db : Tables) (c : String),
        some c ∈ clustersWithMissingRoleAssignmentQuery db ↔
          ∃ h ∈ db.hosts,
            h.cluster_id = some c ∧ h.role = some HostRoleAutoAssign ∧
              (h.suggested_role = some HostRoleAutoAssign ∨ h.suggested_role = some "" ∨
                h.suggested_role = none) ∧
              (∃ s, h.status = some s ∧ s ≠ HostStatusDisconnected ∧ s ≠ HostStatusDisabled) ∧
              (∃ k, h.kind = some k ∧ k ≠ HostKindAddToExistingClusterHost) ∧
              h.deleted_at = none ∧
              ∃ cl ∈ db.clusters, cl.id = c ∧ cl.deleted_at = none) ∧
      (∀ db : Tables, none ∉ clustersWithMissingRoleAssignmentQuery db) ∧
      clustersWithMissingRoleAssignmentQuery scenarioTables = [some "A"] := by
  refine ⟨?_, ?_, by decide⟩
  · intro db c
    rw [mem_clustersWithMissingRoleAssignmentQuery]
    constructor
    · rintro ⟨h, hm, hk, hc⟩
      obtain ⟨h1, h2, h3, h4, h5, cl, hcl, h6, h7⟩ := (keeps_missingRoleAssignmentWhere db h).1 hk
      refine ⟨h, hm, hc, h1, h2, h3, h4, h5, cl, hcl, ?_, h7⟩
      rw [hc] at h6
      exact (Option.some.inj h6).symm
    · rintro ⟨h, hm, hc, h1, h2, h3, h4, h5, cl, hcl, h6, h7⟩
      refine ⟨h, hm, (keeps_missingRoleAssignmentWhere db h).2
        ⟨h1, h2, h3, h4, h5, cl, hcl, ?_, h7⟩, hc⟩
      rw [hc, h6]
  · intro db hn
    rw [mem_clustersWithMissingRoleAssignmentQuery] at hn
    obtain ⟨h, _, hk, hc⟩ := hn
    obtain ⟨_, _, _, _, _, cl, _, h6, _⟩ := (keeps_missingRoleAssignmentWhere db h).1 hk
    rw [hc] at h6
    exact Option.noConfusion h6

/-- C17 (as stated, refuted): in `mixedSuggestionTables` cluster C has a host
with the concrete suggested role worker, and C is selected for the reset all
the same, because its other host has role auto-assign and no suggestion. -/
theorem missingRoleAssignment_concrete_suggestion_selected :
    (∃ h ∈ mixedSuggestionTables.hosts,
        h.cluster_id = some "C" ∧ h.suggested_role = some HostRoleWorker) ∧
      some "C" ∈ clustersWithMissingRoleAssignmentQuery mixedSuggestionTables := by
  decide

/-- C17 (amended): a cluster id selected for the reset stays selected whatever
further host rows the table holds, among them hosts of the same cluster with
a concrete suggested role: one matching host row selects the cluster, and a
host with a concrete suggestion never takes it out. -/
theorem missingRoleAssignment_selected_mono (db : Tables) (extra : List HostRow) (c : String)
    (h : some c ∈ clustersWithMissingRoleAssignmentQuery db) :
    some c ∈ clustersWithMissingRoleAssignmentQuery
      { hosts := db.hosts ++ extra, clusters := db.clusters } := by
  rw [mem_clustersWithMissingRoleAssignmentQuery] at h ⊢
  obtain ⟨r, hm, hk, hc⟩ := h
  refine ⟨r, List.mem_append_left _ hm, ?_, hc⟩
  rw [keeps_missingRoleAssignmentWhere] at hk ⊢
  exact hk

/-- C17 (amended), at an instance: cluster A of `scenarioTables` is selected,
and stays selected with a further host of A whose suggested role is worker. -/
theorem missingRoleAssignment_selected_mono_witness :
    some "A" ∈ clustersWithMissingRoleAssignmentQuery scenarioTables ∧
      some "A" ∈ clustersWithMissingRoleAssignmentQuery
        { hosts := scenarioTables.hosts ++ [autoAssignHost "a3" "A" (some HostRoleWorker)],
          clusters := scenarioTables.clusters } :=
  ⟨by decide,
    missingRoleAssignment_selected_mono scenarioTables
      [autoAssignHost "a3" "A" (some HostRoleWorker)] "A" (by decide)⟩

end host

/-! ## The clusters eligible for monitoring -/

namespace host

open models sql

theorem keeps_monitorWhere (c : ClusterRow) (h : HostRow) :
    keeps (monitorWhere c h) = true ↔
      (c.deleted_at = none ∧ h.deleted_at = none) ∧
        (((∃ s, h.status = some s ∧ s ∈ monitorStates) ∨
            ((∃ s, h.status = some s ∧ s ∈ monitorStatesUntilLogCollection) ∧
              ∃ l, h.logs_info = some l ∧ l ∉ logCollectionEndStates)) ∨
          (h.status = some HostStatusInstalled ∧
            ∃ s, c.status = some s ∧ s ≠ ClusterStatusInstalled)) := by
  unfold monitorWhere
  simp only [keeps_and3, keeps_or3, Bool.and_eq_true, Bool.or_eq_true, keeps_eq3, keeps_ne3,
    keeps_in3, keeps_notIn3, keeps_isNull]

theorem mem_monitoredClusterIds (db : Tables) (i : String) :
    i ∈ monitoredClusterIds db ↔
      ∃ c ∈ db.clusters, c.id = i ∧
        ∃ h ∈ db.hosts, h.cluster_id = some c.id ∧ keeps (monitorWhere c h) = true := by
  unfold monitoredClusterIds
  simp only [List.mem_flatMap, List.mem_map, List.mem_filter, Bool.and_eq_true, keeps_eq3]
  constructor
  · rintro ⟨c, hc, h, ⟨hm, hj, hk⟩, rfl⟩
    exact ⟨c, hc, rfl, h, hm, hj, hk⟩
  · rintro ⟨c, hc, rfl, h, hm, hj, hk⟩
    exact ⟨c, hc, h, ⟨hm, hj, hk⟩, rfl⟩

theorem eq_of_id_eq {cs : List ClusterRow} (hpk : (cs.map ClusterRow.id).Nodup)
    {c d : ClusterRow} (hc : c ∈ cs) (hd : d ∈ cs) (h : c.id = d.id) : c = d :=
  List.inj_on_of_nodup_map hpk hc hd h

theorem mem_buildInitialQuery (db : Tables) (hpk : (db.clusters.map ClusterRow.id).Nodup)
    (c : ClusterRow) (hc : c ∈ db.clusters) :
    c ∈ buildInitialQuery db ↔
      ∃ h ∈ db.hosts, h.cluster_id = some c.id ∧ keeps (monitorWhere c h) = true := by
  unfold buildInitialQuery
  simp only [List.mem_filter, List.contains, List.elem_eq_mem, decide_eq_true_eq,
    mem_monitoredClusterIds]
  constructor
  · rintro ⟨_, d, hd, hid, h, hm, hj, hk⟩
    obtain rfl := eq_of_id_eq hpk hd hc hid
    exact ⟨h, hm, hj, hk⟩
  · rintro ⟨h, hm, hj, hk⟩
    exact ⟨hc, c, hc, rfl, h, hm, hj, hk⟩

/-- C18 (as stated, refuted): the cluster of `nullStatusTables` is not
soft-deleted and has an installed host that is not soft-deleted, and its own
status, being NULL, is not installed; yet the query does not return it, since
`clusters.status <> ?` is NULL for a NULL status. -/
theorem buildInitialQuery_null_status_not_eligible :
    nullStatusCluster ∈ nullStatusTables.clusters ∧
      specEligible nullStatusTables nullStatusCluster ∧
      nullStatusCluster ∉ buildInitialQuery nullStatusTables := by
  refine ⟨by decide, ⟨rfl, ?_⟩, by decide⟩
  exact ⟨_, List.mem_singleton.2 rfl, rfl, rfl, Or.inr (Or.inr ⟨rfl, by decide⟩)⟩

/-- C18 (amended): with distinct cluster ids, a cluster row is returned by the
cluster monitoring query exactly when it is not soft-deleted and has a host
row that is not soft-deleted and (1) whose status is one of the twelve
monitored statuses, or (2) whose status is cancelled or error and whose
logs_info is set and none of completed, timeout, empty, or (3) whose status is
installed while the cluster's status is set and not installed. Hence a cluster
with status installed whose hosts are all installed is not returned. -/
theorem buildInitialQuery_eligible_iff (db : Tables)
    (hpk : (db.clusters.map ClusterRow.id).Nodup) (c : ClusterRow) (hc : c ∈ db.clusters) :
    (c ∈ buildInitialQuery db ↔
        c.deleted_at = none ∧
          ∃ h ∈ db.hosts, h.cluster_id = some c.id ∧ h.deleted_at = none ∧
            ((∃ s ∈ monitorStates, h.status = some s) ∨
              ((h.status = some HostStatusCancelled ∨ h.status = some HostStatusError) ∧
                ∃ l, h.logs_info = some l ∧ l ≠ LogsStateCompleted ∧ l ≠ LogsStateTimeout ∧
                  l ≠ LogsStateEmpty) ∨
              (h.status = some HostStatusInstalled ∧
                ∃ s, c.status = some s ∧ s ≠ ClusterStatusInstalled))) ∧
      (c.status = some ClusterStatusInstalled →
        (∀ h ∈ db.hosts, h.cluster_id = some c.id → h.status = some HostStatusInstalled) →
        c ∉ buildInitialQuery db) := by
  have key := mem_buildInitialQuery db hpk c hc
  constructor
  · rw [key]
    constructor
    · rintro ⟨h, hm, hj, hk⟩
      obtain ⟨⟨hcd, hhd⟩, hcond⟩ := (keeps_monitorWhere c h).1 hk
      refine ⟨hcd, h, hm, hj, hhd, ?_⟩
      rcases hcond with (⟨s, hs, hin⟩ | ⟨⟨s, hs, hin⟩, l, hl, hnot⟩) | hinst
      · exact Or.inl ⟨s, hin, hs⟩
      · refine Or.inr (Or.inl ⟨?_, l, hl, ?_⟩)
        · simp only [monitorStatesUntilLogCollection, List.mem_cons, List.mem_singleton,
            List.not_mem_nil, or_false] at hin
          rcases hin with rfl | rfl
          · exact Or.inl hs
          · exact Or.inr hs
        · simpa only [logCollectionEndStates, List.mem_cons, List.mem_singleton,
            List.not_mem_nil, or_false, not_or] using hnot
      · exact Or.inr (Or.inr hinst)
    · rintro ⟨hcd, h, hm, hj, hhd, hcond⟩
      refine ⟨h, hm, hj, (keeps_monitorWhere c h).2 ⟨⟨hcd, hhd⟩, ?_⟩⟩
      rcases hcond with ⟨s, hin, hs⟩ | ⟨hs, l, hl, hnot⟩ | hinst
      · exact Or.inl (Or.inl ⟨s, hs, hin⟩)
      · refine Or.inl (Or.inr ⟨?_, l, hl, ?_⟩)
        · rcases hs with hs | hs
          · exact ⟨_, hs, by simp [monitorStatesUntilLogCollection]⟩
          · exact ⟨_, hs, by simp [monitorStatesUntilLogCollection]⟩
        · simpa only [logCollectionEndStates, List.mem_cons, List.mem_singleton,
            List.not_mem_nil, or_false, not_or] using hnot
      · exact Or.inr hinst
  · intro hst hall hmem
    obtain ⟨h, hm, hj, hk⟩ := key.1 hmem
    obtain ⟨_, hcond⟩ := (keeps_monitorWhere c h).1 hk
    have hs := hall h hm hj
    rcases hcond with (⟨s, hs', hin⟩ | ⟨⟨s, hs', hin⟩, _⟩) | ⟨_, s, hs', hne⟩
    · rw [hs] at hs'
      obtain rfl := Option.some.inj hs'
      revert hin
      decide
    · rw [hs] at hs'
      obtain rfl := Option.some.inj hs'
      revert hin
      decide
    · rw [hst] at hs'
      exact hne (Option.some.inj hs').symm

/-- C18 (amended), at an instance: in `installTables` the installed cluster,
all of whose hosts are installed, is not returned. -/
theorem buildInitialQuery_eligible_iff_witness :
    (installTables.clusters.map ClusterRow.id).Nodup ∧
      installedCluster ∈ installTables.clusters ∧
      installingCluster ∈ buildInitialQuery installTables ∧
      installedCluster ∉ buildInitialQuery installTables :=
  ⟨by decide, by decide, by decide,
    (buildInitialQuery_eligible_iff installTables (by decide) installedCluster (by decide)).2 rfl
      (by decide)⟩

end host

/-! ## The scan of a cursor -/

namespace common

namespace MonitorQuery

variable {ρ κ : Type} [LinearOrder κ]

theorem filter_gt_of_sorted (key : ρ → κ) :
    ∀ (n : Nat) (s : List ρ), s.Pairwise (fun a b => key a < key b) →
      ∀ r, (s.take n).getLast? = some r →
        s.filter (fun x => decide (key r < key x)) = s.drop n := by
  intro n
  induction n with
  | zero => intro s _ r h; simp at h
  | succ n ih =>
    intro s hs r h
    cases s with
    | nil => simp at h
    | cons a t =>
      rw [List.pairwise_cons] at hs
      rw [List.take_succ_cons] at h
      rw [List.drop_succ_cons]
      have hra : key a ≤ key r := by
        cases ht : t.take n with
        | nil =>
          rw [ht] at h
          simp at h
          rw [h]
        | cons b u =>
          rw [ht] at h
          rw [List.getLast?_cons_cons] at h
          have hmem : r ∈ t.take n := by
            rw [ht]
            exact List.mem_of_getLast?_eq_some h
          exact le_of_lt (hs.1 r (List.mem_of_mem_take hmem))
      rw [List.filter_cons_of_neg (by simpa using hra)]
      cases ht : t.take n with
      | nil =>
        rw [ht] at h
        simp at h
        subst h
        have hdrop : t.drop n = t := by
          rcases List.take_eq_nil_iff.1 ht with h0 | h0
          · subst h0; rfl
          · subst h0; exact List.drop_nil
        rw [hdrop, List.filter_eq_self]
        intro x hx
        simpa using hs.1 x hx
      | cons b u =>
        rw [ht, List.getLast?_cons_cons] at h
        rw [← ht] at h
        exact ih t hs.2 r h

theorem remaining_Next (q : MonitorQuery ρ κ)
    (hs : q.rows.Pairwise (fun a b => q.key a < q.key b)) (hb : 0 < q.batchSize) :
    q.Next.2.remaining = q.remaining.drop q.batchSize := by
  have hrs : q.remaining.Pairwise (fun a b => q.key a < q.key b) :=
    hs.sublist (List.filter_sublist _)
  cases hl : (q.remaining.take q.batchSize).getLast? with
  | none =>
    have hnil : q.remaining.take q.batchSize = [] := List.getLast?_eq_none_iff.1 hl
    have hrem : q.remaining = [] := by
      rcases List.take_eq_nil_iff.1 hnil with h0 | h0
      · omega
      · exact h0
    have hq : q.Next.2 = q := by
      unfold Next
      simp only [hl]
    rw [hq, hrem, List.drop_nil]
  | some r =>
    have hmem : r ∈ q.remaining := List.mem_of_mem_take (List.mem_of_getLast?_eq_some hl)
    have hbr : q.beyond r = true := by
      unfold remaining at hmem
      have := (List.mem_filter.1 hmem).2
      simp only [Bool.and_eq_true] at this
      exact this.2
    rw [← filter_gt_of_sorted q.key q.batchSize q.remaining hrs r hl]
    have hq : q.Next.2 = { q with lastKey := some (q.key r) } := by
      unfold Next
      simp only [hl]
    rw [hq]
    unfold remaining
    rw [List.filter_filter]
    apply List.filter_congr
    intro x _
    unfold beyond at hbr ⊢
    cases hk : q.lastKey with
    | none => simp [Bool.and_comm]
    | some k =>
      rw [hk] at hbr
      simp only [decide_eq_true_eq] at hbr
      simp only
      by_cases h1 : q.key r < q.key x
      · have : k < q.key x := lt_trans hbr h1
        simp [h1, this]
      · simp [h1]

theorem Next_rows (q : MonitorQuery ρ κ) : q.Next.2.rows = q.rows := rfl

theorem Next_key (q : MonitorQuery ρ κ) : q.Next.2.key = q.key := rfl

theorem Next_batchSize (q : MonitorQuery ρ κ) : q.Next.2.batchSize = q.batchSize := rfl

theorem scan_succ_nil (fuel : Nat) (q : MonitorQuery ρ κ) (h : q.Next.1 = []) :
    scan (fuel + 1) q = [[]] := by
  unfold scan
  generalize q.Next = x at h
  obtain ⟨p, q'⟩ := x
  simp only at h
  subst h
  rfl

theorem scan_succ_cons (fuel : Nat) (q : MonitorQuery ρ κ) (a : ρ) (t : List ρ)
    (h : q.Next.1 = a :: t) : scan (fuel + 1) q = (a :: t) :: scan fuel q.Next.2 := by
  conv_lhs => unfold scan
  generalize q.Next = x at h
  obtain ⟨p, q'⟩ := x
  simp only at h
  subst h
  rfl

theorem scan_spec :
    ∀ (fuel : Nat) (q : MonitorQuery ρ κ),
      q.rows.Pairwise (fun a b => q.key a < q.key b) → 0 < q.batchSize →
      q.remaining.length < fuel →
      ∃ batches : List (List ρ),
        scan fuel q = batches ++ [[]] ∧ batches.flatten = q.remaining ∧
          ∀ b ∈ batches, b ≠ [] ∧ b.length ≤ q.batchSize := by
  intro fuel
  induction fuel with
  | zero => intro q _ _ h; omega
  | succ fuel ih =>
    intro q hs hb hf
    cases hp : q.remaining.take q.batchSize with
    | nil =>
      have hrem : q.remaining = [] := by
        rcases List.take_eq_nil_iff.1 hp with h0 | h0
        · omega
        · exact h0
      refine ⟨[], ?_, by simp [hrem], by simp⟩
      exact scan_succ_nil fuel q hp
    | cons a t =>
      have hne : q.remaining ≠ [] := by
        intro h0
        rw [h0] at hp
        simp at hp
      have hlen : (q.remaining.drop q.batchSize).length < fuel := by
        rw [List.length_drop]
        have : 0 < q.remaining.length := List.length_pos.2 hne
        omega
      have hrem := remaining_Next q hs hb
      obtain ⟨batches, h1, h2, h3⟩ := ih q.Next.2 hs hb (by rw [hrem]; exact hlen)
      refine ⟨(a :: t) :: batches, ?_, ?_, ?_⟩
      · rw [scan_succ_cons fuel q a t hp, h1, List.cons_append]
      · rw [List.flatten_cons, h2, hrem, ← hp, List.take_append_drop]
      · intro b hbm
        rcases List.mem_cons.1 hbm with rfl | hbm
        · refine ⟨by simp, ?_⟩
          rw [← hp]
          exact List.length_take_le _ _
        · exact h3 b hbm

theorem remaining_new (rows : List ρ) (eligible : ρ → Bool) (key : ρ → κ) (batchSize : Nat) :
    (new rows eligible key batchSize).remaining = rows.filter eligible := by
  unfold remaining beyond new
  simp

end MonitorQuery

/-- C19: a new cursor over rows kept in strictly increasing key order, with a
positive batch size, returns within `rows.length + 1` calls of `Next()` (or
any larger number) a sequence of batches followed by one final empty batch;
the batches, one after the other, are exactly the eligible rows in table order,
so each eligible row is returned exactly once, none is skipped and none is
returned twice; each batch is non-empty and holds at most `batchSize` rows. -/
theorem MonitorQuery_scan_returns_each_eligible_row_once {ρ κ : Type} [LinearOrder κ]
    (rows : List ρ) (eligible : ρ → Bool) (key : ρ → κ) (batchSize fuel : Nat)
    (hs : rows.Pairwise (fun a b => key a < key b)) (hb : 0 < batchSize)
    (hf : rows.length < fuel) :
    ∃ batches : List (List ρ),
      MonitorQuery.scan fuel (MonitorQuery.new rows eligible key batchSize) = batches ++ [[]] ∧
        batches.flatten = rows.filter eligible ∧
        batches.flatten.Nodup ∧
        (∀ r, r ∈ batches.flatten ↔ r ∈ rows ∧ eligible r = true) ∧
        ∀ b ∈ batches, b ≠ [] ∧ b.length ≤ batchSize := by
  have hlen : (MonitorQuery.new rows eligible key batchSize).remaining.length < fuel := by
    rw [MonitorQuery.remaining_new]
    exact lt_of_le_of_lt (List.length_filter_le _ _) hf
  obtain ⟨batches, h1, h2, h3⟩ :=
    MonitorQuery.scan_spec fuel (MonitorQuery.new rows eligible key batchSize) hs hb hlen
  rw [MonitorQuery.remaining_new] at h2
  have hnd : rows.Nodup := hs.imp (fun h => fun heq => by rw [heq] at h; exact lt_irrefl _ h)
  refine ⟨batches, h1, h2, ?_, ?_, h3⟩
  · rw [h2]
    exact hnd.filter _
  · intro r
    rw [h2, List.mem_filter]

/-- C19, at an instance: five rows with the keys 1, 2, 3, 5, 8, those with an
odd key eligible, scanned in batches of two: the batches are the rows 1, 3,
then the row 5, then the empty batch. -/
theorem MonitorQuery_scan_returns_each_eligible_row_once_witness :
    MonitorQuery.scan 6 (MonitorQuery.new [1, 2, 3, 5, 8] (fun r => r % 2 == 1) id 2) =
        [[1, 3], [5], []] ∧
      ∃ batches : List (List Nat),
        MonitorQuery.scan 6 (MonitorQuery.new [1, 2, 3, 5, 8] (fun r => r % 2 == 1) id 2) =
            batches ++ [[]] ∧
          batches.flatten = [1, 2, 3, 5, 8].filter (fun r => r % 2 == 1) ∧
          batches.flatten.Nodup ∧
          (∀ r, r ∈ batches.flatten ↔ r ∈ [1, 2, 3, 5, 8] ∧ (r % 2 == 1) = true) ∧
          ∀ b ∈ batches, b ≠ [] ∧ b.length ≤ 2 :=
  ⟨by decide,
    MonitorQuery_scan_returns_each_eligible_row_once [1, 2, 3, 5, 8] (fun r => r % 2 == 1) id 2 6
      (by decide) (by decide) (by decide)⟩

end common

/-! ## The weights of the scenario -/

namespace host

open models

/-- C24 (as stated, refuted): the weight of H2 (4 cores, 16 GiB, no eligible
disk) is not 0. -/
theorem scenario_weight_H2_not_zero :
    weightOf H2 ≠ some (F64.ofInt 0) ∧ diskCapacityGiB [⟨false, 500 * GiB⟩] = 0 := by
  decide

/-- C24 (amended): in the end-to-end scenario H2 (4 cores, 16 GiB usable
memory, no eligible disk) has the weight -0.4, which is its disk term
`0.004 * (0 - 100)`, and H1 (8 cores, 32 GiB, one eligible 200 GiB disk) has
the weight 6.0; the weight of H2 is below 0 and below that of H1. -/
theorem scenario_weights :
    weightOf H2 = some F64.negFourTenths ∧
      F64.negFourTenths = F64.mul HostWeightDiskWeight (F64.sub (F64.ofInt 0) (F64.ofInt 100)) ∧
      (5 * F64.negFourTenths.units + 2 * ((1 <<< F64.unitShift : Nat) : Int)).natAbs ≤
        1 <<< 1021 ∧
      F64.negFourTenths < F64.ofInt 0 ∧
      weightOf H1 = some (F64.ofInt 6) ∧
      F64.negFourTenths < F64.ofInt 6 := by
  decide

end host

/-! ## The flag and the uniqueness of the order -/

namespace host

open models

/-! ### The flag -/

theorem less_snd_of_inventory (f : Bool) {a b : Host} (ha : a.Inventory ≠ none)
    (hb : b.Inventory ≠ none) : (SortHosts.less f a b).2 = f := by
  unfold SortHosts.less
  cases hia : a.Inventory with
  | none => exact absurd hia ha
  | some ia =>
    cases hib : b.Inventory with
    | none => exact absurd hib hb
    | some ib => rfl

theorem less_snd_true (f : Bool) {a b : Host} (h : (SortHosts.less f a b).2 = true) :
    f = true ∧ a.Inventory ≠ none ∧ b.Inventory ≠ none := by
  unfold SortHosts.less at h
  cases hia : a.Inventory with
  | none => rw [hia] at h; simp at h
  | some ia =>
    cases hib : b.Inventory with
    | none => rw [hia, hib] at h; simp at h
    | some ib =>
      rw [hia, hib] at h
      exact ⟨h, by simp, by simp⟩

theorem sink_snd_true (x : Host) (l : List Host) (f : Bool)
    (h : (SortHosts.sink x l f).2 = true) : f = true := by
  induction l generalizing f with
  | nil => exact h
  | cons y ys ih =>
    unfold SortHosts.sink at h
    split at h
    · exact (less_snd_true f (ih _ h)).1
    · exact (less_snd_true f h).1

theorem sink_snd_true_head (x y : Host) (ys : List Host) (f : Bool)
    (h : (SortHosts.sink x (y :: ys) f).2 = true) :
    x.Inventory ≠ none ∧ y.Inventory ≠ none := by
  unfold SortHosts.sink at h
  split at h
  · exact (less_snd_true f (sink_snd_true x ys _ h)).2
  · exact (less_snd_true f h).2

theorem sink_snd_of_inventory (x : Host) (l : List Host) (f : Bool)
    (hx : x.Inventory ≠ none) (hl : ∀ y ∈ l, y.Inventory ≠ none) :
    (SortHosts.sink x l f).2 = f := by
  induction l generalizing f with
  | nil => rfl
  | cons y ys ih =>
    have hy := hl y (List.mem_cons_self _ _)
    unfold SortHosts.sink
    split
    · show (SortHosts.sink x ys (SortHosts.less f x y).2).2 = f
      rw [ih _ (fun z hz => hl z (List.mem_cons_of_mem _ hz)), less_snd_of_inventory f hx hy]
    · exact less_snd_of_inventory f hx hy

theorem insertionSort_snd_true (xs done : List Host) (f : Bool)
    (h : (SortHosts.insertionSort xs done f).2 = true) : f = true := by
  induction xs generalizing done f with
  | nil => exact h
  | cons x xs ih =>
    unfold SortHosts.insertionSort at h
    exact sink_snd_true x done f (ih _ _ h)

theorem insertionSort_snd_of_inventory (xs done : List Host) (f : Bool)
    (hx : ∀ x ∈ xs, x.Inventory ≠ none) (hd : ∀ y ∈ done, y.Inventory ≠ none) :
    (SortHosts.insertionSort xs done f).2 = f := by
  induction xs generalizing done f with
  | nil => rfl
  | cons x xs ih =>
    unfold SortHosts.insertionSort
    have hx0 := hx x (List.mem_cons_self _ _)
    rw [ih _ _ (fun z hz => hx z (List.mem_cons_of_mem _ hz)), sink_snd_of_inventory x done f hx0 hd]
    intro y hy
    rcases List.mem_cons.1 ((sink_perm x done f).mem_iff.1 hy) with rfl | hy
    · exact hx0
    · exact hd y hy

/-- Once a first host is in place, a flag that is still `true` at the end tells
that every host compared since has inventory, and so has every host that was
in place, provided these were checked when there were two of them or more. -/
theorem insertionSort_snd_true_all (xs done : List Host) (f : Bool) (hne : done ≠ [])
    (hdone : 2 ≤ done.length → ∀ y ∈ done, y.Inventory ≠ none)
    (h : (SortHosts.insertionSort xs done f).2 = true) :
    (∀ x ∈ xs, x.Inventory ≠ none) ∧ (xs ≠ [] → ∀ y ∈ done, y.Inventory ≠ none) := by
  induction xs generalizing done f with
  | nil => exact ⟨fun x hx => absurd hx (List.not_mem_nil x), fun h0 => absurd rfl h0⟩
  | cons x xs ih =>
    unfold SortHosts.insertionSort at h
    have hf := insertionSort_snd_true xs _ _ h
    obtain ⟨y, ys, rfl⟩ := List.exists_cons_of_ne_nil hne
    obtain ⟨hx, hy⟩ := sink_snd_true_head x y ys f hf
    have hall : ∀ z ∈ y :: ys, z.Inventory ≠ none := by
      cases ys with
      | nil =>
        intro z hz
        rw [List.mem_singleton.1 hz]
        exact hy
      | cons y2 ys2 => exact hdone (by simp)
    have hall2 : ∀ z ∈ (SortHosts.sink x (y :: ys) f).1, z.Inventory ≠ none := by
      intro z hz
      rcases List.mem_cons.1 ((sink_perm x (y :: ys) f).mem_iff.1 hz) with rfl | hz
      · exact hx
      · exact hall z hz
    have hne2 : (SortHosts.sink x (y :: ys) f).1 ≠ [] := by
      intro h0
      have := (sink_perm x (y :: ys) f).length_eq
      rw [h0] at this
      simp at this
    obtain ⟨h1, _⟩ := ih _ _ hne2 (fun _ => hall2) h
    refine ⟨?_, fun _ => hall⟩
    intro z hz
    rcases List.mem_cons.1 hz with rfl | hz
    · exact hx
    · exact h1 z hz

/-- C28: for a list of fewer than two hosts `SortHosts` returns the list
unchanged with the flag `true`, whatever the inventory of the single host is;
for every list of two or more hosts the returned flag is `false` exactly when
some host lacks parseable inventory. -/
theorem SortHosts_flag :
    (∀ hosts : List Host, hosts.length < 2 → SortHosts hosts = (hosts, true)) ∧
      (∀ hosts : List Host, 2 ≤ hosts.length →
        ((SortHosts hosts).2 = false ↔ ∃ h ∈ hosts, h.Inventory = none)) := by
  constructor
  · intro hosts hlen
    match hosts, hlen with
    | [], _ => rfl
    | [x], _ => rfl
    | _ :: _ :: _, h => exact absurd h (by simp)
  · intro hosts hlen
    match hosts, hlen with
    | [], h => exact absurd h (by simp)
    | [x], h => exact absurd h (by simp)
    | x :: y :: rest, _ =>
      have e : SortHosts (x :: y :: rest) = SortHosts.insertionSort (y :: rest) [x] true := rfl
      rw [e]
      constructor
      · intro hfalse
        by_contra hno
        push_neg at hno
        have := insertionSort_snd_of_inventory (y :: rest) [x] true
          (fun z hz => hno z (List.mem_cons_of_mem _ hz))
          (fun z hz => hno z (by rw [List.mem_singleton.1 hz]; exact List.mem_cons_self _ _))
        rw [this] at hfalse
        exact absurd hfalse (by decide)
      · rintro ⟨h, hm, hnone⟩
        by_contra hflag
        have htrue : (SortHosts.insertionSort (y :: rest) [x] true).2 = true := by
          simpa using hflag
        obtain ⟨h1, h2⟩ := insertionSort_snd_true_all (y :: rest) [x] true (by simp)
          (fun hl => absurd hl (by simp)) htrue
        rcases List.mem_cons.1 hm with rfl | hm
        · exact h2 (by simp) h (List.mem_singleton.2 rfl) hnone
        · exact h1 h hm hnone

/-- C28, at instances: the single host H3, without inventory, gets the flag
`true`; the two hosts H1 and H3 get the flag `false`, and H1 and H2 `true`. -/
theorem SortHosts_flag_witness :
    SortHosts [H3] = ([H3], true) ∧
      ((SortHosts [H1, H3]).2 = false ↔ ∃ h ∈ [H1, H3], h.Inventory = none) ∧
      (SortHosts [H1, H3]).2 = false ∧ (SortHosts [H1, H2]).2 = true :=
  ⟨SortHosts_flag.1 [H3] (by decide), SortHosts_flag.2 [H1, H3] (by decide), by decide,
    by decide⟩

/-! ### The comparison is a strict weak order -/

theorem equiv_iff (a b : Host) : SortHosts.equiv a b = true ↔ rank a = rank b := by
  unfold SortHosts.equiv
  rw [Bool.and_eq_true, Bool.not_eq_true', Bool.not_eq_true', ← Bool.not_eq_true,
    ← Bool.not_eq_true, less_fst_iff, less_fst_iff, not_lt, not_lt]
  exact ⟨fun h => le_antisymm h.2 h.1, fun h => ⟨le_of_eq h.symm, le_of_eq h⟩⟩

/-- Two lists in the order of the ranks that have the same hosts of every
rank, in the same order, are equal. -/
theorem eq_of_sorted_of_filter_eq :
    ∀ (l₁ l₂ : List Host), l₁.Pairwise (fun a b => rank a ≤ rank b) →
      l₂.Pairwise (fun a b => rank a ≤ rank b) →
      (∀ k : WithTop Int, l₁.filter (fun h => decide (rank h = k)) =
        l₂.filter (fun h => decide (rank h = k))) →
      l₁ = l₂
  | [], [], _, _, _ => rfl
  | [], y :: t₂, _, _, h => by
    have := h (rank y)
    simp at this
  | x :: t₁, [], _, _, h => by
    have := h (rank x)
    simp at this
  | x :: t₁, y :: t₂, h₁, h₂, h => by
    rw [List.pairwise_cons] at h₁ h₂
    have memx : x ∈ y :: t₂ := by
      have hx : x ∈ (x :: t₁).filter (fun h => decide (rank h = rank x)) := by simp
      rw [h (rank x)] at hx
      exact List.mem_of_mem_filter hx
    have memy : y ∈ x :: t₁ := by
      have hy : y ∈ (y :: t₂).filter (fun h => decide (rank h = rank y)) := by simp
      rw [← h (rank y)] at hy
      exact List.mem_of_mem_filter hy
    have hyx : rank y ≤ rank x := by
      rcases List.mem_cons.1 memx with e | e
      · rw [e]
      · exact h₂.1 x e
    have hxy : rank x ≤ rank y := by
      rcases List.mem_cons.1 memy with e | e
      · rw [e]
      · exact h₁.1 y e
    have hr : rank x = rank y := le_antisymm hxy hyx
    have hk := h (rank x)
    rw [List.filter_cons_of_pos (by simp), List.filter_cons_of_pos (by simp [hr])] at hk
    obtain ⟨hxe, _⟩ := List.cons.inj hk
    subst hxe
    have htail : ∀ k : WithTop Int, t₁.filter (fun h => decide (rank h = k)) =
        t₂.filter (fun h => decide (rank h = k)) := by
      intro k
      have hk := h k
      by_cases hkx : rank x = k
      · rw [List.filter_cons_of_pos (by simp [hkx]), List.filter_cons_of_pos (by simp [hkx])] at hk
        exact (List.cons.inj hk).2
      · rw [List.filter_cons_of_neg (by simp [hkx]), List.filter_cons_of_neg (by simp [hkx])] at hk
        exact hk
    rw [eq_of_sorted_of_filter_eq t₁ t₂ h₁.2 h₂.2 htail]

theorem filter_equiv_eq (c : Host) (l : List Host) :
    l.filter (fun h => SortHosts.equiv h c) = l.filter (fun h => decide (rank h = rank c)) := by
  apply List.filter_congr
  intro h _
  rw [Bool.eq_iff_iff, equiv_iff, decide_eq_true_iff]

/-- C30: the comparison `SortHosts` passes to the stable sort is a strict weak
order on hosts: it is irreflexive and transitive, and incomparability is
transitive; so the stable sort has one result only: every list in the order of
the comparison (no host less than one before it) that keeps the hosts
equivalent to any given host in their input order is the list `SortHosts`
returns. -/
theorem SortHosts_less_strict_weak_order :
    (∀ (f : Bool) (a : Host), (SortHosts.less f a a).1 = false) ∧
      (∀ (f : Bool) (a b c : Host), (SortHosts.less f a b).1 = true →
        (SortHosts.less f b c).1 = true → (SortHosts.less f a c).1 = true) ∧
      (∀ a b c : Host, SortHosts.equiv a b = true → SortHosts.equiv b c = true →
        SortHosts.equiv a c = true) ∧
      (∀ hosts l : List Host,
        l.Pairwise (fun a b => (SortHosts.less true b a).1 = false) →
        (∀ c : Host, l.filter (fun h => SortHosts.equiv h c) =
          hosts.filter (fun h => SortHosts.equiv h c)) →
        l = (SortHosts hosts).1) := by
  refine ⟨?_, ?_, ?_, ?_⟩
  · intro f a
    rw [← Bool.not_eq_true, less_fst_iff]
    exact lt_irrefl _
  · intro f a b c hab hbc
    rw [less_fst_iff] at hab hbc ⊢
    exact lt_trans hab hbc
  · intro a b c hab hbc
    rw [equiv_iff] at hab hbc ⊢
    exact hab.trans hbc
  · intro hosts l hsorted hstable
    have hs : l.Pairwise (fun a b => rank a ≤ rank b) :=
      hsorted.imp (fun {a b} h => by
        rw [← Bool.not_eq_true, less_fst_iff, not_lt] at h
        exact h)
    have hmem : ∀ c ∈ hosts, c ∈ l := by
      intro c hc
      have : c ∈ hosts.filter (fun h => SortHosts.equiv h c) := by
        rw [List.mem_filter, equiv_iff]
        exact ⟨hc, rfl⟩
      rw [← hstable c] at this
      exact List.mem_of_mem_filter this
    have hmem2 : ∀ c ∈ l, c ∈ hosts := by
      intro c hc
      have : c ∈ l.filter (fun h => SortHosts.equiv h c) := by
        rw [List.mem_filter, equiv_iff]
        exact ⟨hc, rfl⟩
      rw [hstable c] at this
      exact List.mem_of_mem_filter this
    apply eq_of_sorted_of_filter_eq l _ hs (insertionSort_sorted hosts [] true List.Pairwise.nil)
    intro k
    have hr := insertionSort_filter hosts [] true k
    rw [List.reverse_nil, List.nil_append] at hr
    show _ = (SortHosts.insertionSort hosts [] true).1.filter _
    rw [hr]
    by_cases hk : ∃ c ∈ hosts, rank c = k
    · obtain ⟨c, _, rfl⟩ := hk
      rw [← filter_equiv_eq c l, ← filter_equiv_eq c hosts]
      exact hstable c
    · push_neg at hk
      rw [List.filter_eq_nil_iff.2 (fun c hc => by simpa using hk c (hmem2 c hc)),
        List.filter_eq_nil_iff.2 (fun c hc => by simpa using hk c hc)]

/-- C30, at an instance: H2 is less than H1 and H1 less than H3, so H2 is
less than H3; and the list H2, H1, H3, which is in the order of the
comparison, is what `SortHosts` returns for it. -/
theorem SortHosts_less_strict_weak_order_witness :
    (SortHosts.less true H2 H1).1 = true ∧ (SortHosts.less true H1 H3).1 = true ∧
      (SortHosts.less true H2 H3).1 = true ∧ [H2, H1, H3] = (SortHosts [H2, H1, H3]).1 :=
  ⟨by decide, by decide,
    SortHosts_less_strict_weak_order.2.1 true H2 H1 H3 (by decide) (by decide),
    SortHosts_less_strict_weak_order.2.2.2 [H2, H1, H3] [H2, H1, H3] (by decide)
      (fun _ => rfl)⟩

end host

/-! ## The reference sort -/

namespace host

open models

/-! ### The reference sort -/

theorem weightLe_trans (a b c : Host) (h1 : weightLe a b = true) (h2 : weightLe b c = true) :
    weightLe a c = true := by
  unfold weightLe at *
  rw [decide_eq_true_iff] at *
  exact le_trans h1 h2

theorem weightLe_total (a b : Host) : (weightLe a b || weightLe b a) = true := by
  unfold weightLe
  rw [Bool.or_eq_true, decide_eq_true_iff, decide_eq_true_iff]
  exact le_total _ _

theorem hasInventory_iff (h : Host) : hasInventory h = true ↔ rank h ≠ ⊤ := by
  rw [Ne, rank_eq_top_iff]
  unfold hasInventory
  cases h.Inventory <;> simp

theorem mergeSort_filter (l : List Host) (k : WithTop Int) :
    (l.mergeSort weightLe).filter (fun h => decide (rank h = k)) =
      l.filter (fun h => decide (rank h = k)) := by
  have hsub : List.Sublist (l.filter (fun h => decide (rank h = k))) (l.mergeSort weightLe) := by
    apply List.sublist_mergeSort weightLe_trans weightLe_total
    · rw [List.pairwise_filter]
      apply List.pairwise_of_forall
      intro a b ha hb
      exact decide_eq_true (by rw [ha, hb])
    · exact List.filter_sublist _
  have hsub2 := hsub.filter (fun h => decide (rank h = k))
  rw [List.filter_filter] at hsub2
  simp only [Bool.and_self] at hsub2
  have hlen : ((l.mergeSort weightLe).filter (fun h => decide (rank h = k))).length =
      (l.filter (fun h => decide (rank h = k))).length :=
    ((List.mergeSort_perm l weightLe).filter _).length_eq
  exact (hsub2.eq_of_length hlen.symm).symm

theorem specSortHosts_sorted (hosts : List Host) :
    (specSortHosts hosts).Pairwise (fun a b => rank a ≤ rank b) := by
  unfold specSortHosts
  rw [List.pairwise_append]
  refine ⟨?_, ?_, ?_⟩
  · exact (List.sorted_mergeSort weightLe_trans weightLe_total _).imp
      (fun {a b} h => by unfold weightLe at h; exact of_decide_eq_true h)
  · apply List.pairwise_of_forall_mem_list
    intro a _ b hb
    have hb2 := (List.mem_filter.1 hb).2
    have : rank b = ⊤ := by
      by_contra hne
      rw [(hasInventory_iff b).2 hne] at hb2
      exact absurd hb2 (by decide)
    rw [this]
    exact le_top
  · intro a _ b hb
    have hb2 := (List.mem_filter.1 hb).2
    have : rank b = ⊤ := by
      by_contra hne
      rw [(hasInventory_iff b).2 hne] at hb2
      exact absurd hb2 (by decide)
    rw [this]
    exact le_top

theorem specSortHosts_filter (hosts : List Host) (k : WithTop Int) :
    (specSortHosts hosts).filter (fun h => decide (rank h = k)) =
      hosts.filter (fun h => decide (rank h = k)) := by
  unfold specSortHosts
  rw [List.filter_append, mergeSort_filter, List.filter_filter, List.filter_filter]
  by_cases hk : k = ⊤
  · subst hk
    have e1 : hosts.filter (fun a => decide (rank a = ⊤) && hasInventory a) = [] := by
      rw [List.filter_eq_nil_iff]
      intro a _ h
      rw [Bool.and_eq_true, decide_eq_true_iff, hasInventory_iff] at h
      exact h.2 h.1
    rw [e1, List.nil_append]
    apply List.filter_congr
    intro a _
    rw [Bool.eq_iff_iff, Bool.and_eq_true, decide_eq_true_iff, Bool.not_eq_true',
      ← Bool.not_eq_true, hasInventory_iff, not_not]
    exact ⟨fun h => h.1, fun h => ⟨h, h⟩⟩
  · have e2 : hosts.filter (fun a => decide (rank a = k) && !hasInventory a) = [] := by
      rw [List.filter_eq_nil_iff]
      intro a _ h
      rw [Bool.and_eq_true, decide_eq_true_iff, Bool.not_eq_true', ← Bool.not_eq_true,
        hasInventory_iff, not_not] at h
      exact hk (h.1.symm.trans h.2)
    rw [e2, List.append_nil]
    apply List.filter_congr
    intro a _
    rw [Bool.eq_iff_iff, Bool.and_eq_true, decide_eq_true_iff, hasInventory_iff]
    exact ⟨fun h => h.1, fun h => ⟨h, by rw [h]; exact hk⟩⟩

/-- C27: for every list of hosts, the list returned by `SortHosts` is a
permutation of the input and equals the reference: the hosts with parseable
inventory, stably sorted ascending by weight, followed by the hosts without
parseable inventory in their input order. -/
theorem SortHosts_eq_specSortHosts (hosts : List Host) :
    (SortHosts hosts).1.Perm hosts ∧ (SortHosts hosts).1 = specSortHosts hosts := by
  constructor
  · have h := insertionSort_perm hosts [] true
    rwa [List.reverse_nil, List.nil_append] at h
  · apply eq_of_sorted_of_filter_eq _ _
      (insertionSort_sorted hosts [] true List.Pairwise.nil) (specSortHosts_sorted hosts)
    intro k
    have hr := insertionSort_filter hosts [] true k
    rw [List.reverse_nil, List.nil_append] at hr
    show (SortHosts.insertionSort hosts [] true).1.filter _ = _
    rw [hr, specSortHosts_filter]

end host

/-! ## The eligible disk capacity -/

namespace host

open models

theorem wrapInt64_of_range {x : Int} (h0 : 0 ≤ x) (h1 : x < 2 ^ 63) : wrapInt64 x = x := by
  unfold wrapInt64
  rw [Int.emod_eq_of_lt (by omega) (by omega)]
  omega

theorem BytesToGib_of_nonneg {b : Int} (h : 0 ≤ b) : BytesToGib b = b / 2 ^ 30 := by
  unfold BytesToGib
  exact Int.tdiv_eq_ediv h (by norm_num)

theorem BytesToGib_nonneg {b : Int} (h : 0 ≤ b) : 0 ≤ BytesToGib b := by
  rw [BytesToGib_of_nonneg h]
  exact Int.ediv_nonneg h (by norm_num)

theorem BytesToGib_mul_le {b : Int} (h : 0 ≤ b) : BytesToGib b * 2 ^ 30 ≤ b := by
  rw [BytesToGib_of_nonneg h]
  exact Int.ediv_mul_le b (by norm_num)

theorem eligibleGiBSum_bounds (disks : List Disk)
    (h0 : ∀ d ∈ disks, d.Eligible = true → 0 ≤ d.SizeBytes) :
    0 ≤ eligibleGiBSum disks ∧ eligibleGiBSum disks * 2 ^ 30 ≤ eligibleBytes disks := by
  unfold eligibleGiBSum eligibleBytes
  induction disks with
  | nil => simp
  | cons d ds ih =>
    have ih := ih (fun e he => h0 e (List.mem_cons_of_mem _ he))
    by_cases hd : d.Eligible = true
    · have hs := h0 d (List.mem_cons_self _ _) hd
      have h1 := BytesToGib_nonneg hs
      have h2 := BytesToGib_mul_le hs
      simp only [List.filter_cons, hd, if_true, List.map_cons, List.sum_cons]
      constructor
      · omega
      · rw [add_mul]
        omega
    · simp only [List.filter_cons, hd]
      exact ih

theorem foldl_diskCapacityGiB (disks : List Disk) (acc : Int)
    (h0 : ∀ d ∈ disks, d.Eligible = true → 0 ≤ d.SizeBytes) (ha : 0 ≤ acc)
    (hs : acc + eligibleGiBSum disks < 2 ^ 63) :
    disks.foldl
        (fun acc d => if d.Eligible then wrapInt64 (acc + BytesToGib d.SizeBytes) else acc) acc =
      acc + eligibleGiBSum disks := by
  induction disks generalizing acc with
  | nil => simp [eligibleGiBSum]
  | cons d ds ih =>
    have hds := fun e he => h0 e (List.mem_cons_of_mem _ he)
    have hb := (eligibleGiBSum_bounds ds hds).1
    by_cases hd : d.Eligible = true
    · have hsz := BytesToGib_nonneg (h0 d (List.mem_cons_self _ _) hd)
      have e : eligibleGiBSum (d :: ds) = BytesToGib d.SizeBytes + eligibleGiBSum ds := by
        simp [eligibleGiBSum, List.filter_cons, hd]
      rw [e] at hs
      rw [List.foldl_cons, if_pos hd, wrapInt64_of_range (by omega) (by omega),
        ih _ hds (by omega) (by omega), e]
      omega
    · have e : eligibleGiBSum (d :: ds) = eligibleGiBSum ds := by
        simp [eligibleGiBSum, List.filter_cons, hd]
      rw [e] at hs ⊢
      rw [List.foldl_cons, if_neg hd]
      exact ih _ hds ha hs

theorem wrapInt64_wrapInt64_add (a b : Int) :
    wrapInt64 (wrapInt64 a + b) = wrapInt64 (a + b) := by
  unfold wrapInt64
  omega

theorem wrapInt64_le_of_nonneg {x : Int} (h : 0 ≤ x) : wrapInt64 x ≤ x := by
  unfold wrapInt64
  omega

theorem foldl_diskCapacityGiB_wrap (disks : List Disk) (acc : Int) :
    disks.foldl
        (fun acc d => if d.Eligible then wrapInt64 (acc + BytesToGib d.SizeBytes) else acc)
        (wrapInt64 acc) =
      wrapInt64 (acc + eligibleGiBSum disks) := by
  induction disks generalizing acc with
  | nil => simp [eligibleGiBSum]
  | cons d ds ih =>
    by_cases hd : d.Eligible = true
    · have e : eligibleGiBSum (d :: ds) = BytesToGib d.SizeBytes + eligibleGiBSum ds := by
        simp [eligibleGiBSum, List.filter_cons, hd]
      rw [List.foldl_cons, if_pos hd, wrapInt64_wrapInt64_add, ih, e, add_assoc]
    · have e : eligibleGiBSum (d :: ds) = eligibleGiBSum ds := by
        simp [eligibleGiBSum, List.filter_cons, hd]
      rw [List.foldl_cons, if_neg hd, ih, e]

theorem diskCapacityGiB_eq_wrap (disks : List Disk) :
    diskCapacityGiB disks = wrapInt64 (eligibleGiBSum disks) := by
  have h := foldl_diskCapacityGiB_wrap disks 0
  have h0 : wrapInt64 0 = 0 := by decide
  rw [h0, zero_add] at h
  exact h

/-- C29 (as stated, refuted): one eligible disk of -1 bytes, which the `int64`
of `SizeBytes` admits, has the capacity 0, the division truncating toward
zero, while its bytes divided by `2 ^ 30` and rounded down are -1: the
capacity is above the whole GiB of the total, and the conversion does not
round down. -/
theorem diskCapacityGiB_negative_size_above_floor :
    diskCapacityGiB [⟨true, -1⟩] = 0 ∧ eligibleBytes [⟨true, -1⟩] / 2 ^ 30 = -1 ∧
      ¬ diskCapacityGiB [⟨true, -1⟩] ≤ eligibleBytes [⟨true, -1⟩] / 2 ^ 30 ∧
      BytesToGib (-1) ≠ -1 / 2 ^ 30 := by
  decide

/-- C29 (amended): for disks whose eligible sizes are not negative, the
eligible disk capacity used in the weight is the `int64` sum over the eligible
disks of each disk's size converted to whole GiB on its own (the size in bytes
divided by `2 ^ 30`, rounded down), and that sum itself while it is below
`2 ^ 63`; it is not the conversion of the summed bytes: it is at most the whole
GiB of the total, and it can be strictly smaller: two eligible disks of
`2 ^ 29` bytes each contribute 0 GiB while their bytes add up to one GiB. -/
theorem diskCapacityGiB_converts_each_disk (disks : List Disk)
    (h0 : ∀ d ∈ disks, d.Eligible = true → 0 ≤ d.SizeBytes) :
    diskCapacityGiB disks =
        wrapInt64 ((disks.filter fun d => d.Eligible).map fun d => d.SizeBytes / 2 ^ 30).sum ∧
      (((disks.filter fun d => d.Eligible).map fun d => d.SizeBytes / 2 ^ 30).sum < 2 ^ 63 →
        diskCapacityGiB disks =
          ((disks.filter fun d => d.Eligible).map fun d => d.SizeBytes / 2 ^ 30).sum) ∧
      diskCapacityGiB disks ≤ eligibleBytes disks / 2 ^ 30 ∧
      diskCapacityGiB [⟨true, 2 ^ 29⟩, ⟨true, 2 ^ 29⟩] = 0 ∧
      eligibleBytes [⟨true, 2 ^ 29⟩, ⟨true, 2 ^ 29⟩] / 2 ^ 30 = 1 := by
  have hb := eligibleGiBSum_bounds disks h0
  have hle : eligibleGiBSum disks ≤ eligibleBytes disks / 2 ^ 30 :=
    Int.le_ediv_of_mul_le (by norm_num) hb.2
  have hsum : ((disks.filter fun d => d.Eligible).map fun d => d.SizeBytes / 2 ^ 30).sum =
      eligibleGiBSum disks := by
    unfold eligibleGiBSum
    congr 1
    apply List.map_congr_left
    intro d hd
    have hd2 := List.mem_filter.1 hd
    exact (BytesToGib_of_nonneg (h0 d hd2.1 hd2.2)).symm
  rw [hsum]
  refine ⟨diskCapacityGiB_eq_wrap disks, ?_, ?_, by decide, by decide⟩
  · intro hlt
    rw [diskCapacityGiB_eq_wrap]
    exact wrapInt64_of_range hb.1 hlt
  · rw [diskCapacityGiB_eq_wrap]
    exact le_trans (wrapInt64_le_of_nonneg hb.1) hle

/-- C29 (amended), at an instance: one eligible disk of 3 GiB and a half, one
eligible disk of half a GiB and one ineligible disk: 3 GiB of capacity, the
eligible bytes adding up to 4 GiB. -/
theorem diskCapacityGiB_converts_each_disk_witness :
    diskCapacityGiB [⟨true, 7 * 2 ^ 29⟩, ⟨false, 2 ^ 40⟩, ⟨true, 2 ^ 29⟩] = 3 ∧
      eligibleBytes [⟨true, 7 * 2 ^ 29⟩, ⟨false, 2 ^ 40⟩, ⟨true, 2 ^ 29⟩] / 2 ^ 30 = 4 ∧
      diskCapacityGiB [⟨true, 7 * 2 ^ 29⟩, ⟨false, 2 ^ 40⟩, ⟨true, 2 ^ 29⟩] ≤
        eligibleBytes [⟨true, 7 * 2 ^ 29⟩, ⟨false, 2 ^ 40⟩, ⟨true, 2 ^ 29⟩] / 2 ^ 30 :=
  ⟨by decide, by decide,
    (diskCapacityGiB_converts_each_disk
      [⟨true, 7 * 2 ^ 29⟩, ⟨false, 2 ^ 40⟩, ⟨true, 2 ^ 29⟩] (by decide)).2.2.1⟩

end host

/-! ## The marginal weights -/

namespace F64

open F64Impl

/-- A product term `T * (float64(v) - float64(v0))` of the weight, for `v` and
`v0` of magnitude at most `2 ^ 40` and a factor `T` below `2 ^ (-3)`, is the
exact product up to a rounding error of `2 ^ (-16)`. -/
theorem mul_sub_err (T : F64) (hT1 : T.units.natAbs < 2 ^ 1071)
    (v v0 : Int) (hv : v.natAbs ≤ 2 ^ 40) (hv0 : v0.natAbs ≤ 2 ^ 40) :
    2 * (T.units * (v - v0)) ≤
        2 * (mul T (sub (ofInt v) (ofInt v0))).units + ((2 ^ 1059 : Nat) : Int) ∧
      2 * (mul T (sub (ofInt v) (ofInt v0))).units ≤
        2 * (T.units * (v - v0)) + ((2 ^ 1059 : Nat) : Int) := by
  have h40 : (2 : Nat) ^ 40 < 2 ^ 52 := Nat.pow_lt_pow_right (by norm_num) (by norm_num)
  have h41 : (2 : Nat) ^ 40 + 2 ^ 40 = 2 ^ 41 := by rw [← Nat.two_mul, ← pow_succ']
  have h52 : (2 : Nat) ^ 52 + 2 ^ 52 = 2 ^ 53 := by rw [← Nat.two_mul, ← pow_succ']
  have hsv : (sub (ofInt v) (ofInt v0)).units = (v - v0) * ((2 ^ unitShift : Nat) : Int) :=
    units_sub_ofInt (by omega) (by omega) (by omega)
  have hmv := units_mul T (sub (ofInt v) (ofInt v0))
  rw [hsv] at hmv
  have hbound : (T.units * ((v - v0) * ((2 ^ unitShift : Nat) : Int))).natAbs < 2 ^ 2186 := by
    rw [Int.natAbs_mul, Int.natAbs_mul, Int.natAbs_ofNat]
    have h1 : (v - v0).natAbs ≤ 2 ^ 41 := by omega
    have hsum : 1071 + (41 + unitShift) = 2186 := rfl
    have e : (2 : Nat) ^ 2186 = 2 ^ 1071 * (2 ^ 41 * 2 ^ unitShift) := by
      rw [← pow_add, ← pow_add, hsum]
    rw [e]
    apply Nat.mul_lt_mul_of_lt_of_le hT1 (Nat.mul_le_mul_right _ h1)
    exact Nat.mul_pos (Nat.two_pow_pos _) (Nat.two_pow_pos _)
  have herr := round53_err unitShift 2186 _ hbound
  rw [← hmv] at herr
  have hk : max unitShift (2186 - 53) = unitShift + 1059 := by decide
  rw [hk, pow_add, Nat.cast_mul] at herr
  have hS : (0 : Int) < ((2 ^ unitShift : Nat) : Int) := Int.ofNat_pos.mpr (Nat.two_pow_pos _)
  generalize (mul T (sub (ofInt v) (ofInt v0))).units = X at *
  generalize ((2 ^ unitShift : Nat) : Int) = S at *
  generalize ((2 ^ 1059 : Nat) : Int) = Q at *
  constructor
  · have e1 : 2 * (T.units * ((v - v0) * S)) = S * (2 * (T.units * (v - v0))) := by ring
    have e2 : 2 * (S * X) + S * Q = S * (2 * X + Q) := by ring
    have h := herr.1
    rw [e1, e2] at h
    exact le_of_mul_le_mul_left h hS
  · have e1 : 2 * (T.units * ((v - v0) * S)) + S * Q = S * (2 * (T.units * (v - v0)) + Q) := by
      ring
    have e2 : 2 * (S * X) = S * (2 * X) := by ring
    have h := herr.2
    rw [e1, e2] at h
    exact le_of_mul_le_mul_left h hS

end F64

namespace host

open models F64Impl

/-- The weight of an inventory whose inputs are of magnitude at most `2 ^ 40`
is the exact value of the formula, with the constants as binary64 has them, up
to a rounding error of `2 ^ (-10)`. -/
theorem hostWeight_approx (a : Inventory) (hc : (cpuCount a).natAbs ≤ 2 ^ 40)
    (hm : (memInGib a).natAbs ≤ 2 ^ 40) (hd : (diskCapacityGiB a.Disks).natAbs ≤ 2 ^ 40) :
    2 * ((cpuCount a - 4) * ((2 ^ F64.unitShift : Nat) : Int) +
          F64.tenth.units * (memInGib a - 16) +
          F64.fourThousandths.units * (diskCapacityGiB a.Disks - 100)) ≤
        2 * (hostWeight a).units + ((2 ^ 1065 : Nat) : Int) ∧
      2 * (hostWeight a).units ≤
        2 * ((cpuCount a - 4) * ((2 ^ F64.unitShift : Nat) : Int) +
          F64.tenth.units * (memInGib a - 16) +
          F64.fourThousandths.units * (diskCapacityGiB a.Disks - 100)) +
          ((2 ^ 1065 : Nat) : Int) := by
  rw [hostWeight_units a hc]
  have h16 : (16 : Int).natAbs ≤ 2 ^ 40 := by norm_num
  have h100 : (100 : Int).natAbs ≤ 2 ^ 40 := by norm_num
  have eM := F64.mul_sub_err F64.tenth tenth_bounds.1 _ 16 hm h16
  have eD := F64.mul_sub_err F64.fourThousandths fourThousandths_bounds.1 _ 100 hd h100
  have bM := abs_lt_of_natAbs_lt (F64.mul_sub_bound F64.tenth tenth_bounds.1 _ 16 hm h16)
  have bD := abs_lt_of_natAbs_lt
    (F64.mul_sub_bound F64.fourThousandths fourThousandths_bounds.1 _ 100 hd h100)
  generalize (F64.mul F64.tenth (F64.sub (F64.ofInt (memInGib a)) (F64.ofInt 16))).units = M at *
  generalize (F64.mul F64.fourThousandths
    (F64.sub (F64.ofInt (diskCapacityGiB a.Disks)) (F64.ofInt 100))).units = D at *
  generalize F64.tenth.units * (memInGib a - 16) = PM at *
  generalize F64.fourThousandths.units * (diskCapacityGiB a.Disks - 100) = PD at *
  generalize cpuCount a = ca at *
  have p1059 : (2 : Nat) ^ 1059 = 16 * 2 ^ 1055 := by
    have : (16 : Nat) = 2 ^ 4 := by norm_num
    rw [this, ← pow_add]
  have p1063 : (2 : Nat) ^ 1063 = 256 * 2 ^ 1055 := by
    have : (256 : Nat) = 2 ^ 8 := by norm_num
    rw [this, ← pow_add]
  have p1064 : (2 : Nat) ^ 1064 = 512 * 2 ^ 1055 := by
    have : (512 : Nat) = 2 ^ 9 := by norm_num
    rw [this, ← pow_add]
  have p1065 : (2 : Nat) ^ 1065 = 1024 * 2 ^ 1055 := by
    have : (1024 : Nat) = 2 ^ 10 := by norm_num
    rw [this, ← pow_add]
  have pS : (2 : Nat) ^ F64.unitShift = 524288 * 2 ^ 1055 := by
    have hu : F64.unitShift = 19 + 1055 := rfl
    have : (524288 : Nat) = 2 ^ 19 := by norm_num
    rw [this, hu, pow_add]
  have p1113 : (2 : Nat) ^ 1113 = 288230376151711744 * 2 ^ 1055 := by
    have : (288230376151711744 : Nat) = 2 ^ 58 := by norm_num
    rw [this, ← pow_add]
  have p1116 : (2 : Nat) ^ 1116 = 2305843009213693952 * 2 ^ 1055 := by
    have : (2305843009213693952 : Nat) = 2 ^ 61 := by norm_num
    rw [this, ← pow_add]
  have p1117 : (2 : Nat) ^ 1117 = 4611686018427387904 * 2 ^ 1055 := by
    have : (4611686018427387904 : Nat) = 2 ^ 62 := by norm_num
    rw [this, ← pow_add]
  have p40 : (2 : Nat) ^ 40 = 1099511627776 := by norm_num
  have hE : 0 < 2 ^ 1055 := Nat.two_pow_pos 1055
  have k1 : max 0 (1116 - 53) = 1063 := by decide
  have k2 : max 0 (1117 - 53) = 1064 := by decide
  have err1 := fun x hx => round53_err 0 1116 x hx
  have err2 := fun x hx => round53_err 0 1117 x hx
  rw [k1] at err1
  rw [k2] at err2
  rw [p1059] at eM eD
  rw [p1113] at bM bD
  rw [p1063, p1116] at err1
  rw [p1064, p1117] at err2
  rw [pS, p1065]
  rw [p40] at hc
  generalize 2 ^ 1055 = E at *
  have hE' : (0 : Int) < (E : Int) := Int.ofNat_pos.mpr hE
  push_cast at *
  have hC1 : (ca - 4) * (524288 * (E : Int)) ≤ 1099511627780 * (524288 * (E : Int)) :=
    Int.mul_le_mul_of_nonneg_right (by omega) (by omega)
  have hC2 : -1099511627780 * (524288 * (E : Int)) ≤ (ca - 4) * (524288 * (E : Int)) :=
    Int.mul_le_mul_of_nonneg_right (by omega) (by omega)
  generalize (ca - 4) * (524288 * (E : Int)) = C at *
  have hx : (C + M).natAbs < 2305843009213693952 * E := by omega
  have e1 := err1 _ hx
  generalize round53 0 (C + M) = R at *
  have hy : (R + D).natAbs < 4611686018427387904 * E := by omega
  have e2 := err2 _ hy
  generalize round53 0 (R + D) = W at *
  constructor <;> omega

theorem ten_tenths :
    10 * F64.tenth.units = ((2 ^ F64.unitShift : Nat) : Int) + ((2 ^ 1020 : Nat) : Int) := by
  have e1 : (2 : Nat) ^ F64.unitShift = 72057594037927936 * 2 ^ 1018 := by
    have hu : F64.unitShift = 56 + 1018 := rfl
    have : (72057594037927936 : Nat) = 2 ^ 56 := by norm_num
    rw [this, hu, pow_add]
  have e2 : (2 : Nat) ^ 1020 = 4 * 2 ^ 1018 := by
    have : (4 : Nat) = 2 ^ 2 := by norm_num
    rw [this, ← pow_add]
  unfold F64.tenth
  rw [Nat.one_shiftLeft, e1, e2]
  generalize 2 ^ 1018 = P
  push_cast
  ring

theorem two_hundred_fifty_fourThousandths :
    250 * F64.fourThousandths.units =
      ((2 ^ F64.unitShift : Nat) : Int) + 24 * ((2 ^ 1014 : Nat) : Int) := by
  have e1 : (2 : Nat) ^ F64.unitShift = 1152921504606846976 * 2 ^ 1014 := by
    have hu : F64.unitShift = 60 + 1014 := rfl
    have : (1152921504606846976 : Nat) = 2 ^ 60 := by norm_num
    rw [this, hu, pow_add]
  unfold F64.fourThousandths
  rw [Nat.one_shiftLeft, e1]
  generalize 2 ^ 1014 = P
  push_cast
  ring

end host

namespace host

open models F64Impl

theorem raiseError_bound (a b : Inventory) (ha : inWeightRange a) (hb : inWeightRange b)
    (dc dm dd : Int) (hc : cpuCount b = cpuCount a + dc) (hm : memInGib b = memInGib a + dm)
    (hd : diskCapacityGiB b.Disks = diskCapacityGiB a.Disks + dd) (x : Int)
    (hx : dc * ((2 ^ F64.unitShift : Nat) : Int) + F64.tenth.units * dm +
        F64.fourThousandths.units * dd =
      ((2 ^ F64.unitShift : Nat) : Int) + x * ((2 ^ 1014 : Nat) : Int))
    (hx0 : 0 ≤ x) (hx1 : x ≤ 64) :
    (raiseError a b).natAbs < 2 ^ 1066 := by
  have A := hostWeight_approx a ha.1 ha.2.1 ha.2.2
  have B := hostWeight_approx b hb.1 hb.2.1 hb.2.2
  rw [hc, hm, hd] at B
  unfold raiseError
  rw [F64.units_ofInt_one]
  have e1 : (cpuCount a + dc - 4) * ((2 ^ F64.unitShift : Nat) : Int) +
      F64.tenth.units * (memInGib a + dm - 16) +
      F64.fourThousandths.units * (diskCapacityGiB a.Disks + dd - 100) =
      ((cpuCount a - 4) * ((2 ^ F64.unitShift : Nat) : Int) +
        F64.tenth.units * (memInGib a - 16) +
        F64.fourThousandths.units * (diskCapacityGiB a.Disks - 100)) +
      (dc * ((2 ^ F64.unitShift : Nat) : Int) + F64.tenth.units * dm +
        F64.fourThousandths.units * dd) := by ring
  rw [e1, hx] at B
  generalize (cpuCount a - 4) * ((2 ^ F64.unitShift : Nat) : Int) +
    F64.tenth.units * (memInGib a - 16) +
    F64.fourThousandths.units * (diskCapacityGiB a.Disks - 100) = X at *
  generalize (hostWeight a).units = Wa at *
  generalize (hostWeight b).units = Wb at *
  generalize ((2 ^ F64.unitShift : Nat) : Int) = U at *
  have p1065 : (2 : Nat) ^ 1065 = 2251799813685248 * 2 ^ 1014 := by
    have : (2251799813685248 : Nat) = 2 ^ 51 := by norm_num
    rw [this, ← pow_add]
  have p1066 : (2 : Nat) ^ 1066 = 4503599627370496 * 2 ^ 1014 := by
    have : (4503599627370496 : Nat) = 2 ^ 52 := by norm_num
    rw [this, ← pow_add]
  have hP : 0 < 2 ^ 1014 := Nat.two_pow_pos 1014
  rw [p1065] at A B
  rw [p1066]
  generalize 2 ^ 1014 = P at *
  have hP' : (0 : Int) < (P : Int) := Int.ofNat_pos.mpr hP
  push_cast at *
  have h1 : x * (P : Int) ≤ 64 * (P : Int) := Int.mul_le_mul_of_nonneg_right hx1 (le_of_lt hP')
  have h2 : 0 ≤ x * (P : Int) := Int.mul_nonneg hx0 (le_of_lt hP')
  generalize x * (P : Int) = xP at *
  omega

/-- C23 (as stated, refuted): from the inventory of 4 cores, 16 GiB and
100 GiB, whose weight is 0, one more core raises the weight to 1.0 and 25 GiB
more of eligible disk to 0.1 only; and one more core and 10 GiB more of memory
do not always give the same weight: from 0 cores, 30 GiB and no disk they give
-2.0 and the next binary64 number above it. -/
theorem hostWeight_marginal_not_equal :
    hostWeight (inventoryOf 4 16 100) = F64.ofInt 0 ∧
      hostWeight (inventoryOf 5 16 100) = F64.ofInt 1 ∧
      hostWeight (inventoryOf 4 16 125) = F64.tenth ∧
      hostWeight (inventoryOf 4 16 125) ≠ hostWeight (inventoryOf 5 16 100) ∧
      hostWeight (inventoryOf 1 30 0) = F64.ofInt (-2) ∧
      hostWeight (inventoryOf 0 40 0) ≠ hostWeight (inventoryOf 1 30 0) := by
  decide

/-- C23 (amended): with the default constants one CPU core weighs as much as
10 GiB of usable memory and as much as 250 GiB of eligible disk capacity, up
to the rounding of binary64: for inventories whose CPU count, memory in GiB
and eligible disk capacity in GiB are of magnitude at most `2 ^ 40`, one more
core, 10 GiB more of memory and 250 GiB more of eligible disk each raise the
weight by 1.0 within `2 ^ (-8)`; from the inventory of 4 cores, 16 GiB and
100 GiB, whose weight is 0, each of the three gives exactly 1.0. -/
theorem hostWeight_marginal (a b : Inventory) (ha : inWeightRange a) (hb : inWeightRange b) :
    (cpuCount b = cpuCount a + 1 → memInGib b = memInGib a →
        diskCapacityGiB b.Disks = diskCapacityGiB a.Disks →
        (raiseError a b).natAbs < 2 ^ 1066) ∧
      (cpuCount b = cpuCount a → memInGib b = memInGib a + 10 →
        diskCapacityGiB b.Disks = diskCapacityGiB a.Disks →
        (raiseError a b).natAbs < 2 ^ 1066) ∧
      (cpuCount b = cpuCount a → memInGib b = memInGib a →
        diskCapacityGiB b.Disks = diskCapacityGiB a.Disks + 250 →
        (raiseError a b).natAbs < 2 ^ 1066) ∧
      hostWeight (inventoryOf 4 16 100) = F64.ofInt 0 ∧
      hostWeight (inventoryOf 5 16 100) = F64.ofInt 1 ∧
      hostWeight (inventoryOf 4 26 100) = F64.ofInt 1 ∧
      hostWeight (inventoryOf 4 16 350) = F64.ofInt 1 := by
  have p1020 : ((2 ^ 1020 : Nat) : Int) = 64 * ((2 ^ 1014 : Nat) : Int) := by
    have : (64 : Nat) = 2 ^ 6 := by norm_num
    have e : (2 : Nat) ^ 1020 = 64 * 2 ^ 1014 := by rw [this, ← pow_add]
    rw [e]
    push_cast
    rfl
  refine ⟨?_, ?_, ?_, by decide, by decide, by decide, by decide⟩
  · intro hc hm hd
    refine raiseError_bound a b ha hb 1 0 0 hc (by rw [hm, add_zero]) (by rw [hd, add_zero]) 0
      ?_ (le_refl 0) (by norm_num)
    ring
  · intro hc hm hd
    refine raiseError_bound a b ha hb 0 10 0 (by rw [hc, add_zero]) hm (by rw [hd, add_zero]) 64
      ?_ (by norm_num) (le_refl 64)
    have := ten_tenths
    rw [p1020] at this
    linear_combination this
  · intro hc hm hd
    refine raiseError_bound a b ha hb 0 0 250 (by rw [hc, add_zero]) (by rw [hm, add_zero]) hd 24
      ?_ (by norm_num) (by norm_num)
    have := two_hundred_fifty_fourThousandths
    linear_combination this

/-- C23 (amended), at the inventory of 0 cores, 30 GiB and no eligible disk:
one more core and 10 GiB more of memory each raise the weight by 1.0 within
`2 ^ (-8)`. -/
theorem hostWeight_marginal_witness :
    (raiseError (inventoryOf 0 30 0) (inventoryOf 1 30 0)).natAbs < 2 ^ 1066 ∧
      (raiseError (inventoryOf 0 30 0) (inventoryOf 0 40 0)).natAbs < 2 ^ 1066 ∧
      (raiseError (inventoryOf 0 30 0) (inventoryOf 0 30 250)).natAbs < 2 ^ 1066 :=
  ⟨(hostWeight_marginal (inventoryOf 0 30 0) (inventoryOf 1 30 0) (by decide) (by decide)).1
      (by decide) (by decide) (by decide),
    (hostWeight_marginal (inventoryOf 0 30 0) (inventoryOf 0 40 0) (by decide) (by decide)).2.1
      (by decide) (by decide) (by decide),
    (hostWeight_marginal (inventoryOf 0 30 0) (inventoryOf 0 30 250) (by decide)
      (by decide)).2.2.1 (by decide) (by decide) (by decide)⟩

end host

/-! ## The phases and the reset -/

namespace host

open models common

/-! ### The order of the phases -/

theorem all_inClusterLoop_hostLoop (a : Answers) (c : Cluster) (r : Bool) (hosts : List Host)
    (n : Calls) : (clusterHostLoop a c r hosts n).1.all Event.inClusterLoop = true := by
  induction hosts generalizing n with
  | nil => rfl
  | cons h hs ih =>
    unfold clusterHostLoop
    split
    · simp only [List.all_append, ih, Bool.and_true]
      cases r <;> cases a.refreshStatusFails n.refreshStatus <;>
        cases a.refreshRoleFails n.refreshRole <;> rfl
    · rfl

theorem all_inClusterLoop_loop (a : Answers) (cs : List Cluster) (n : Calls) :
    (clusterLoop a cs n).1.all Event.inClusterLoop = true := by
  induction cs generalizing n with
  | nil => rfl
  | cons c cs ih =>
    unfold clusterLoop
    simp only []
    split
    · simp only [List.all_append, ih, all_inClusterLoop_hostLoop, Bool.and_true]
    · exact all_inClusterLoop_hostLoop _ _ _ _ _

theorem all_inClusterLoop_pageLoop (a : Answers)
    (pages : List (Except String (List Cluster))) (n : Calls) :
    (clusterPageLoop a pages n).1.all Event.inClusterLoop = true := by
  induction pages generalizing n with
  | nil => rfl
  | cons p pages ih =>
    cases p with
    | error e => rfl
    | ok cs =>
      cases cs with
      | nil => rfl
      | cons c cs =>
        unfold clusterPageLoop
        simp only []
        split
        · simp only [List.all_cons, List.all_append, ih, all_inClusterLoop_loop,
            Bool.and_true]
          rfl
        · simp only [List.all_cons, List.all_append, all_inClusterLoop_loop, Bool.and_true]
          rfl

theorem not_mem_of_all {p : Event → Bool} {t : List Event} {g : Event}
    (h : t.all p = true) (hg : p g = false) : g ∉ t := by
  intro hm
  have := List.all_eq_true.mp h g hm
  rw [hg] at this
  exact absurd this (by simp)

/-- What follows an event in a trace lies in the second part of the trace when
the event does not occur in the first part. -/
theorem mem_of_split {g : Event} {A B pre post : List Event}
    (h : A ++ B = pre ++ g :: post) (hA : g ∉ A) : ∀ e ∈ post, e ∈ B := by
  induction A generalizing pre with
  | nil =>
    intro e he
    rw [List.nil_append] at h
    rw [h]
    exact List.mem_append_right _ (List.mem_cons_of_mem _ he)
  | cons x A2 ih =>
    cases pre with
    | nil =>
      simp only [List.nil_append, List.cons_append, List.cons.injEq] at h
      exact absurd (h.1 ▸ List.mem_cons_self _ _) hA
    | cons y pre2 =>
      simp only [List.cons_append, List.cons.injEq] at h
      exact ih h.2 (fun hm => hA (List.mem_cons_of_mem _ hm))

theorem count_reset_le_one (a : Answers) (n : Calls) :
    (resetRoleAssignmentIfNotAllRolesAreSet a n).1.count Event.resetAutoAssignRoles ≤ 1 := by
  unfold resetRoleAssignmentIfNotAllRolesAreSet
  split
  · split <;> split <;> simp
  · simp

theorem no_fetch_in_reset (a : Answers) (n : Calls) :
    Event.clusterQueryNext ∉ (resetRoleAssignmentIfNotAllRolesAreSet a n).1 ∧
      Event.infraEnvQueryNext ∉ (resetRoleAssignmentIfNotAllRolesAreSet a n).1 := by
  unfold resetRoleAssignmentIfNotAllRolesAreSet
  split
  · split <;> split <;> simp
  · simp

theorem not_isClusterCall_of_inInfraEnvPhase (e : Event) (h : e.inInfraEnvPhase = true) :
    e.isClusterCall = false ∧ e ≠ Event.resetAutoAssignRoles := by
  cases e with
  | refreshStatus host c i =>
    cases c with
    | none => exact ⟨rfl, by simp⟩
    | some c => cases i <;> simp [Event.inInfraEnvPhase] at h
  | refreshRole host force => simp [Event.inInfraEnvPhase] at h
  | resetAutoAssignRoles => simp [Event.inInfraEnvPhase] at h
  | newClusterQuery => simp [Event.inInfraEnvPhase] at h
  | clusterQueryNext => simp [Event.inInfraEnvPhase] at h
  | _ => exact ⟨rfl, by simp⟩

/-- C21: within one invocation the phases run in the order reset, clusters,
infra-envs: the auto-assign reset is performed at most once and never after a
cluster batch has been fetched, and no call of the cluster cursor, no refresh
of a cluster host and no reset comes after an infra-env batch has been
fetched. -/
theorem HostMonitoring_phase_order (a : Answers) :
    (HostMonitoring a).count Event.resetAutoAssignRoles ≤ 1 ∧
      (∀ pre post, HostMonitoring a = pre ++ Event.clusterQueryNext :: post →
        Event.resetAutoAssignRoles ∉ post) ∧
      (∀ pre post, HostMonitoring a = pre ++ Event.infraEnvQueryNext :: post →
        ∀ e ∈ post, e.isClusterCall = false ∧ e ≠ Event.resetAutoAssignRoles) := by
  unfold HostMonitoring
  split
  · simp only [clusterHostMonitoring, infraEnvHostMonitoring]
    generalize hn0 : ({ isLeader := 1, refreshStatus := 0, refreshRole := 0 } : Calls) = n0
    have hc := count_reset_le_one a n0
    have hf := no_fetch_in_reset a n0
    generalize resetRoleAssignmentIfNotAllRolesAreSet a n0 = rs at hc hf
    have hpl := all_inClusterLoop_pageLoop a a.clusterPages rs.2
    generalize clusterPageLoop a a.clusterPages rs.2 = pl at hpl
    have hil := all_inInfraEnvPhase_pageLoop a a.infraEnvPages pl.2
    generalize infraEnvPageLoop a a.infraEnvPages pl.2 = il at hil
    have hplr : Event.resetAutoAssignRoles ∉ pl.1 := not_mem_of_all hpl rfl
    have hilr : Event.resetAutoAssignRoles ∉ il.1 := not_mem_of_all hil rfl
    refine ⟨?_, ?_, ?_⟩
    · rw [List.count_append, List.count_append, List.count_append, List.count_append,
        List.count_append, List.count_eq_zero.2 hplr]
      have : (Event.newInfraEnvQuery :: il.1).count Event.resetAutoAssignRoles = 0 := by
        rw [List.count_eq_zero]
        intro hm
        rcases List.mem_cons.1 hm with h | h
        · exact absurd h (by decide)
        · exact hilr h
      rw [this]
      have e1 : ([Event.isLeader true, Event.measureOperation "HostMonitoring",
          Event.initMonitoringQueryGenerator] : List Event).count Event.resetAutoAssignRoles = 0 :=
        by decide
      have e2 : ([Event.newClusterQuery] : List Event).count Event.resetAutoAssignRoles = 0 := by
        decide
      have e3 : ([Event.reportOperationDuration "HostMonitoring"] : List Event).count
          Event.resetAutoAssignRoles = 0 := by decide
      rw [e1, e2, e3]
      omega
    · intro pre post h
      have hA : Event.clusterQueryNext ∉
          [Event.isLeader true, Event.measureOperation "HostMonitoring",
            Event.initMonitoringQueryGenerator] ++ (rs.1 ++ [Event.newClusterQuery]) := by
        intro hm
        rcases List.mem_append.1 hm with hm | hm
        · exact absurd hm (by decide)
        · rcases List.mem_append.1 hm with hm | hm
          · exact hf.1 hm
          · exact absurd hm (by decide)
      have hB := mem_of_split (B := pl.1 ++ (Event.newInfraEnvQuery :: il.1 ++
        [Event.reportOperationDuration "HostMonitoring"])) (by
          rw [← h]
          simp only [List.append_assoc]) hA
      intro hm
      have := hB _ hm
      simp only [List.mem_append, List.mem_cons, List.mem_singleton, List.not_mem_nil,
        or_false] at this
      rcases this with h1 | (h1 | h1) | h1
      · exact hplr h1
      · exact absurd h1 (by decide)
      · exact hilr h1
      · exact absurd h1 (by decide)
    · intro pre post h
      have hA : Event.infraEnvQueryNext ∉
          [Event.isLeader true, Event.measureOperation "HostMonitoring",
            Event.initMonitoringQueryGenerator] ++
              (rs.1 ++ [Event.newClusterQuery] ++ pl.1 ++ [Event.newInfraEnvQuery]) := by
        intro hm
        simp only [List.mem_append, List.mem_cons, List.mem_singleton, List.not_mem_nil,
          or_false] at hm
        rcases hm with (hm | hm | hm) | ((hm | hm) | hm) | hm
        · exact absurd hm (by decide)
        · exact absurd hm (by decide)
        · exact absurd hm (by decide)
        · exact hf.2 hm
        · exact absurd hm (by decide)
        · exact (not_mem_of_all (g := Event.infraEnvQueryNext) hpl rfl) hm
        · exact absurd hm (by decide)
      have hB := mem_of_split
        (B := il.1 ++ [Event.reportOperationDuration "HostMonitoring"]) (by
          rw [← h]
          simp only [List.append_assoc, List.cons_append, List.nil_append]) hA
      intro e he
      rcases List.mem_append.1 (hB e he) with h1 | h1
      · exact not_isClusterCall_of_inInfraEnvPhase e (List.all_eq_true.mp hil e h1)
      · rw [List.mem_singleton.1 h1]
        exact ⟨rfl, by decide⟩
  · refine ⟨by decide, ?_, ?_⟩
    · intro pre post h
      have hm : Event.clusterQueryNext ∈ pre ++ Event.clusterQueryNext :: post := by simp
      rw [← h] at hm
      exact absurd hm (by decide)
    · intro pre post h
      have hm : Event.infraEnvQueryNext ∈ pre ++ Event.infraEnvQueryNext :: post := by simp
      rw [← h] at hm
      exact absurd hm (by decide)

end host

namespace host

open models common

/-- C21, at `resetFailsRun`: the first cluster batch is fetched by the ninth
call of the trace and the first infra-env batch by the twenty-eighth; no reset
follows the one, and no cluster call and no reset the other. -/
theorem HostMonitoring_phase_order_witness :
    HostMonitoring resetFailsRun =
        (HostMonitoring resetFailsRun).take 8 ++
          Event.clusterQueryNext :: (HostMonitoring resetFailsRun).drop 9 ∧
      Event.resetAutoAssignRoles ∉ (HostMonitoring resetFailsRun).drop 9 ∧
      HostMonitoring resetFailsRun =
        (HostMonitoring resetFailsRun).take 27 ++
          Event.infraEnvQueryNext :: (HostMonitoring resetFailsRun).drop 28 ∧
      ∀ e ∈ (HostMonitoring resetFailsRun).drop 28,
        e.isClusterCall = false ∧ e ≠ Event.resetAutoAssignRoles :=
  ⟨by decide,
    (HostMonitoring_phase_order resetFailsRun).2.1 ((HostMonitoring resetFailsRun).take 8) _
      (by decide),
    by decide,
    (HostMonitoring_phase_order resetFailsRun).2.2 ((HostMonitoring resetFailsRun).take 27) _
      (by decide)⟩

/-! ### The reset and its error -/

theorem clusterHostLoop_resetFails (a : Answers) (b : Bool) (c : Cluster) (r : Bool)
    (hosts : List Host) (n : Calls) :
    clusterHostLoop { a with resetFails := b } c r hosts n = clusterHostLoop a c r hosts n := by
  induction hosts generalizing n with
  | nil => rfl
  | cons h hs ih =>
    unfold clusterHostLoop
    simp only [ih]

theorem clusterLoop_resetFails (a : Answers) (b : Bool) (cs : List Cluster) (n : Calls) :
    clusterLoop { a with resetFails := b } cs n = clusterLoop a cs n := by
  induction cs generalizing n with
  | nil => rfl
  | cons c cs ih =>
    unfold clusterLoop
    simp only [ih, clusterHostLoop_resetFails]

theorem clusterPageLoop_resetFails (a : Answers) (b : Bool)
    (pages : List (Except String (List Cluster))) (n : Calls) :
    clusterPageLoop { a with resetFails := b } pages n = clusterPageLoop a pages n := by
  induction pages generalizing n with
  | nil => rfl
  | cons p pages ih =>
    cases p with
    | error e => rfl
    | ok cs =>
      cases cs with
      | nil => rfl
      | cons c cs =>
        unfold clusterPageLoop
        simp only [ih, clusterLoop_resetFails]

theorem infraEnvHostLoop_resetFails (a : Answers) (b : Bool) (i : InfraEnv)
    (hosts : List Host) (n : Calls) :
    infraEnvHostLoop { a with resetFails := b } i hosts n = infraEnvHostLoop a i hosts n := by
  induction hosts generalizing n with
  | nil => rfl
  | cons h hs ih =>
    unfold infraEnvHostLoop
    simp only [ih]

theorem infraEnvLoop_resetFails (a : Answers) (b : Bool) (is : List InfraEnv) (n : Calls) :
    infraEnvLoop { a with resetFails := b } is n = infraEnvLoop a is n := by
  induction is generalizing n with
  | nil => rfl
  | cons i is ih =>
    unfold infraEnvLoop
    simp only [ih, infraEnvHostLoop_resetFails]

theorem infraEnvPageLoop_resetFails (a : Answers) (b : Bool)
    (pages : List (Except String (List InfraEnv))) (n : Calls) :
    infraEnvPageLoop { a with resetFails := b } pages n = infraEnvPageLoop a pages n := by
  induction pages generalizing n with
  | nil => rfl
  | cons p pages ih =>
    cases p with
    | error e => rfl
    | ok is =>
      cases is with
      | nil => rfl
      | cons i is =>
        unfold infraEnvPageLoop
        simp only [ih, infraEnvLoop_resetFails]

theorem HostMonitoring_eq_of_reset (a : Answers) (h0 : a.isLeader 0 = true)
    (h1 : a.isLeader 1 = true) :
    HostMonitoring a =
      uptoReset ++ (if a.resetFails then [resetErrorLog] else []) ++ afterReset a := by
  unfold HostMonitoring clusterHostMonitoring resetRoleAssignmentIfNotAllRolesAreSet
  rw [if_pos h0]
  simp only []
  rw [if_pos h1]
  unfold afterReset afterResetCheck uptoReset resetErrorLog
  simp only [List.append_assoc, List.cons_append, List.nil_append]

theorem HostMonitoring_eq_of_no_reset (a : Answers) (h0 : a.isLeader 0 = true)
    (h1 : ¬ a.isLeader 1 = true) :
    HostMonitoring a =
      [Event.isLeader true, Event.measureOperation "HostMonitoring",
        Event.initMonitoringQueryGenerator, Event.isLeader false] ++ afterResetCheck a := by
  unfold HostMonitoring clusterHostMonitoring resetRoleAssignmentIfNotAllRolesAreSet
  rw [if_pos h0]
  simp only []
  rw [if_neg h1]
  unfold afterResetCheck
  simp only [List.append_assoc, List.cons_append, List.nil_append]

theorem HostMonitoring_eq_of_not_leader (a : Answers) (h0 : ¬ a.isLeader 0 = true) :
    HostMonitoring a =
      [Event.isLeader false, Event.log .debug "Not a leader, exiting HostMonitoring"] := by
  unfold HostMonitoring
  rw [if_neg h0]

theorem afterResetCheck_resetFails (a : Answers) (b : Bool) :
    afterResetCheck { a with resetFails := b } = afterResetCheck a := by
  unfold afterResetCheck infraEnvHostMonitoring
  simp only [clusterPageLoop_resetFails, infraEnvPageLoop_resetFails]

theorem afterReset_resetFails (a : Answers) (b : Bool) :
    afterReset { a with resetFails := b } = afterReset a := by
  unfold afterReset
  rw [afterResetCheck_resetFails]

theorem reset_not_mem_afterResetCheck (a : Answers) :
    Event.resetAutoAssignRoles ∉ afterResetCheck a := by
  unfold afterResetCheck infraEnvHostMonitoring
  have hpl := all_inClusterLoop_pageLoop a a.clusterPages
    { isLeader := 2, refreshStatus := 0, refreshRole := 0 }
  generalize clusterPageLoop a a.clusterPages
    { isLeader := 2, refreshStatus := 0, refreshRole := 0 } = pl at hpl
  have hil := all_inInfraEnvPhase_pageLoop a a.infraEnvPages pl.2
  generalize infraEnvPageLoop a a.infraEnvPages pl.2 = il at hil
  intro hm
  simp only [List.mem_append, List.mem_cons, List.mem_singleton, List.not_mem_nil,
    or_false] at hm
  rcases hm with ((hm | hm) | hm | hm) | hm
  · exact absurd hm (by decide)
  · exact (not_mem_of_all (g := Event.resetAutoAssignRoles) hpl rfl) hm
  · exact absurd hm (by decide)
  · exact (not_mem_of_all (g := Event.resetAutoAssignRoles) hil rfl) hm
  · exact absurd hm (by decide)

theorem HostMonitoring_resetFails_of_not_leader (a : Answers) (b : Bool)
    (h : ¬ (a.isLeader 0 = true ∧ a.isLeader 1 = true)) :
    HostMonitoring { a with resetFails := b } = HostMonitoring a ∧
      Event.resetAutoAssignRoles ∉ HostMonitoring a := by
  by_cases h0 : a.isLeader 0 = true
  · have h1 : ¬ a.isLeader 1 = true := fun h1 => h ⟨h0, h1⟩
    rw [HostMonitoring_eq_of_no_reset { a with resetFails := b } h0 h1,
      HostMonitoring_eq_of_no_reset a h0 h1, afterResetCheck_resetFails]
    refine ⟨rfl, fun hm => ?_⟩
    rcases List.mem_append.1 hm with hm | hm
    · exact absurd hm (by decide)
    · exact reset_not_mem_afterResetCheck a hm
  · rw [HostMonitoring_eq_of_not_leader { a with resetFails := b } h0,
      HostMonitoring_eq_of_not_leader a h0]
    exact ⟨rfl, by decide⟩

/-- C22: the auto-assign reset is attempted only if `IsLeader()` answers `true`
at its own check, the second check of the invocation, and an error returned by
the reset is not propagated: the invocation whose reset fails logs the error
and then makes the very calls of the invocation whose reset succeeds, the
cluster phase and the infra-env phase included. -/
theorem HostMonitoring_reset_error_not_propagated (a : Answers) :
    (Event.resetAutoAssignRoles ∈ HostMonitoring a ↔
        a.isLeader 0 = true ∧ a.isLeader 1 = true) ∧
      (a.isLeader 0 = true → a.isLeader 1 = true →
        HostMonitoring { a with resetFails := false } = uptoReset ++ afterReset a ∧
          HostMonitoring { a with resetFails := true } =
            uptoReset ++ resetErrorLog :: afterReset a) ∧
      (¬ (a.isLeader 0 = true ∧ a.isLeader 1 = true) →
        HostMonitoring { a with resetFails := true } =
          HostMonitoring { a with resetFails := false }) := by
  refine ⟨?_, ?_, ?_⟩
  · constructor
    · intro hm
      by_contra hn
      exact (HostMonitoring_resetFails_of_not_leader a false hn).2 hm
    · rintro ⟨h0, h1⟩
      rw [HostMonitoring_eq_of_reset a h0 h1]
      simp [uptoReset]
  · intro h0 h1
    constructor
    · rw [HostMonitoring_eq_of_reset { a with resetFails := false } h0 h1,
        afterReset_resetFails]
      simp
    · rw [HostMonitoring_eq_of_reset { a with resetFails := true } h0 h1,
        afterReset_resetFails]
      simp
  · intro hn
    rw [(HostMonitoring_resetFails_of_not_leader a true hn).1,
      (HostMonitoring_resetFails_of_not_leader a false hn).1]

/-- C22, at `resetFailsRun`: the trace of the run whose reset fails is that of
the same run with a successful reset, with the error line after the reset. -/
theorem HostMonitoring_reset_error_not_propagated_witness :
    HostMonitoring resetFailsRun = uptoReset ++ resetErrorLog :: afterReset resetFailsRun ∧
      HostMonitoring { resetFailsRun with resetFails := false } =
        uptoReset ++ afterReset resetFailsRun ∧
      Event.resetAutoAssignRoles ∉ HostMonitoring lossAtResetRun :=
  ⟨((HostMonitoring_reset_error_not_propagated resetFailsRun).2.1 rfl rfl).2,
    ((HostMonitoring_reset_error_not_propagated resetFailsRun).2.1 rfl rfl).1,
    fun hm => absurd ((HostMonitoring_reset_error_not_propagated lossAtResetRun).1.1 hm).2
      (by decide)⟩

end host

namespace host

open models common

/-! ### The per-host duration -/

theorem durationReported_append {s : Bool} {t u : List Event}
    (h1 : durationReported s t = true) (h2 : durationReported false u = true) :
    durationReported s (t ++ u) = true := by
  induction t generalizing s with
  | nil =>
    cases s with
    | false => exact h2
    | true => exact absurd h1 (by decide)
  | cons e rest ih =>
    cases e <;>
      simp only [List.cons_append, durationReported, Bool.and_eq_true] at h1 ⊢ <;>
      exact ⟨h1.1, ih h1.2⟩

theorem durationReported_count {s : Bool} {t : List Event} (h : durationReported s t = true) :
    t.count Event.monitoredHostsDurationMs =
      (t.filter Event.isStatusRefresh).length + (if s then 1 else 0) := by
  induction t generalizing s with
  | nil =>
    cases s with
    | false => rfl
    | true => exact absurd h (by decide)
  | cons e rest ih =>
    cases e with
    | refreshStatus host c i =>
      simp only [durationReported, Bool.and_eq_true, Bool.not_eq_true'] at h
      rw [List.count_cons_of_ne (by simp), ih h.2, h.1,
        List.filter_cons_of_pos (by rfl)]
      simp
    | monitoredHostsDurationMs =>
      simp only [durationReported, Bool.and_eq_true] at h
      rw [List.count_cons_self, ih h.2, h.1, List.filter_cons_of_neg (by simp [Event.isStatusRefresh])]
      simp
    | _ =>
      simp only [durationReported, Bool.and_eq_true, Bool.not_eq_true'] at h
      rw [List.count_cons_of_ne (by simp), ih h.2, h.1,
        List.filter_cons_of_neg (by simp [Event.isStatusRefresh])]

theorem durationReported_reset (a : Answers) (n : Calls) :
    durationReported false (resetRoleAssignmentIfNotAllRolesAreSet a n).1 = true := by
  unfold resetRoleAssignmentIfNotAllRolesAreSet
  split
  · split <;> split <;> rfl
  · rfl

theorem durationReported_clusterHostLoop (a : Answers) (c : Cluster) (r : Bool)
    (hosts : List Host) (n : Calls) :
    durationReported false (clusterHostLoop a c r hosts n).1 = true := by
  induction hosts generalizing n with
  | nil => rfl
  | cons h hs ih =>
    unfold clusterHostLoop
    split
    · simp only []
      refine durationReported_append ?_ (ih _)
      cases r <;> cases a.refreshStatusFails n.refreshStatus <;>
        cases a.refreshRoleFails n.refreshRole <;> rfl
    · rfl

theorem durationReported_clusterLoop (a : Answers) (cs : List Cluster) (n : Calls) :
    durationReported false (clusterLoop a cs n).1 = true := by
  induction cs generalizing n with
  | nil => rfl
  | cons c cs ih =>
    unfold clusterLoop
    simp only []
    split
    · exact durationReported_append (durationReported_clusterHostLoop _ _ _ _ _) (ih _)
    · exact durationReported_clusterHostLoop _ _ _ _ _

theorem durationReported_clusterPageLoop (a : Answers)
    (pages : List (Except String (List Cluster))) (n : Calls) :
    durationReported false (clusterPageLoop a pages n).1 = true := by
  induction pages generalizing n with
  | nil => rfl
  | cons p pages ih =>
    cases p with
    | error e => rfl
    | ok cs =>
      cases cs with
      | nil => rfl
      | cons c cs =>
        unfold clusterPageLoop
        simp only []
        split
        · simp only [List.append_assoc]
          refine durationReported_append (t := [_, _]) rfl ?_
          refine durationReported_append (durationReported_clusterLoop _ _ _) ?_
          exact durationReported_append (t := [_]) rfl (ih _)
        · exact durationReported_append (t := [_, _]) rfl (durationReported_clusterLoop _ _ _)

theorem durationReported_infraEnvHostLoop (a : Answers) (i : InfraEnv) (hosts : List Host)
    (n : Calls) : durationReported false (infraEnvHostLoop a i hosts n).1 = true := by
  induction hosts generalizing n with
  | nil => rfl
  | cons h hs ih =>
    unfold infraEnvHostLoop
    split
    · split
      · simp only []
        refine durationReported_append ?_ (ih _)
        cases a.refreshStatusFails n.refreshStatus <;> rfl
      · exact durationReported_append (t := [_]) rfl (ih _)
    · rfl

theorem durationReported_infraEnvLoop (a : Answers) (is : List InfraEnv) (n : Calls) :
    durationReported false (infraEnvLoop a is n).1 = true := by
  induction is generalizing n with
  | nil => rfl
  | cons i is ih =>
    unfold infraEnvLoop
    simp only []
    split
    · exact durationReported_append (durationReported_infraEnvHostLoop _ _ _ _) (ih _)
    · exact durationReported_infraEnvHostLoop _ _ _ _

theorem durationReported_infraEnvPageLoop (a : Answers)
    (pages : List (Except String (List InfraEnv))) (n : Calls) :
    durationReported false (infraEnvPageLoop a pages n).1 = true := by
  induction pages generalizing n with
  | nil => rfl
  | cons p pages ih =>
    cases p with
    | error e => rfl
    | ok is =>
      cases is with
      | nil => rfl
      | cons i is =>
        unfold infraEnvPageLoop
        simp only []
        split
        · refine durationReported_append (t := [_]) rfl ?_
          exact durationReported_append (durationReported_infraEnvLoop _ _ _) (ih _)
        · exact durationReported_append (t := [_]) rfl (durationReported_infraEnvLoop _ _ _)

theorem durationReported_HostMonitoring (a : Answers) :
    durationReported false (HostMonitoring a) = true := by
  unfold HostMonitoring
  split
  · simp only [List.append_assoc, clusterHostMonitoring, infraEnvHostMonitoring]
    refine durationReported_append (t := [_, _, _]) rfl ?_
    refine durationReported_append (durationReported_reset _ _) ?_
    refine durationReported_append (t := [_]) rfl ?_
    refine durationReported_append (durationReported_clusterPageLoop _ _ _) ?_
    refine durationReported_append (t := [_]) rfl ?_
    exact durationReported_append (durationReported_infraEnvPageLoop _ _ _) rfl
  · rfl

/-- C25: in both phases the per-host duration is reported exactly once per
status refresh, right after the call, whether it succeeded or failed, and
never otherwise (not for a role refresh, not for a host that was skipped): in
every invocation each status refresh is followed at once by one report, each
report follows a status refresh at once, and the number of reports equals the
number of status refreshes.  In `failingRefreshRun`, where every status
refresh fails, there are five of each. -/
theorem HostMonitoring_duration_per_status_refresh :
    (∀ a : Answers,
        durationReported false (HostMonitoring a) = true ∧
          (HostMonitoring a).count Event.monitoredHostsDurationMs =
            ((HostMonitoring a).filter Event.isStatusRefresh).length) ∧
      (HostMonitoring failingRefreshRun).count Event.monitoredHostsDurationMs = 5 ∧
      ((HostMonitoring unboundRun).filter Event.isStatusRefresh).length = 2 ∧
      (HostMonitoring unboundRun).count Event.monitoredHostsDurationMs = 2 := by
  refine ⟨fun a => ⟨durationReported_HostMonitoring a, ?_⟩, by decide, by decide, by decide⟩
  have h := durationReported_count (durationReported_HostMonitoring a)
  simpa using h

end host

/-! ## The steps of the connectivity check -/

namespace hostcommands

open models

/-- C26: for every host whose cluster row and host row are found and whose
ignition endpoint can be built, `GetSteps` returns no error and exactly one
step, of type api-vip-connectivity-check, with exactly one argument, the JSON
text of a request for the endpoint URL; this also when the stored additional
headers are not valid JSON: the malformed headers are dropped, and the headers
of the request are then the single header `Authorization: Bearer <token>` when
the ignition token is not empty and no header when it is empty.  When a lookup
or the construction of the endpoint fails, `GetSteps` returns that error and no
steps. -/
theorem GetSteps_returns_one_step (env : Env) (host : Host) :
    (∀ cluster commonHost url cert, env.firstCluster host = Except.ok cluster →
        env.firstHost host = Except.ok commonHost →
        env.GetIgnitionEndpointAndCert cluster host = Except.ok (url, cert) →
        ∃ request : APIVipConnectivityRequest,
          GetSteps env host =
              ([{ StepType := StepTypeAPIVipConnectivityCheck, Args := [env.encode request] }],
                none) ∧
            request.URL = some url ∧ request.CaCertificate = cert ∧
            (∀ err, env.jsonUnmarshal commonHost.IgnitionEndpointHTTPHeaders = Except.error err →
              request.RequestHeaders = tokenHeaders commonHost.IgnitionEndpointToken)) ∧
      (∀ err, env.firstCluster host = Except.error err → GetSteps env host = ([], some err)) ∧
      (∀ cluster err, env.firstCluster host = Except.ok cluster →
        env.firstHost host = Except.error err → GetSteps env host = ([], some err)) ∧
      (∀ cluster commonHost err, env.firstCluster host = Except.ok cluster →
        env.firstHost host = Except.ok commonHost →
        env.GetIgnitionEndpointAndCert cluster host = Except.error err →
        GetSteps env host = ([], some err)) := by
  refine ⟨?_, ?_, ?_, ?_⟩
  · intro cluster commonHost url cert hc hh he
    unfold GetSteps
    simp only [hc, hh, he, jsonMarshal]
    refine ⟨_, rfl, ?_, ?_, ?_⟩
    · cases cert <;> split <;> rfl
    · cases cert <;> split <;> rfl
    · intro err hu
      simp only [hu, tokenHeaders]
      by_cases ht : commonHost.IgnitionEndpointToken = "" <;>
        by_cases hhd : commonHost.IgnitionEndpointHTTPHeaders = "" <;> simp [ht, hhd]
  · intro err hc
    unfold GetSteps
    simp only [hc]
  · intro cluster err hc hh
    unfold GetSteps
    simp only [hc, hh]
  · intro cluster commonHost err hc hh he
    unfold GetSteps
    simp only [hc, hh, he]

/-- C26, at instances: with the token `secret` and additional headers that are
not JSON the one step carries the request with the Authorization header alone;
with a failing lookup of the host row the error is returned and no step. -/
theorem GetSteps_returns_one_step_witness :
    GetSteps malformedHeadersEnv host.H1 =
        ([{ StepType := "api-vip-connectivity-check",
            Args := ["https://api.example/config/worker;Authorization: Bearer secret"] }],
          none) ∧
      (∃ request : APIVipConnectivityRequest,
        GetSteps malformedHeadersEnv host.H1 =
            ([{ StepType := StepTypeAPIVipConnectivityCheck,
                Args := [malformedHeadersEnv.encode request] }], none) ∧
          request.URL = some "https://api.example/config/worker" ∧
          request.CaCertificate = none ∧
          (∀ err, malformedHeadersEnv.jsonUnmarshal "not json" = Except.error err →
            request.RequestHeaders = tokenHeaders "secret")) ∧
      GetSteps missingHostEnv host.H1 = ([], some "record not found") :=
  ⟨by decide,
    (GetSteps_returns_one_step malformedHeadersEnv host.H1).1 { ID := "c1", Hosts := [] }
      { IgnitionEndpointToken := "secret", IgnitionEndpointHTTPHeaders := "not json" }
      "https://api.example/config/worker" none rfl rfl rfl,
    (GetSteps_returns_one_step missingHostEnv host.H1).2.2.1 { ID := "c1", Hosts := [] }
      "record not found" rfl rfl⟩

end hostcommands
